import Mathlib

/-!
# RPGMap: a shallow embedding of `map.c` and `explorer.c`

The map is a `char **`: an array of NUL-terminated strings.  A row is modelled
by the list of the characters before its terminator, so `strlen` is the length
of the list and a row never holds a NUL character.  Every read or write through
`map[i][j]` is modelled by `getCell` / `setCell`, which fail (`none`) when the
index is outside the rows or outside the characters of the row: the C program
has undefined behaviour there.  Memory management (`malloc`, `free`,
`freeMap`) is not modelled.  The C `int`s are `Int`s.

The global variables of `explorer.c` are the fields of `State`.
-/

namespace RPGMap

/-! ## Grid primitives -/

/-- The map: a list of rows, each row the characters of a C string. -/
abbrev Grid := List (List Char)

/-- `INITIAL_MAP_SIZE` of `map.h`. -/
abbrev INITIAL_MAP_SIZE : Int := 3
/-- `NORTH` of `map.h`. -/
abbrev NORTH : Int := 8
/-- `SOUTH` of `map.h`. -/
abbrev SOUTH : Int := 2
/-- `EAST` of `map.h`. -/
abbrev EAST : Int := 6
/-- `WEST` of `map.h`. -/
abbrev WEST : Int := 4

/-- The read `map[i][j]`; `none` when the access is out of bounds. -/
def getCell (map : Grid) (i j : Int) : Option Char :=
  if 0 ≤ i ∧ 0 ≤ j then
    match map[i.toNat]? with
    | some row => row[j.toNat]?
    | none => none
  else none

/-- The write `map[i][j] = c`; `none` when the access is out of bounds. -/
def setCell (map : Grid) (i j : Int) (c : Char) : Option Grid :=
  if 0 ≤ i ∧ 0 ≤ j then
    match map[i.toNat]? with
    | some row =>
      if j.toNat < row.length then some (map.set i.toNat (row.set j.toNat c)) else none
    | none => none
  else none

/-- The read `this[i]` of a `char this[4]` argument: the characters of the
string, then its NUL terminator. -/
def charAt (sequence : List Char) (i : Nat) : Char :=
  sequence.getD i (Char.ofNat 0)

/-- A counting loop `for (i = 0; i < n; i++) body(i)`. -/
def loopUp {σ : Type} (n : Nat) (body : Nat → σ → Option σ) (s : σ) : Option σ :=
  match n with
  | 0 => some s
  | k + 1 => (loopUp k body s).bind (body k)

/-- A counting loop `for (i = n - 1; i >= 0; i--) body(i)`. -/
def loopDown {σ : Type} (n : Nat) (body : Nat → σ → Option σ) (s : σ) : Option σ :=
  match n with
  | 0 => some s
  | k + 1 => (body k s).bind (loopDown k body)

/-! ## map.c -/

/-- `initMap`: three rows of three spaces; the second component is `*rows`. -/
def initMap : Grid × Int :=
  (List.replicate INITIAL_MAP_SIZE.toNat [' ', ' ', ' '], INITIAL_MAP_SIZE)

/-- The glyph-setting part of `showMap`: four independent tests on `dir`. -/
def showMapGlyph (map : Grid) (rowPos colPos dir : Int) : Option Grid := do
  let map ← if dir = NORTH then setCell map rowPos colPos '^' else some map
  let map ← if dir = SOUTH then setCell map rowPos colPos 'V' else some map
  let map ← if dir = EAST then setCell map rowPos colPos '>' else some map
  let map ← if dir = WEST then setCell map rowPos colPos '<' else some map
  pure map

/-- The border line printed by `showMap` before and after the rows. -/
def borderLine (map : Grid) : Option (List Char) :=
  match map[0]? with
  | some row0 => some (['+'] ++ List.replicate row0.length '-' ++ ['+', '\n'])
  | none => none

/-- One round of the row loop of `showMap`: `fprintf(stdout, "|%s|\n", map[j])`
appended to the text printed so far. -/
def printRow (map : Grid) (j : Nat) (out : List Char) : Option (List Char) :=
  match map[j]? with
  | some row => some (out ++ (['|'] ++ row ++ ['|', '\n']))
  | none => none

/-- `showMap`: overlays the glyph in place and prints the framed map.  The
result is the map as left in memory and the text written to standard output. -/
def showMap (map : Grid) (rows rowPos colPos dir : Int) : Option (Grid × List Char) := do
  let map ← showMapGlyph map rowPos colPos dir
  let top ← borderLine map
  let body ← loopUp rows.toNat (printRow map) []
  let bottom ← borderLine map
  pure (map, top ++ body ++ bottom)

/-- `expandMap`: the result is the new map and the new value of `*rows`. -/
def expandMap (map : Grid) (rows extraRows extraCols shiftRows shiftCols : Int) :
    Option (Grid × Int) :=
  let oldrows := rows
  let rows := rows + extraRows
  match map[0]? with
  | none => none
  | some row0 =>
    let oldLength : Int := row0.length
    let newLength := oldLength + extraCols
    -- the allocations need non-negative sizes
    if rows < 0 ∨ newLength < 0 then none else
    -- rows of spaces
    let newmap : Grid := List.replicate rows.toNat (List.replicate newLength.toNat ' ')
    -- copy the old map into the new
    (loopUp oldrows.toNat (fun k m =>
      loopUp oldLength.toNat (fun l m =>
        (getCell map k l).bind fun c => setCell m k l c) m) newmap).bind fun newmap =>
    -- row shift: j = *rows - 2 down to 0
    (if shiftRows = 1 then
      loopDown (rows - 1).toNat (fun j m =>
        loopUp newLength.toNat (fun k m =>
          (getCell m j k).bind fun c =>
          (setCell m (j + 1) k c).bind fun m =>
          setCell m j k ' ') m) newmap
     else some newmap).bind fun newmap =>
    -- column shift: k = newLength - 1 down to 1, written with k = k0 + 1
    (if shiftCols = 1 then
      loopUp rows.toNat (fun j m =>
        loopDown (newLength - 1).toNat (fun k0 m =>
          let k : Int := k0 + 1
          (getCell m j (k - 1)).bind fun c =>
          (setCell m j k c).bind fun m =>
          setCell m j (k - 1) ' ') m) newmap
     else some newmap).bind fun newmap =>
    some (newmap, rows)

/-- The row loop of `copyMap`: `strcpy(newmap[i], map[i])` into a buffer of
`length + 1` bytes, for `i` below the count. -/
def copyRows (map : Grid) (length : Nat) : Nat → Option Grid
  | 0 => some []
  | n + 1 =>
    (copyRows map length n).bind fun newmap =>
    match map[n]? with
    | some row => if row.length ≤ length then some (newmap ++ [row]) else none
    | none => none

/-- `copyMap`: a fresh copy of the first `rows` rows of `map`; `savemap` is
only freed. -/
def copyMap (map _savemap : Grid) (rows _oldrows : Int) : Option Grid :=
  match map[0]? with
  | some row0 => copyRows map row0.length rows.toNat
  | none => none

/-! ## explorer.c -/

/-- The global variables of `explorer.c`. -/
structure State where
  rows : Int
  oldrows : Int
  cols : Int
  map : Grid
  savemap : Grid
  dir : Int
  rowPos : Int
  colPos : Int
  last : Char
deriving DecidableEq, Repr

/-- How one command ended: the map was printed (with the printed text), one of
the three diagnostics was written to standard error, or nothing was written. -/
inductive Outcome where
  | shown (text : List Char)
  | inconsistent
  | blocked
  | invalid
  | silent
deriving DecidableEq, Repr

/-- Whether the command ended by printing the map. -/
def Outcome.isShown : Outcome → Bool
  | .shown _ => true
  | _ => false

/-- `isValidSequence`. -/
def isValidSequence (sequence : List Char) : Int :=
  match loopUp 3 (fun i (valid : Int) =>
    let valid := if charAt sequence i ≠ '.' ∧ charAt sequence i ≠ '#' then 0 else valid
    let valid := if (charAt sequence i).toNat ≥ 97 ∧ (charAt sequence i).toNat ≤ 122 then 1 else valid
    some valid) 1 with
  | some valid => valid
  | none => 0

/-- `validForward`. -/
def validForward (s : State) : Option Int := do
  let valid : Int := 1
  let valid ← if s.dir = NORTH then
      (getCell s.map (s.rowPos - 1) s.colPos).map fun c => if c = '#' then 0 else valid
    else some valid
  let valid ← if s.dir = SOUTH then
      (getCell s.map (s.rowPos + 1) s.colPos).map fun c => if c = '#' then 0 else valid
    else some valid
  let valid ← if s.dir = EAST then
      (getCell s.map s.rowPos (s.colPos + 1)).map fun c => if c = '#' then 0 else valid
    else some valid
  let valid ← if s.dir = WEST then
      (getCell s.map s.rowPos (s.colPos - 1)).map fun c => if c = '#' then 0 else valid
    else some valid
  pure valid

/-- The reveal loop shared by `moveForward`, `turnLeft` and `turnRight`:
`for (i = 0; i < 3; i++)`, with `pos i` the cell the source indexes at step `i`.
The result is `(true, map)` when the loop ran to its end and `(false, map)`
when it reached the `else` branch, with the map as written so far. -/
def revealLoop (pos : Nat → Int × Int) (sequence : List Char) :
    Nat → Nat → Grid → Option (Bool × Grid)
  | 0, _, map => some (true, map)
  | n + 1, i, map =>
    match getCell map (pos i).1 (pos i).2 with
    | none => none
    | some c =>
      if c = ' ' ∨ c = charAt sequence i then
        (setCell map (pos i).1 (pos i).2 (charAt sequence i)).bind
          (revealLoop pos sequence n (i + 1))
      else some (false, map)

/-- The call `showMap(map, rows, rowPos, colPos, dir)` that ends a committed
command. -/
def display (s : State) : Option (Outcome × State) := do
  let r ← showMap s.map s.rows s.rowPos s.colPos s.dir
  pure (Outcome.shown r.2, { s with map := r.1 })

/-- `moveForward`. -/
def moveForward (s : State) (sequence : List Char) : Option (Outcome × State) := do
  let expansion : Int := 0
  -- save map state
  let savemap ← copyMap s.map s.savemap s.rows s.oldrows
  let s := { s with savemap := savemap }
  let s := { s with oldrows := s.rows }
  -- save current user space
  let map ← setCell s.map s.rowPos s.colPos s.last
  let s := { s with map := map }
  if s.dir = NORTH then do
    let s := { s with rowPos := s.rowPos - 1 }
    let last ← getCell s.map s.rowPos s.colPos
    let s := { s with last := last }
    let se ← (
      if s.rowPos = 0 then do
        let r ← expandMap s.map s.rows 1 0 1 0
        pure ({ s with map := r.1, rows := r.2, rowPos := s.rowPos + 1 }, expansion + 1)
      else pure (s, expansion) : Option (State × Int))
    let s := se.1
    let expansion := se.2
    let r ←
      revealLoop (fun i => (s.rowPos - 1, s.colPos - 1 + i)) sequence 3 0 s.map
    let s := { s with map := r.2 }
    if r.1 then display s
    else do
      let map ← copyMap s.savemap s.map s.oldrows s.rows
      let s := { s with map := map }
      let s := if expansion ≠ 0 then { s with rows := s.oldrows } else s
      let s := { s with rowPos := s.rowPos + 1 }
      let last ← getCell s.map s.rowPos s.colPos
      pure (Outcome.inconsistent, { s with last := last })
  else if s.dir = SOUTH then do
    let s := { s with rowPos := s.rowPos + 1 }
    let last ← getCell s.map s.rowPos s.colPos
    let s := { s with last := last }
    let se ← (
      if s.rowPos = s.rows - 1 then do
        let r ← expandMap s.map s.rows 1 0 0 0
        pure ({ s with map := r.1, rows := r.2 }, expansion + 1)
      else pure (s, expansion) : Option (State × Int))
    let s := se.1
    let expansion := se.2
    let r ←
      revealLoop (fun i => (s.rowPos + 1, s.colPos + 1 - i)) sequence 3 0 s.map
    let s := { s with map := r.2 }
    if r.1 then display s
    else do
      let map ← copyMap s.savemap s.map s.oldrows s.rows
      let s := { s with map := map }
      let s := if expansion ≠ 0 then { s with rows := s.oldrows } else s
      let s := { s with rowPos := s.rowPos - 1 }
      let last ← getCell s.map s.rowPos s.colPos
      pure (Outcome.inconsistent, { s with last := last })
  else if s.dir = EAST then do
    let s := { s with colPos := s.colPos + 1 }
    let last ← getCell s.map s.rowPos s.colPos
    let s := { s with last := last }
    let s ←
      if s.colPos = s.cols - 1 then do
        let r ← expandMap s.map s.rows 0 1 0 0
        pure { s with map := r.1, rows := r.2, cols := s.cols + 1 }
      else pure s
    let r ←
      revealLoop (fun i => (s.rowPos - 1 + i, s.colPos + 1)) sequence 3 0 s.map
    let s := { s with map := r.2 }
    if r.1 then display s
    else do
      let map ← copyMap s.savemap s.map s.oldrows s.rows
      let s := { s with map := map }
      let s := { s with colPos := s.colPos - 1 }
      let last ← getCell s.map s.rowPos s.colPos
      pure (Outcome.inconsistent, { s with last := last })
  else if s.dir = WEST then do
    let s := { s with colPos := s.colPos - 1 }
    let last ← getCell s.map s.rowPos s.colPos
    let s := { s with last := last }
    let s ←
      if s.colPos = 0 then do
        let r ← expandMap s.map s.rows 0 1 0 1
        pure { s with map := r.1, rows := r.2, colPos := s.colPos + 1, cols := s.cols + 1 }
      else pure s
    let r ←
      revealLoop (fun i => (s.rowPos + 1 - i, s.colPos - 1)) sequence 3 0 s.map
    let s := { s with map := r.2 }
    if r.1 then display s
    else do
      let map ← copyMap s.savemap s.map s.oldrows s.rows
      let s := { s with map := map }
      let s := { s with colPos := s.colPos + 1 }
      let last ← getCell s.map s.rowPos s.colPos
      pure (Outcome.inconsistent, { s with last := last })
  else display s

/-- One branch of `turnLeft` / `turnRight`: set the new facing, run the reveal
loop at the cells `pos`, and on a conflict restore the map and the facing. -/
def turnTo (s : State) (newDir : Int) (pos : Nat → Int × Int) (sequence : List Char) :
    Option (Outcome × State) := do
  let oldDir := s.dir
  let s := { s with dir := newDir }
  let r ← revealLoop pos sequence 3 0 s.map
  let s := { s with map := r.2 }
  if r.1 then display s
  else do
    let map ← copyMap s.savemap s.map s.oldrows s.rows
    pure (Outcome.inconsistent, { s with map := map, dir := oldDir })

/-- `turnLeft`. -/
def turnLeft (s : State) (sequence : List Char) : Option (Outcome × State) := do
  let savemap ← copyMap s.map s.savemap s.rows s.oldrows
  let s := { s with savemap := savemap }
  let s := { s with oldrows := s.rows }
  if s.dir = NORTH then
    turnTo s WEST (fun i => (s.rowPos + 1 - i, s.colPos - 1)) sequence
  else if s.dir = SOUTH then
    turnTo s EAST (fun i => (s.rowPos - 1 + i, s.colPos + 1)) sequence
  else if s.dir = EAST then
    turnTo s NORTH (fun i => (s.rowPos - 1, s.colPos - 1 + i)) sequence
  else if s.dir = WEST then
    turnTo s SOUTH (fun i => (s.rowPos + 1, s.colPos + 1 - i)) sequence
  else display s

/-- `turnRight`. -/
def turnRight (s : State) (sequence : List Char) : Option (Outcome × State) := do
  let savemap ← copyMap s.map s.savemap s.rows s.oldrows
  let s := { s with savemap := savemap }
  let s := { s with oldrows := s.rows }
  if s.dir = NORTH then
    turnTo s EAST (fun i => (s.rowPos - 1 + i, s.colPos + 1)) sequence
  else if s.dir = SOUTH then
    turnTo s WEST (fun i => (s.rowPos + 1 - i, s.colPos - 1)) sequence
  else if s.dir = EAST then
    turnTo s SOUTH (fun i => (s.rowPos + 1, s.colPos + 1 - i)) sequence
  else if s.dir = WEST then
    turnTo s NORTH (fun i => (s.rowPos - 1, s.colPos - 1 + i)) sequence
  else display s

/-- The `forward` branch of the command loop of `buildFromFile`, for a sequence
that passed `isValidSequence`. -/
def forward (s : State) (sequence : List Char) : Option (Outcome × State) := do
  let v ← validForward s
  if v ≠ 0 then moveForward s sequence
  else do
    let v ← validForward s
    if v = 0 then pure (Outcome.blocked, s) else pure (Outcome.silent, s)

/-- The globals of `explorer.c` after the two `initMap` calls that open
`buildFromFile`. -/
def initialState : State :=
  { rows := initMap.2, oldrows := initMap.2, cols := INITIAL_MAP_SIZE,
    map := initMap.1, savemap := initMap.1,
    dir := NORTH, rowPos := 1, colPos := 1, last := ' ' }

/-- One round of the first loop of `buildFromFile`, on the token just read. -/
def start (sequence : List Char) : Option (Outcome × State) :=
  let s := initialState
  if isValidSequence sequence ≠ 0 then do
    let map ← loopUp 3 (fun i m => setCell m (s.rowPos - 1) (s.colPos - 1 + i) (charAt sequence i)) s.map
    let s := { s with map := map }
    let savemap ← copyMap s.map s.savemap s.rows s.oldrows
    let s := { s with savemap := savemap }
    display s
  else some (Outcome.invalid, s)

/-- One round of the command loop of `buildFromFile`, on the two tokens
`command` and `sequence` just read (`quit` ends the loop before this). -/
def step (s : State) (command sequence : List Char) : Option (Outcome × State) :=
  if command.take 7 = "forward".toList then
    if isValidSequence sequence ≠ 0 then forward s sequence
    else some (Outcome.invalid, s)
  else if command.take 5 = "right".toList then
    if isValidSequence sequence ≠ 0 then turnRight s sequence
    else some (Outcome.invalid, s)
  else if command.take 4 = "left".toList then
    if isValidSequence sequence ≠ 0 then turnLeft s sequence
    else some (Outcome.invalid, s)
  else some (Outcome.invalid, s)

/-- The command loop of `buildFromFile` on a list of (command, sequence) token
pairs; it stops at `quit`. -/
def run (s : State) : List (List Char × List Char) → Option State
  | [] => some s
  | (command, sequence) :: rest =>
    if command.take 7 ≠ "forward".toList ∧ command.take 5 ≠ "right".toList ∧
        command.take 4 ≠ "left".toList ∧ command.take 4 = "quit".toList then some s
    else (step s command sequence).bind fun r => run r.2 rest

/-! ## Vocabulary of the specification -/

/-- The number of rows of the grid. -/
def height (map : Grid) : Int := map.length

/-- The number of columns of the grid: `strlen(map[0])`. -/
def width (map : Grid) : Int := (map.headD []).length

/-- Every row has the length of row 0. -/
def Rectangular (map : Grid) : Prop := ∀ row ∈ map, (row.length : Int) = width map

instance (map : Grid) : Decidable (Rectangular map) :=
  inferInstanceAs (Decidable (∀ row ∈ map, (row.length : Int) = width map))

/-- The facing is one of the four directions. -/
def validDir (d : Int) : Prop := d = NORTH ∨ d = SOUTH ∨ d = EAST ∨ d = WEST

instance (d : Int) : Decidable (validDir d) :=
  inferInstanceAs (Decidable (d = NORTH ∨ d = SOUTH ∨ d = EAST ∨ d = WEST))

/-- A well-formed state: the grid is rectangular, `rows` and `cols` are its
height and width, the facing is one of the four directions, and the actor is
at least one cell inside every edge. -/
def WellFormed (s : State) : Prop :=
  Rectangular s.map ∧ s.rows = height s.map ∧ s.cols = width s.map ∧ validDir s.dir ∧
  1 ≤ s.rowPos ∧ s.rowPos ≤ s.rows - 2 ∧ 1 ≤ s.colPos ∧ s.colPos ≤ s.cols - 2

instance (s : State) : Decidable (WellFormed s) :=
  inferInstanceAs (Decidable (Rectangular s.map ∧ s.rows = height s.map ∧
    s.cols = width s.map ∧ validDir s.dir ∧
    1 ≤ s.rowPos ∧ s.rowPos ≤ s.rows - 2 ∧ 1 ≤ s.colPos ∧ s.colPos ≤ s.cols - 2))

/-- The content of a cell, a cell outside the grid reading as unseen. -/
def cellAt (map : Grid) (i j : Int) : Char := (getCell map i j).getD ' '

/-- The glyph shown for a facing. -/
def glyph (d : Int) : Char :=
  if d = NORTH then '^' else if d = SOUTH then 'V' else if d = EAST then '>' else '<'

/-- The facing after a right turn: North, East, South, West, North. -/
def turnedRight (d : Int) : Int :=
  if d = NORTH then EAST else if d = EAST then SOUTH else if d = SOUTH then WEST
  else if d = WEST then NORTH else d

/-- The facing after a left turn: North, West, South, East, North. -/
def turnedLeft (d : Int) : Int :=
  if d = NORTH then WEST else if d = WEST then SOUTH else if d = SOUTH then EAST
  else if d = EAST then NORTH else d

/-- The cell one step ahead of `(r, c)` for the facing `d`: the offsets are
North (-1, 0), South (+1, 0), East (0, +1), West (0, -1). -/
def ahead (d r c : Int) : Int × Int :=
  if d = NORTH then (r - 1, c) else if d = SOUTH then (r + 1, c)
  else if d = EAST then (r, c + 1) else (r, c - 1)

/-- The `i`-th cell of the scan window of an actor at `(r, c)` facing `d`:
North the row above from left to right, South the row below from right to left,
East the column to the right from top to bottom, West the column to the left
from bottom to top. -/
def scanCell (d r c : Int) (i : Nat) : Int × Int :=
  if d = NORTH then (r - 1, c - 1 + i) else if d = SOUTH then (r + 1, c + 1 - i)
  else if d = EAST then (r - 1 + i, c + 1) else (r + 1 - i, c - 1)

/-- Each of the three cells of the scan window at `(r, c)` facing `d` is unseen
or already holds the corresponding character of the sequence. -/
def RevealOk (map : Grid) (d r c : Int) (sequence : List Char) : Prop :=
  ∀ i, i < 3 →
    cellAt map (scanCell d r c i).1 (scanCell d r c i).2 = ' ' ∨
    cellAt map (scanCell d r c i).1 (scanCell d r c i).2 = charAt sequence i

instance (map : Grid) (d r c : Int) (sequence : List Char) :
    Decidable (RevealOk map d r c sequence) :=
  inferInstanceAs (Decidable (∀ i, i < 3 →
    cellAt map (scanCell d r c i).1 (scanCell d r c i).2 = ' ' ∨
    cellAt map (scanCell d r c i).1 (scanCell d r c i).2 = charAt sequence i))

/-- The rows by which a forward move shifts the old content down: one when the
move is a North move landing on row 0. -/
def shiftRow (s : State) : Int := if s.dir = NORTH ∧ s.rowPos - 1 = 0 then 1 else 0

/-- The columns by which a forward move shifts the old content right: one when
the move is a West move landing on column 0. -/
def shiftCol (s : State) : Int := if s.dir = WEST ∧ s.colPos - 1 = 0 then 1 else 0

/-- The rows a forward move adds: one when a North move lands on row 0 or a
South move lands on the last row. -/
def growRows (s : State) : Int :=
  if (s.dir = NORTH ∧ s.rowPos - 1 = 0) ∨ (s.dir = SOUTH ∧ s.rowPos + 1 = s.rows - 1)
  then 1 else 0

/-- The columns a forward move adds: one when an East move lands on the last
column or a West move lands on column 0. -/
def growCols (s : State) : Int :=
  if (s.dir = EAST ∧ s.colPos + 1 = s.cols - 1) ∨ (s.dir = WEST ∧ s.colPos - 1 = 0)
  then 1 else 0

/-- The true content of a cell of a state: the actor's own cell is read through
`last`, every other cell through the grid. -/
def content (s : State) (i j : Int) : Option Char :=
  if i = s.rowPos ∧ j = s.colPos then some s.last else getCell s.map i j

/-- The state a command works on once it saved the map: `savemap` is a copy of
the map and `oldrows` is `rows`. -/
def saved (s : State) : State := { s with savemap := s.map, oldrows := s.rows }

/-- The grid `m` has `h` rows of `w` characters and holds `F i j` at `(i, j)`. -/
def IsGrid (m : Grid) (h w : Int) (F : Int → Int → Char) : Prop :=
  (m.length : Int) = h ∧ (∀ row ∈ m, (row.length : Int) = w) ∧
  ∀ i j, 0 ≤ i → i < h → 0 ≤ j → j < w → getCell m i j = some (F i j)

/-- The grid in the middle of a forward move, after the actor's cell got
`last` back and the grid was expanded, as a function of the cell. -/
def midCell (s : State) (a b : Int) : Char :=
  if shiftRow s ≤ a ∧ a - shiftRow s < s.rows ∧ shiftCol s ≤ b ∧ b - shiftCol s < s.cols then
    (if a - shiftRow s = s.rowPos ∧ b - shiftCol s = s.colPos then s.last
     else cellAt s.map (a - shiftRow s) (b - shiftCol s))
  else ' '

/-- What `moveForward` returns from a well-formed state. -/
def ForwardSpec (s : State) (sequence : List Char) (r : Outcome × State) : Prop :=
  (RevealOk s.map s.dir (ahead s.dir s.rowPos s.colPos).1 (ahead s.dir s.rowPos s.colPos).2
      sequence →
    ∃ m' text F', r = (Outcome.shown text,
        { saved s with
          map := m', rows := s.rows + growRows s, cols := s.cols + growCols s,
          rowPos := (ahead s.dir s.rowPos s.colPos).1 + shiftRow s,
          colPos := (ahead s.dir s.rowPos s.colPos).2 + shiftCol s,
          last := cellAt s.map (ahead s.dir s.rowPos s.colPos).1
            (ahead s.dir s.rowPos s.colPos).2 }) ∧
      IsGrid m' (s.rows + growRows s) (s.cols + growCols s) F' ∧
      F' r.2.rowPos r.2.colPos = glyph s.dir ∧
      (∀ k, k < 3 → F' (scanCell s.dir r.2.rowPos r.2.colPos k).1
        (scanCell s.dir r.2.rowPos r.2.colPos k).2 = charAt sequence k) ∧
      (∀ a b, (a, b) ≠ (r.2.rowPos, r.2.colPos) →
        (∀ k, k < 3 → (a, b) ≠ scanCell s.dir r.2.rowPos r.2.colPos k) →
        F' a b = midCell s a b)) ∧
  (¬ RevealOk s.map s.dir (ahead s.dir s.rowPos s.colPos).1 (ahead s.dir s.rowPos s.colPos).2
      sequence →
    r = (Outcome.inconsistent, { saved s with last := cellAt s.map s.rowPos s.colPos }) ∧
    growRows s = 0 ∧ growCols s = 0)

/-! ## Concrete states -/

/-- The state the program is in after start-up with `...`: the initial map of 3
rows and 3 columns with the dots in row 0, the actor at (1, 1) facing North. -/
def startState : State :=
  { rows := 3, oldrows := 3, cols := 3,
    map := ["...".toList, " ^ ".toList, "   ".toList],
    savemap := ["...".toList, "   ".toList, "   ".toList],
    dir := NORTH, rowPos := 1, colPos := 1, last := ' ' }

/-- The script `right ...`, `forward ...`, `left ...`, `left ...`, run after the
start-up reveal of `...`. -/
def westScript : List (List Char × List Char) :=
  [("right".toList, "...".toList), ("forward".toList, "...".toList),
   ("left".toList, "...".toList), ("left".toList, "...".toList)]

/-- The state the program is in after start-up with `...` and `westScript`: a
map of 3 rows and 4 columns, the actor at (1, 2) facing West over a cell that
holds `.`. -/
def westState : State :=
  { rows := 3, oldrows := 3, cols := 4,
    map := ["....".toList, " .<.".toList, " ...".toList],
    savemap := ["....".toList, "  ^.".toList, "  ..".toList],
    dir := WEST, rowPos := 1, colPos := 2, last := '.' }

/-! ## Vocabulary of the later claims -/

/-- A sequence as the specification admits it: three characters, each of them
`.`, `#` or a lowercase letter `a` to `z` (character codes 97 to 122). -/
def ValidSequence (sequence : List Char) : Prop :=
  sequence.length = 3 ∧
  ∀ c ∈ sequence, c = '.' ∨ c = '#' ∨ (97 ≤ c.toNat ∧ c.toNat ≤ 122)

instance (sequence : List Char) : Decidable (ValidSequence sequence) :=
  inferInstanceAs (Decidable (sequence.length = 3 ∧
    ∀ c ∈ sequence, c = '.' ∨ c = '#' ∨ (97 ≤ c.toNat ∧ c.toNat ≤ 122)))

/-- The states the program can be in: the state left by the start-up reveal of a
valid sequence, and every state left by a round of the command loop on a valid
sequence, whatever the command word and however the round ended (shown,
inconsistent or blocked). -/
inductive Reachable : State → Prop where
  | init (sequence : List Char) {s : State} (hv : ValidSequence sequence)
      (h : (start sequence).map Prod.snd = some s) : Reachable s
  | next {s s' : State} {command sequence : List Char} (hr : Reachable s)
      (hv : ValidSequence sequence)
      (h : (step s command sequence).map Prod.snd = some s') : Reachable s'

/-- The state start-up leaves for the initial sequence `t`: the sequence in row
0, the glyph `^` in the middle of row 1, everything else unseen. -/
def startStateOf (t : List Char) : State :=
  { rows := 3, oldrows := 3, cols := 3,
    map := [t, [' ', '^', ' '], [' ', ' ', ' ']],
    savemap := [t, [' ', ' ', ' '], [' ', ' ', ' ']],
    dir := NORTH, rowPos := 1, colPos := 1, last := ' ' }

/-- The frame line of the printed map for a grid of `w` columns. -/
def frameLine (w : Nat) : List Char := ['+'] ++ List.replicate w '-' ++ ['+']

/-- The printed line of one row of the grid. -/
def rowLine (row : List Char) : List Char := ['|'] ++ row ++ ['|']

/-- The text made of the given lines, each one ended by a newline. -/
def linesText (lines : List (List Char)) : List Char :=
  (lines.map fun line => line ++ ['\n']).flatten

/-- The character is one of the four actor glyphs. -/
def isGlyph (c : Char) : Prop := c = '<' ∨ c = '>' ∨ c = '^' ∨ c = 'V'

instance (c : Char) : Decidable (isGlyph c) :=
  inferInstanceAs (Decidable (c = '<' ∨ c = '>' ∨ c = '^' ∨ c = 'V'))

/-- The script `westScript` followed by `forward ..#` and `forward ...`. -/
def glyphScript : List (List Char × List Char) :=
  westScript ++ [("forward".toList, "..#".toList), ("forward".toList, "...".toList)]

/-- The state the program is in after start-up with `...`, `westScript` and the
rejected command `forward ..#`. -/
def rejectedState : State :=
  { westState with savemap := westState.map, last := '<' }

/-- The state the program is in after start-up with `...` and `glyphScript`. -/
def glyphState : State :=
  { rows := 3, oldrows := 3, cols := 4,
    map := ["....".toList, ".<<.".toList, "....".toList],
    savemap := ["....".toList, " .<.".toList, " ...".toList],
    dir := WEST, rowPos := 1, colPos := 1, last := '.' }

/-- The three cells of the actor's scan window for its current facing hold a
character that is not the unseen one. -/
def WindowSeen (s : State) : Prop :=
  ∀ k, k < 3 →
    cellAt s.map (scanCell s.dir s.rowPos s.colPos k).1 (scanCell s.dir s.rowPos s.colPos k).2
      ≠ ' '

/-- The actor's cell of the grid holds the glyph of the facing, as `showMap`
leaves it. -/
def ActorShown (s : State) : Prop :=
  getCell s.map s.rowPos s.colPos = some (glyph s.dir)

/-! ## Lemmas -/

/-! ### Grids as functions of the cell -/

theorem IsGrid.get {m : Grid} {h w : Int} {F : Int → Int → Char} (hg : IsGrid m h w F)
    {i j : Int} (hi0 : 0 ≤ i) (hi : i < h) (hj0 : 0 ≤ j) (hj : j < w) :
    getCell m i j = some (F i j) := hg.2.2 i j hi0 hi hj0 hj

theorem IsGrid.congr {m : Grid} {h w : Int} {F G : Int → Int → Char} (hg : IsGrid m h w F)
    (hFG : ∀ i j, 0 ≤ i → i < h → 0 ≤ j → j < w → F i j = G i j) : IsGrid m h w G := by
  refine ⟨hg.1, hg.2.1, ?_⟩
  intro i j hi0 hi hj0 hj
  rw [hg.2.2 i j hi0 hi hj0 hj, hFG i j hi0 hi hj0 hj]

theorem getCell_of_row {m : Grid} {i j : Int} (hi0 : 0 ≤ i) (hj0 : 0 ≤ j) {row : List Char}
    (hr : m[i.toNat]? = some row) : getCell m i j = row[j.toNat]? := by
  simp [getCell, hi0, hj0, hr]

theorem IsGrid.set {m : Grid} {h w : Int} {F : Int → Int → Char} (hg : IsGrid m h w F)
    {i j : Int} (hi0 : 0 ≤ i) (hi : i < h) (hj0 : 0 ≤ j) (hj : j < w) (c : Char) :
    ∃ m', setCell m i j c = some m' ∧
      IsGrid m' h w (fun a b => if a = i ∧ b = j then c else F a b) := by
  obtain ⟨hlen, hrows, hcells⟩ := hg
  have hin : i.toNat < m.length := by omega
  have hr : m[i.toNat]? = some m[i.toNat] := List.getElem?_eq_getElem hin
  have hrl : ((m[i.toNat]).length : Int) = w := hrows _ (List.getElem_mem _)
  have hjn : j.toNat < (m[i.toNat]).length := by omega
  refine ⟨m.set i.toNat ((m[i.toNat]).set j.toNat c), ?_, ?_, ?_, ?_⟩
  · simp [setCell, hi0, hj0, hr, hjn]
  · simpa using hlen
  · intro row hrow
    rcases List.mem_or_eq_of_mem_set hrow with hmem | heq
    · exact hrows _ hmem
    · rw [heq]; simpa using hrl
  · intro a b ha0 ha hb0 hb
    have han : a.toNat < m.length := by omega
    by_cases hai : a = i
    · subst hai
      have h1 : (m.set a.toNat ((m[a.toNat]).set j.toNat c))[a.toNat]? =
          some ((m[a.toNat]).set j.toNat c) := by
        simp [List.getElem?_set_self, hin]
      rw [getCell_of_row ha0 hb0 h1]
      by_cases hbj : b = j
      · subst hbj
        simp [List.getElem?_set_self, hjn]
      · have hne : j.toNat ≠ b.toNat := by omega
        rw [List.getElem?_set_ne hne]
        have := hcells a b ha0 ha hb0 hb
        rw [getCell_of_row ha0 hb0 hr] at this
        simp [hbj, this]
    · have hne : i.toNat ≠ a.toNat := by omega
      have h1 : (m.set i.toNat ((m[i.toNat]).set j.toNat c))[a.toNat]? = m[a.toNat]? :=
        List.getElem?_set_ne hne
      have h2 : m[a.toNat]? = some m[a.toNat] := List.getElem?_eq_getElem han
      rw [getCell_of_row ha0 hb0 (h1.trans h2)]
      have := hcells a b ha0 ha hb0 hb
      rw [getCell_of_row ha0 hb0 h2] at this
      simp [hai, this]

/-! ### Loop invariants and the loops of `expandMap` -/

theorem loopUp_inv {σ : Type} (P : Nat → σ → Prop) (n : Nat) (body : Nat → σ → Option σ)
    (s : σ) (h0 : P 0 s)
    (hstep : ∀ i, i < n → ∀ t, P i t → ∃ t', body i t = some t' ∧ P (i + 1) t') :
    ∃ t, loopUp n body s = some t ∧ P n t := by
  induction n with
  | zero => exact ⟨s, rfl, h0⟩
  | succ k ih =>
    obtain ⟨t, ht, hP⟩ := ih (fun i hi => hstep i (Nat.lt_succ_of_lt hi))
    obtain ⟨t', ht', hP'⟩ := hstep k (Nat.lt_succ_self k) t hP
    exact ⟨t', by simp [loopUp, ht, ht'], hP'⟩

theorem loopDown_inv {σ : Type} (P : Nat → σ → Prop) (n : Nat) (body : Nat → σ → Option σ)
    (s : σ) (h0 : P n s)
    (hstep : ∀ i, i < n → ∀ t, P (i + 1) t → ∃ t', body i t = some t' ∧ P i t') :
    ∃ t, loopDown n body s = some t ∧ P 0 t := by
  induction n generalizing s with
  | zero => exact ⟨s, rfl, h0⟩
  | succ k ih =>
    obtain ⟨t, ht, hP⟩ := hstep k (Nat.lt_succ_self k) s h0
    obtain ⟨t', ht', hP'⟩ := ih t hP (fun i hi => hstep i (Nat.lt_succ_of_lt hi))
    exact ⟨t', by simp [loopDown, ht, ht'], hP'⟩

theorem isGrid_blank (H W : Nat) :
    IsGrid (List.replicate H (List.replicate W ' ')) H W (fun _ _ => ' ') := by
  refine ⟨by simp, ?_, ?_⟩
  · intro row hrow
    rw [List.eq_of_mem_replicate hrow]; simp
  · intro i j hi0 hi hj0 hj
    have h1 : (List.replicate H (List.replicate W ' '))[i.toNat]? = some (List.replicate W ' ') := by
      rw [List.getElem?_replicate]; simp; omega
    rw [getCell_of_row hi0 hj0 h1, List.getElem?_replicate]; simp; omega

/-- The copy loop of `expandMap`. -/
theorem copyLoop_spec {map : Grid} {h w : Int} {F : Int → Int → Char} (hmap : IsGrid map h w F)
    {m : Grid} {H W : Int} (hm : IsGrid m H W (fun _ _ => ' ')) (hH : h ≤ H) (hW : w ≤ W) :
    ∃ m', loopUp h.toNat (fun k m =>
        loopUp w.toNat (fun l m => (getCell map k l).bind fun c => setCell m k l c) m) m
        = some m' ∧
      IsGrid m' H W (fun a b => if a < h ∧ b < w then F a b else ' ') := by
  have h0 : 0 ≤ h := by have := hmap.1; omega
  obtain ⟨m', hm', hP⟩ := loopUp_inv
    (fun k m => IsGrid m H W (fun a b => if a < (k : Int) ∧ b < w then F a b else ' '))
    h.toNat _ m (hm.congr (by
      intro i j hi0 _ _ _
      try dsimp only
      split_ifs <;> first | rfl | omega)) (by
      intro k hk t ht
      obtain ⟨t', ht', hQ⟩ := loopUp_inv
        (fun l m => IsGrid m H W (fun a b =>
          if (a < (k : Int) ∨ (a = k ∧ b < (l : Int))) ∧ b < w then F a b else ' '))
        w.toNat (fun l m => (getCell map k l).bind fun c => setCell m k l c) t
        (ht.congr (by
          intro i j _ _ hj0 _
          try dsimp only
          split_ifs <;> first | rfl | omega)) (by
          intro l hl u hu
          have hg := hmap.get (i := (k : Int)) (j := (l : Int)) (by omega) (by omega) (by omega) (by omega)
          obtain ⟨u', hu', hU⟩ := hu.set (i := (k : Int)) (j := (l : Int)) (by omega) (by omega) (by omega) (by omega) (F k l)
          refine ⟨u', by simp [hg, hu'], hU.congr ?_⟩
          intro a b _ _ _ _
          try dsimp only
          split_ifs with h1 h2 h3 <;> first | rfl | omega | (obtain ⟨rfl, rfl⟩ := h1; rfl))
      refine ⟨t', ht', hQ.congr ?_⟩
      intro a b _ _ hb0 hb
      try dsimp only
      split_ifs <;> first | rfl | omega)
  refine ⟨m', hm', hP.congr ?_⟩
  intro a b _ _ _ _
  try dsimp only
  split_ifs <;> first | rfl | omega

/-- One pass of the row shift of `expandMap`: row `j` moves to row `j + 1`. -/
theorem rowShiftRow_spec {m : Grid} {H W : Int} {A : Int → Int → Char} (hm : IsGrid m H W A)
    (j : Nat) (hj : (j : Int) + 1 < H) :
    ∃ m', loopUp W.toNat (fun k m =>
        (getCell m j k).bind fun c =>
        (setCell m (j + 1) k c).bind fun m =>
        setCell m j k ' ') m = some m' ∧
      IsGrid m' H W (fun a b => if a = (j : Int) + 1 then A j b else if a = j then ' ' else A a b) := by
  obtain ⟨m', hm', hP⟩ := loopUp_inv
    (fun k m => IsGrid m H W (fun a b =>
      if b < (k : Int) then (if a = (j : Int) + 1 then A j b else if a = j then ' ' else A a b)
      else A a b))
    W.toNat (fun k m =>
        (getCell m j k).bind fun c =>
        (setCell m (j + 1) k c).bind fun m =>
        setCell m j k ' ') m (hm.congr (by
      intro a b _ _ _ _
      try dsimp only
      split_ifs <;> first | rfl | omega)) (by
      intro k hk t ht
      have hg := ht.get (i := (j : Int)) (j := (k : Int)) (by omega) (by omega) (by omega) (by omega)
      obtain ⟨u, hu, hU⟩ := ht.set (i := (j : Int) + 1) (j := (k : Int)) (by omega) (by omega) (by omega) (by omega) (A j k)
      obtain ⟨v, hv, hV⟩ := hU.set (i := (j : Int)) (j := (k : Int)) (by omega) (by omega) (by omega) (by omega) ' '
      simp only [lt_irrefl, if_false] at hg
      refine ⟨v, ?_, hV.congr ?_⟩
      · simp only [hg, Option.some_bind, hu, hv]
      · intro a b _ _ _ _
        try dsimp only
        split_ifs <;> first | rfl | omega | simp_all)
  refine ⟨m', hm', hP.congr ?_⟩
  intro a b _ _ _ _
  try dsimp only
  split_ifs <;> first | rfl | omega

/-- The row shift of `expandMap`, when the last row is blank. -/
theorem rowShift_spec {m : Grid} {H W : Int} {G : Int → Int → Char} (hm : IsGrid m H W G)
    (hlast : ∀ b, G (H - 1) b = ' ') :
    ∃ m', loopDown (H - 1).toNat (fun j m =>
        loopUp W.toNat (fun k m =>
          (getCell m j k).bind fun c =>
          (setCell m (j + 1) k c).bind fun m =>
          setCell m j k ' ') m) m = some m' ∧
      IsGrid m' H W (fun a b => if a = 0 then ' ' else G (a - 1) b) := by
  obtain ⟨m', hm', hP⟩ := loopDown_inv
    (fun r m => IsGrid m H W (fun a b =>
      if a < (r : Int) then G a b else if a = r then ' ' else G (a - 1) b))
    (H - 1).toNat _ m (hm.congr (by
      intro a b _ _ _ _
      try dsimp only
      split_ifs with h1 h2 <;> first | rfl | omega | skip
      have h3 : a = H - 1 := by omega
      rw [h3]; exact hlast b)) (by
      intro r hr t ht
      obtain ⟨u, hu, hU⟩ := rowShiftRow_spec ht r (by omega)
      refine ⟨u, hu, hU.congr ?_⟩
      intro a b _ _ _ _
      try dsimp only
      split_ifs with h1 h2 h3 h4 h5 <;> first | rfl | omega | (subst h1; simp))
  refine ⟨m', hm', hP.congr ?_⟩
  intro a b _ _ _ _
  simp only [Nat.cast_zero]
  split_ifs <;> first | rfl | omega

/-- One pass of the column shift of `expandMap`: row `j` moves one column right. -/
theorem colShiftRow_spec {m : Grid} {H W : Int} {A : Int → Int → Char} (hm : IsGrid m H W A)
    (j : Nat) (hj : (j : Int) < H) (hlast : A j (W - 1) = ' ') :
    ∃ m', loopDown (W - 1).toNat (fun k0 m =>
        let k : Int := k0 + 1
        (getCell m j (k - 1)).bind fun c =>
        (setCell m j k c).bind fun m =>
        setCell m j (k - 1) ' ') m = some m' ∧
      IsGrid m' H W (fun a b =>
        if a = (j : Int) then (if b = 0 then ' ' else A a (b - 1)) else A a b) := by
  obtain ⟨m', hm', hP⟩ := loopDown_inv
    (fun r m => IsGrid m H W (fun a b =>
      if a = (j : Int) then
        (if b < (r : Int) then A a b else if b = r then ' ' else A a (b - 1))
      else A a b))
    (W - 1).toNat (fun k0 m =>
        let k : Int := k0 + 1
        (getCell m j (k - 1)).bind fun c =>
        (setCell m j k c).bind fun m =>
        setCell m j (k - 1) ' ') m (hm.congr (by
      intro a b _ _ _ _
      try dsimp only
      split_ifs with h1 h2 h3 <;> first | rfl | omega | skip
      have h4 : b = W - 1 := by omega
      rw [h1, h4]; exact hlast)) (by
      intro r hr t ht
      have hg := ht.get (i := (j : Int)) (j := (r : Int)) (by omega) (by omega) (by omega) (by omega)
      obtain ⟨u, hu, hU⟩ := ht.set (i := (j : Int)) (j := (r : Int) + 1) (by omega) (by omega) (by omega) (by omega) (A j r)
      obtain ⟨v, hv, hV⟩ := hU.set (i := (j : Int)) (j := (r : Int)) (by omega) (by omega) (by omega) (by omega) ' '
      have hlt : (r : Int) < ((r + 1 : Nat) : Int) := by push_cast; omega
      simp only [hlt, if_true] at hg
      refine ⟨v, ?_, hV.congr ?_⟩
      · simp only [add_sub_cancel_right, hg, Option.some_bind, hu, hv]
      · intro a b _ _ _ _
        try dsimp only
        push_cast
        split_ifs <;> first | rfl | omega | simp_all)
  refine ⟨m', hm', hP.congr ?_⟩
  intro a b _ _ _ _
  simp only [Nat.cast_zero]
  split_ifs <;> first | rfl | omega

/-- The column shift of `expandMap`, when the last column is blank. -/
theorem colShift_spec {m : Grid} {H W : Int} {G : Int → Int → Char} (hm : IsGrid m H W G)
    (hlast : ∀ a, G a (W - 1) = ' ') :
    ∃ m', loopUp H.toNat (fun j m =>
        loopDown (W - 1).toNat (fun k0 m =>
          let k : Int := k0 + 1
          (getCell m j (k - 1)).bind fun c =>
          (setCell m j k c).bind fun m =>
          setCell m j (k - 1) ' ') m) m = some m' ∧
      IsGrid m' H W (fun a b => if b = 0 then ' ' else G a (b - 1)) := by
  obtain ⟨m', hm', hP⟩ := loopUp_inv
    (fun j m => IsGrid m H W (fun a b =>
      if a < (j : Int) then (if b = 0 then ' ' else G a (b - 1)) else G a b))
    H.toNat (fun j m =>
        loopDown (W - 1).toNat (fun k0 m =>
          let k : Int := k0 + 1
          (getCell m j (k - 1)).bind fun c =>
          (setCell m j k c).bind fun m =>
          setCell m j (k - 1) ' ') m) m (hm.congr (by
      intro a b _ _ _ _
      try dsimp only
      split_ifs <;> first | rfl | omega)) (by
      intro j hj t ht
      obtain ⟨u, hu, hU⟩ := colShiftRow_spec ht j (by omega) (by
        simp only [lt_irrefl, if_false]; exact hlast _)
      refine ⟨u, hu, hU.congr ?_⟩
      intro a b _ _ _ _
      try dsimp only
      push_cast
      split_ifs <;> first | rfl | omega)
  refine ⟨m', hm', hP.congr ?_⟩
  intro a b _ _ _ _
  try dsimp only
  split_ifs <;> first | rfl | omega

theorem IsGrid.row0 {m : Grid} {h w : Int} {F : Int → Int → Char} (hm : IsGrid m h w F)
    (hh : 1 ≤ h) : ∃ row0, m[0]? = some row0 ∧ (row0.length : Int) = w := by
  have hlen := hm.1
  have h0 : 0 < m.length := by omega
  exact ⟨m[0], List.getElem?_eq_getElem h0, hm.2.1 _ (List.getElem_mem _)⟩

/-- What `expandMap` returns on a grid of `h ≥ 1` rows of `w` characters. -/
theorem expandMap_spec {map : Grid} {h w : Int} {F : Int → Int → Char}
    (hmap : IsGrid map h w F) (hh : 1 ≤ h)
    (extraRows extraCols shiftRows shiftCols : Int)
    (her : 0 ≤ extraRows) (hec : 0 ≤ extraCols)
    (hsr : shiftRows = 1 → 1 ≤ extraRows) (hsc : shiftCols = 1 → 1 ≤ extraCols) :
    ∃ m', expandMap map h extraRows extraCols shiftRows shiftCols = some (m', h + extraRows) ∧
      IsGrid m' (h + extraRows) (w + extraCols) (fun a b =>
        if (if shiftRows = 1 then 1 else 0) ≤ a ∧ a - (if shiftRows = 1 then 1 else 0) < h ∧
            (if shiftCols = 1 then 1 else 0) ≤ b ∧ b - (if shiftCols = 1 then 1 else 0) < w
        then F (a - (if shiftRows = 1 then 1 else 0)) (b - (if shiftCols = 1 then 1 else 0))
        else ' ') := by
  obtain ⟨row0, hrow0, hlen0⟩ := hmap.row0 hh
  have hw0 : 0 ≤ w := by omega
  have hblank := isGrid_blank (h + extraRows).toNat (w + extraCols).toNat
  rw [Int.toNat_of_nonneg (by omega : 0 ≤ h + extraRows),
    Int.toNat_of_nonneg (by omega : 0 ≤ w + extraCols)] at hblank
  obtain ⟨m1, hm1, hG1⟩ := copyLoop_spec hmap hblank (by omega) (by omega)
  -- row shift
  have hrow : ∃ m2, (if shiftRows = 1 then
      loopDown (h + extraRows - 1).toNat (fun j m =>
        loopUp (w + extraCols).toNat (fun k m =>
          (getCell m j k).bind fun c =>
          (setCell m (j + 1) k c).bind fun m =>
          setCell m j k ' ') m) m1
     else some m1) = some m2 ∧
      IsGrid m2 (h + extraRows) (w + extraCols) (fun a b =>
        if (if shiftRows = 1 then 1 else 0) ≤ a ∧ a - (if shiftRows = 1 then 1 else 0) < h ∧ b < w
        then F (a - (if shiftRows = 1 then 1 else 0)) b else ' ') := by
    by_cases hs : shiftRows = 1
    · obtain ⟨m2, hm2, hG2⟩ := rowShift_spec hG1 (by
        intro b
        have : ¬ (h + extraRows - 1 < h) := by have := hsr hs; omega
        simp [this])
      refine ⟨m2, by simp only [hs, if_true]; exact hm2, hG2.congr ?_⟩
      intro a b _ _ _ _
      simp only [hs, if_true]
      split_ifs <;> first | rfl | omega
    · refine ⟨m1, by simp only [hs, if_false], hG1.congr ?_⟩
      intro a b _ _ _ _
      simp only [hs, if_false]
      split_ifs <;> first | rfl | omega | simp
  obtain ⟨m2, hm2, hG2⟩ := hrow
  have hcol : ∃ m3, (if shiftCols = 1 then
      loopUp (h + extraRows).toNat (fun j m =>
        loopDown (w + extraCols - 1).toNat (fun k0 m =>
          let k : Int := k0 + 1
          (getCell m j (k - 1)).bind fun c =>
          (setCell m j k c).bind fun m =>
          setCell m j (k - 1) ' ') m) m2
     else some m2) = some m3 ∧
      IsGrid m3 (h + extraRows) (w + extraCols) (fun a b =>
        if (if shiftRows = 1 then 1 else 0) ≤ a ∧ a - (if shiftRows = 1 then 1 else 0) < h ∧
            (if shiftCols = 1 then 1 else 0) ≤ b ∧ b - (if shiftCols = 1 then 1 else 0) < w
        then F (a - (if shiftRows = 1 then 1 else 0)) (b - (if shiftCols = 1 then 1 else 0))
        else ' ') := by
    by_cases hs : shiftCols = 1
    · obtain ⟨m3, hm3, hG3⟩ := colShift_spec hG2 (by
        intro a
        have : ¬ (w + extraCols - 1 < w) := by have := hsc hs; omega
        simp [this])
      refine ⟨m3, by simp only [hs, if_true]; exact hm3, hG3.congr ?_⟩
      intro a b _ _ _ _
      simp only [hs, if_true]
      split_ifs <;> first | rfl | omega
    · refine ⟨m2, by simp only [hs, if_false], hG2.congr ?_⟩
      intro a b _ _ _ _
      simp only [hs, if_false]
      split_ifs <;> first | rfl | omega | simp
  obtain ⟨m3, hm3, hG3⟩ := hcol
  refine ⟨m3, ?_, hG3⟩
  have hneg : ¬ (h + extraRows < 0 ∨ w + extraCols < 0) := by omega
  simp only [expandMap, hrow0, hlen0, hneg, if_false, hm1, Option.some_bind, hm2, hm3]

/-! ### `copyMap`, the reveal loop and `showMap` -/

theorem copyRows_take (m : Grid) (L : Nat) (hL : ∀ row ∈ m, row.length ≤ L) :
    ∀ n, n ≤ m.length → copyRows m L n = some (m.take n) := by
  intro n
  induction n with
  | zero => intro _; simp [copyRows]
  | succ k ih =>
    intro hk
    have hk' : k < m.length := by omega
    have hr : m[k]? = some m[k] := List.getElem?_eq_getElem hk'
    have hl : (m[k]).length ≤ L := hL _ (List.getElem_mem _)
    rw [copyRows, ih (by omega), List.take_succ]
    simp only [Option.some_bind, hr, hl, if_true, Option.toList]

/-- `copyMap` of a grid with its own height returns the grid itself. -/
theorem copyMap_self {m : Grid} {h w : Int} {F : Int → Int → Char} (hm : IsGrid m h w F)
    (hh : 1 ≤ h) (savemap : Grid) (oldrows : Int) : copyMap m savemap h oldrows = some m := by
  obtain ⟨row0, hrow0, hlen0⟩ := hm.row0 hh
  have hlen := hm.1
  have hL : ∀ row ∈ m, row.length ≤ row0.length := by
    intro row hrow
    have := hm.2.1 row hrow
    omega
  have := copyRows_take m row0.length hL h.toNat (by omega)
  simp only [copyMap, hrow0, this]
  rw [List.take_of_length_le (by omega)]

/-- The reveal loop from step `i` for `n` steps, at in-bounds and pairwise
distinct cells: it runs to its end exactly when every cell is blank or holds
the incoming character, and then the cells hold the incoming characters and
nothing else changed. -/
theorem revealLoop_spec (pos : Nat → Int × Int) (sequence : List Char) {h w : Int} :
    ∀ (n i : Nat) (m : Grid) (F : Int → Int → Char), IsGrid m h w F →
    (∀ k, i ≤ k → k < i + n →
      0 ≤ (pos k).1 ∧ (pos k).1 < h ∧ 0 ≤ (pos k).2 ∧ (pos k).2 < w) →
    (∀ k l, i ≤ k → k < i + n → i ≤ l → l < i + n → pos k = pos l → k = l) →
    ∃ r, revealLoop pos sequence n i m = some r ∧
      (r.1 = true ↔ ∀ k, i ≤ k → k < i + n →
        (F (pos k).1 (pos k).2 = ' ' ∨ F (pos k).1 (pos k).2 = charAt sequence k)) ∧
      (r.1 = true → ∃ F', IsGrid r.2 h w F' ∧
        (∀ k, i ≤ k → k < i + n → F' (pos k).1 (pos k).2 = charAt sequence k) ∧
        (∀ a b, (∀ k, i ≤ k → k < i + n → (a, b) ≠ pos k) → F' a b = F a b)) := by
  intro n
  induction n with
  | zero =>
    intro i m F hm _ _
    refine ⟨(true, m), rfl, ?_, ?_⟩
    · simp; intro k h1 h2; omega
    · intro _; exact ⟨F, hm, by intro k h1 h2; omega, by intro a b _; rfl⟩
  | succ n ih =>
    intro i m F hm hin hinj
    obtain ⟨hi1, hi2, hi3, hi4⟩ := hin i (le_refl _) (by omega)
    have hg := hm.get hi1 hi2 hi3 hi4
    by_cases hok : F (pos i).1 (pos i).2 = ' ' ∨ F (pos i).1 (pos i).2 = charAt sequence i
    · obtain ⟨m1, hm1, hG1⟩ := hm.set hi1 hi2 hi3 hi4 (charAt sequence i)
      obtain ⟨r, hr, hiff, hres⟩ := ih (i + 1) m1 _ hG1
        (fun k h1 h2 => hin k (by omega) (by omega))
        (fun k l h1 h2 h3 h4 => hinj k l (by omega) (by omega) (by omega) (by omega))
      have hne : ∀ k, i + 1 ≤ k → k < i + 1 + n → ¬ ((pos k).1 = (pos i).1 ∧ (pos k).2 = (pos i).2) := by
        intro k h1 h2 h3
        have : pos k = pos i := Prod.ext h3.1 h3.2
        have := hinj k i (by omega) (by omega) (by omega) (by omega) this
        omega
      refine ⟨r, ?_, ?_, ?_⟩
      · simp only [revealLoop, hg, hok, if_true, hm1, Option.some_bind, hr]
      · rw [hiff]
        constructor
        · intro hall k h1 h2
          by_cases hk : k = i
          · subst hk; exact hok
          · have := hall k (by omega) (by omega)
            simpa only [hne k (by omega) (by omega), if_false] using this
        · intro hall k h1 h2
          have := hall k (by omega) (by omega)
          simpa only [hne k (by omega) (by omega), if_false] using this
      · intro hr1
        obtain ⟨F', hF', hset, hframe⟩ := hres hr1
        refine ⟨F', hF', ?_, ?_⟩
        · intro k h1 h2
          by_cases hk : k = i
          · subst hk
            rw [hframe (pos k).1 (pos k).2 (by
              intro l h3 h4 heq
              have := hinj k l (by omega) (by omega) (by omega) (by omega) heq
              omega)]
            simp
          · exact hset k (by omega) (by omega)
        · intro a b hab
          rw [hframe a b (fun k h1 h2 => hab k (by omega) (by omega))]
          have : ¬ (a = (pos i).1 ∧ b = (pos i).2) := by
            intro h3
            exact hab i (le_refl _) (by omega) (Prod.ext h3.1 h3.2)
          simp only [this, if_false]
    · refine ⟨(false, m), ?_, ?_, ?_⟩
      · simp only [revealLoop, hg, hok, if_false]
      · simp only [Bool.false_eq_true, false_iff]
        intro hall
        exact hok (hall i (le_refl _) (by omega))
      · intro hc; simp at hc

theorem isGrid_cellAt {m : Grid} {h w : Int} (hlen : (m.length : Int) = h)
    (hrows : ∀ row ∈ m, (row.length : Int) = w) : IsGrid m h w (cellAt m) := by
  refine ⟨hlen, hrows, ?_⟩
  intro i j hi0 hi hj0 hj
  have hin : i.toNat < m.length := by omega
  have hr : m[i.toNat]? = some m[i.toNat] := List.getElem?_eq_getElem hin
  have hrl : ((m[i.toNat]).length : Int) = w := hrows _ (List.getElem_mem _)
  have hjn : j.toNat < (m[i.toNat]).length := by omega
  have hg : getCell m i j = some ((m[i.toNat])[j.toNat]) := by
    rw [getCell_of_row hi0 hj0 hr]; exact List.getElem?_eq_getElem hjn
  simp only [cellAt, hg, Option.getD_some]

theorem width_eq {m : Grid} {h w : Int} {F : Int → Int → Char} (hm : IsGrid m h w F)
    (hh : 1 ≤ h) : width m = w := by
  obtain ⟨row0, hrow0, hlen0⟩ := hm.row0 hh
  cases m with
  | nil => simp at hrow0
  | cons r rs =>
    simp at hrow0
    subst hrow0
    simpa [width] using hlen0

theorem WellFormed.isGrid {s : State} (hw : WellFormed s) :
    IsGrid s.map s.rows s.cols (cellAt s.map) := by
  obtain ⟨hrect, hrows, hcols, _, _, _, _, _⟩ := hw
  exact isGrid_cellAt hrows.symm (fun row hrow => (hrect row hrow).trans hcols.symm)

theorem showMapGlyph_spec {m : Grid} {h w : Int} {F : Int → Int → Char} (hm : IsGrid m h w F)
    {r c d : Int} (hd : validDir d) (hr0 : 0 ≤ r) (hr : r < h) (hc0 : 0 ≤ c) (hc : c < w) :
    ∃ m', showMapGlyph m r c d = some m' ∧
      IsGrid m' h w (fun a b => if a = r ∧ b = c then glyph d else F a b) := by
  rcases hd with hd | hd | hd | hd <;> subst hd
  · obtain ⟨m', hm', hG⟩ := hm.set hr0 hr hc0 hc '^'
    exact ⟨m', by simp [showMapGlyph, hm'], by simpa [glyph] using hG⟩
  · obtain ⟨m', hm', hG⟩ := hm.set hr0 hr hc0 hc 'V'
    exact ⟨m', by simp [showMapGlyph, hm'], by simpa [glyph] using hG⟩
  · obtain ⟨m', hm', hG⟩ := hm.set hr0 hr hc0 hc '>'
    exact ⟨m', by simp [showMapGlyph, hm'], by simpa [glyph] using hG⟩
  · obtain ⟨m', hm', hG⟩ := hm.set hr0 hr hc0 hc '<'
    exact ⟨m', by simp [showMapGlyph, hm'], by simpa [glyph] using hG⟩

theorem showMap_spec {m : Grid} {h w : Int} {F : Int → Int → Char} (hm : IsGrid m h w F)
    {r c d : Int} (hd : validDir d) (hr0 : 0 ≤ r) (hr : r < h) (hc0 : 0 ≤ c) (hc : c < w) :
    ∃ m' text, showMap m h r c d = some (m', text) ∧
      IsGrid m' h w (fun a b => if a = r ∧ b = c then glyph d else F a b) := by
  obtain ⟨m', hm', hG⟩ := showMapGlyph_spec hm hd hr0 hr hc0 hc
  obtain ⟨row0, hrow0, _⟩ := hG.row0 (by omega)
  obtain ⟨body, hbody, _⟩ := loopUp_inv (fun _ _ => True) h.toNat (printRow m')
    ([] : List Char) trivial (by
      intro j hj out _
      have hlen := hG.1
      have hj' : j < m'.length := by omega
      refine ⟨out ++ (['|'] ++ m'[j] ++ ['|', '\n']), ?_, trivial⟩
      simp only [printRow, List.getElem?_eq_getElem hj'])
  refine ⟨m', (['+'] ++ List.replicate row0.length '-' ++ ['+', '\n']) ++ body ++
    (['+'] ++ List.replicate row0.length '-' ++ ['+', '\n']), ?_, hG⟩
  simp only [showMap, hm', borderLine, hrow0, hbody, Option.bind_eq_bind, Option.some_bind, bind,
    pure]

theorem display_spec {s : State} {h w : Int} {F : Int → Int → Char} (hm : IsGrid s.map h w F)
    (hrows : s.rows = h) (hd : validDir s.dir)
    (hr0 : 0 ≤ s.rowPos) (hr : s.rowPos < h) (hc0 : 0 ≤ s.colPos) (hc : s.colPos < w) :
    ∃ m' text, display s = some (Outcome.shown text, { s with map := m' }) ∧
      IsGrid m' h w (fun a b => if a = s.rowPos ∧ b = s.colPos then glyph s.dir else F a b) := by
  obtain ⟨m', text, hm', hG⟩ := showMap_spec hm hd hr0 hr hc0 hc
  refine ⟨m', text, ?_, hG⟩
  simp only [display, hrows, hm', Option.bind_eq_bind, Option.some_bind, bind, pure]

/-- What the tail shared by the commands does after the reveal loop ran to its
end: the glyph is overlaid and the map is shown. -/
theorem reveal_display_spec {s : State} {h w : Int} {F : Int → Int → Char}
    (hm : IsGrid s.map h w F) (hrows : s.rows = h) (hd : validDir s.dir)
    (hr0 : 0 ≤ s.rowPos) (hr : s.rowPos < h) (hc0 : 0 ≤ s.colPos) (hc : s.colPos < w)
    (pos : Nat → Int × Int) (sequence : List Char)
    (hin : ∀ k, k < 3 → 0 ≤ (pos k).1 ∧ (pos k).1 < h ∧ 0 ≤ (pos k).2 ∧ (pos k).2 < w)
    (hinj : ∀ k l, k < 3 → l < 3 → pos k = pos l → k = l)
    (hne : ∀ k, k < 3 → pos k ≠ (s.rowPos, s.colPos)) :
    ∃ r, revealLoop pos sequence 3 0 s.map = some r ∧
      (r.1 = true ↔ ∀ k, k < 3 →
        (F (pos k).1 (pos k).2 = ' ' ∨ F (pos k).1 (pos k).2 = charAt sequence k)) ∧
      (r.1 = true → ∃ m' text F',
        display { s with map := r.2 } = some (Outcome.shown text, { s with map := m' }) ∧
        IsGrid m' h w F' ∧ F' s.rowPos s.colPos = glyph s.dir ∧
        (∀ k, k < 3 → F' (pos k).1 (pos k).2 = charAt sequence k) ∧
        (∀ a b, (a, b) ≠ (s.rowPos, s.colPos) → (∀ k, k < 3 → (a, b) ≠ pos k) →
          F' a b = F a b)) := by
  obtain ⟨r, hr1, hiff, hres⟩ := revealLoop_spec pos sequence 3 0 s.map F hm
    (fun k _ h2 => hin k (by omega))
    (fun k l _ h2 _ h4 => hinj k l (by omega) (by omega))
  refine ⟨r, hr1, ?_, ?_⟩
  · rw [hiff]
    constructor
    · intro hall k hk; exact hall k (Nat.zero_le _) (by omega)
    · intro hall k _ hk; exact hall k (by omega)
  · intro htrue
    obtain ⟨F1, hF1, hset, hframe⟩ := hres htrue
    obtain ⟨m', text, hdisp, hG⟩ := display_spec (s := { s with map := r.2 }) hF1 hrows hd
      hr0 hr hc0 hc
    refine ⟨m', text, _, hdisp, hG, ?_, ?_, ?_⟩
    · simp
    · intro k hk
      have h1 := hne k hk
      have h2 : ¬ ((pos k).1 = s.rowPos ∧ (pos k).2 = s.colPos) := by
        intro h3; exact h1 (Prod.ext h3.1 h3.2)
      simp only [h2, if_false]
      exact hset k (Nat.zero_le _) (by omega)
    · intro a b hab hk
      have h2 : ¬ (a = s.rowPos ∧ b = s.colPos) := by
        intro h3; exact hab (Prod.ext h3.1 h3.2)
      simp only [h2, if_false]
      exact hframe a b (fun k _ h4 => hk k (by omega))

/-- One branch of a turn, from a state whose snapshot is `M`. -/
theorem turnTo_spec {s : State} {h w : Int} {F : Int → Int → Char}
    (hm : IsGrid s.map h w F) (hrows : s.rows = h) (newDir : Int) (hd : validDir newDir)
    (hr0 : 0 ≤ s.rowPos) (hr : s.rowPos < h) (hc0 : 0 ≤ s.colPos) (hc : s.colPos < w)
    (pos : Nat → Int × Int) (sequence : List Char)
    (hin : ∀ k, k < 3 → 0 ≤ (pos k).1 ∧ (pos k).1 < h ∧ 0 ≤ (pos k).2 ∧ (pos k).2 < w)
    (hinj : ∀ k l, k < 3 → l < 3 → pos k = pos l → k = l)
    (hne : ∀ k, k < 3 → pos k ≠ (s.rowPos, s.colPos))
    (M : Grid) (hM : ∀ x y, copyMap s.savemap x s.oldrows y = some M) :
    ∃ r, turnTo s newDir pos sequence = some r ∧
      ((∀ k, k < 3 →
          (F (pos k).1 (pos k).2 = ' ' ∨ F (pos k).1 (pos k).2 = charAt sequence k)) →
        ∃ m' text F', r = (Outcome.shown text, { s with dir := newDir, map := m' }) ∧
          IsGrid m' h w F' ∧ F' s.rowPos s.colPos = glyph newDir ∧
          (∀ k, k < 3 → F' (pos k).1 (pos k).2 = charAt sequence k) ∧
          (∀ a b, (a, b) ≠ (s.rowPos, s.colPos) → (∀ k, k < 3 → (a, b) ≠ pos k) →
            F' a b = F a b)) ∧
      (¬ (∀ k, k < 3 →
          (F (pos k).1 (pos k).2 = ' ' ∨ F (pos k).1 (pos k).2 = charAt sequence k)) →
        r = (Outcome.inconsistent, { s with map := M })) := by
  obtain ⟨r, hr1, hiff, hres⟩ := reveal_display_spec (s := { s with dir := newDir })
    hm hrows hd hr0 hr hc0 hc pos sequence hin hinj hne
  by_cases hb : r.1 = true
  · obtain ⟨m', text, F', hdisp, hF', h1, h2, h3⟩ := hres hb
    refine ⟨(Outcome.shown text, { s with dir := newDir, map := m' }), ?_, ?_, ?_⟩
    · simp only [turnTo, hr1, Option.bind_eq_bind, Option.some_bind, bind, hb, if_true]
      exact hdisp
    · intro _
      exact ⟨m', text, F', rfl, hF', h1, h2, h3⟩
    · intro hno
      exact absurd (hiff.mp hb) hno
  · refine ⟨(Outcome.inconsistent, { s with map := M }), ?_, ?_, ?_⟩
    · simp only [turnTo, hr1, Option.bind_eq_bind, Option.some_bind, bind, hb, hM, pure]
      simp
    · intro hall
      exact absurd (hiff.mpr hall) hb
    · intro _; rfl

/-! ### The turns -/

theorem scanCell_inBounds {d r c h w : Int} (hd : validDir d) (hr1 : 1 ≤ r) (hr2 : r ≤ h - 2)
    (hc1 : 1 ≤ c) (hc2 : c ≤ w - 2) (k : Nat) (hk : k < 3) :
    0 ≤ (scanCell d r c k).1 ∧ (scanCell d r c k).1 < h ∧
    0 ≤ (scanCell d r c k).2 ∧ (scanCell d r c k).2 < w := by
  rcases hd with hd | hd | hd | hd <;> subst hd <;> simp [scanCell] <;> omega

theorem scanCell_inj {d r c : Int} (hd : validDir d) (k l : Nat)
    (h : scanCell d r c k = scanCell d r c l) : k = l := by
  rcases hd with hd | hd | hd | hd <;> subst hd <;> simp [scanCell] at h <;> omega

theorem scanCell_ne {d r c : Int} (hd : validDir d) (k : Nat) : scanCell d r c k ≠ (r, c) := by
  rcases hd with hd | hd | hd | hd <;> subst hd <;> simp [scanCell]

theorem validDir_turnedLeft {d : Int} (hd : validDir d) : validDir (turnedLeft d) := by
  rcases hd with hd | hd | hd | hd <;> subst hd <;> simp [turnedLeft, validDir]

theorem validDir_turnedRight {d : Int} (hd : validDir d) : validDir (turnedRight d) := by
  rcases hd with hd | hd | hd | hd <;> subst hd <;> simp [turnedRight, validDir]

theorem turnLeft_eq {s : State} (hw : WellFormed s) (sequence : List Char) :
    turnLeft s sequence =
      turnTo (saved s) (turnedLeft s.dir) (scanCell (turnedLeft s.dir) s.rowPos s.colPos)
        sequence := by
  have hg := hw.isGrid
  obtain ⟨_, _, _, hd, hr1, hr2, _, _⟩ := hw
  have hcopy := copyMap_self hg (by omega) s.savemap s.oldrows
  rcases hd with hd | hd | hd | hd <;>
    · simp only [turnLeft, hcopy, Option.bind_eq_bind, Option.some_bind, bind, hd, saved,
        turnedLeft]
      simp [scanCell]
      rfl

theorem turnRight_eq {s : State} (hw : WellFormed s) (sequence : List Char) :
    turnRight s sequence =
      turnTo (saved s) (turnedRight s.dir) (scanCell (turnedRight s.dir) s.rowPos s.colPos)
        sequence := by
  have hg := hw.isGrid
  obtain ⟨_, _, _, hd, hr1, hr2, _, _⟩ := hw
  have hcopy := copyMap_self hg (by omega) s.savemap s.oldrows
  rcases hd with hd | hd | hd | hd <;>
    · simp only [turnRight, hcopy, Option.bind_eq_bind, Option.some_bind, bind, hd, saved,
        turnedRight]
      simp [scanCell]
      rfl

/-- A turn to the facing `d` from a well-formed state. -/
theorem turnTo_saved_spec {s : State} (hw : WellFormed s) (d : Int) (hd : validDir d)
    (sequence : List Char) :
    ∃ r, turnTo (saved s) d (scanCell d s.rowPos s.colPos) sequence = some r ∧
      (RevealOk s.map d s.rowPos s.colPos sequence →
        ∃ m' text F', r = (Outcome.shown text, { saved s with dir := d, map := m' }) ∧
          IsGrid m' s.rows s.cols F' ∧ F' s.rowPos s.colPos = glyph d ∧
          (∀ k, k < 3 → F' (scanCell d s.rowPos s.colPos k).1 (scanCell d s.rowPos s.colPos k).2
            = charAt sequence k) ∧
          (∀ a b, (a, b) ≠ (s.rowPos, s.colPos) →
            (∀ k, k < 3 → (a, b) ≠ scanCell d s.rowPos s.colPos k) →
            F' a b = cellAt s.map a b)) ∧
      (¬ RevealOk s.map d s.rowPos s.colPos sequence → r = (Outcome.inconsistent, saved s)) := by
  have hg := hw.isGrid
  obtain ⟨_, _, _, _, hr1, hr2, hc1, hc2⟩ := hw
  have hcopy := copyMap_self hg (by omega : 1 ≤ s.rows)
  exact turnTo_spec (s := saved s) hg rfl d hd (by simp [saved]; omega) (by simp [saved]; omega)
    (by simp [saved]; omega) (by simp [saved]; omega) _ sequence
    (fun k hk => scanCell_inBounds hd hr1 hr2 hc1 hc2 k hk)
    (fun k l _ _ h => scanCell_inj hd k l h)
    (fun k _ => scanCell_ne hd k) s.map (fun x y => hcopy x y)

/-! ### `moveForward` -/

theorem cellAt_outside {m : Grid} {h w : Int} {F : Int → Int → Char} (hm : IsGrid m h w F)
    {i j : Int} (hout : i < 0 ∨ h ≤ i ∨ j < 0 ∨ w ≤ j) : cellAt m i j = ' ' := by
  unfold cellAt getCell
  by_cases h0 : 0 ≤ i ∧ 0 ≤ j
  · rw [if_pos h0]
    by_cases hi : i < h
    · have hin : i.toNat < m.length := by have := hm.1; omega
      have hr : m[i.toNat]? = some m[i.toNat] := List.getElem?_eq_getElem hin
      have hrl : ((m[i.toNat]).length : Int) = w := hm.2.1 _ (List.getElem_mem _)
      have hj : (m[i.toNat]).length ≤ j.toNat := by omega
      simp only [hr]
      rw [List.getElem?_eq_none hj]; rfl
    · have hin : m.length ≤ i.toNat := by have := hm.1; omega
      rw [List.getElem?_eq_none hin]; rfl
  · rw [if_neg h0]; rfl

/-- The reveal test in the middle of a forward move is the test on the grid
before the move. -/
theorem midCell_scan {s : State} (hw : WellFormed s) (k : Nat) (hk : k < 3) :
    midCell s
      (scanCell s.dir ((ahead s.dir s.rowPos s.colPos).1 + shiftRow s)
        ((ahead s.dir s.rowPos s.colPos).2 + shiftCol s) k).1
      (scanCell s.dir ((ahead s.dir s.rowPos s.colPos).1 + shiftRow s)
        ((ahead s.dir s.rowPos s.colPos).2 + shiftCol s) k).2 =
    cellAt s.map
      (scanCell s.dir (ahead s.dir s.rowPos s.colPos).1 (ahead s.dir s.rowPos s.colPos).2 k).1
      (scanCell s.dir (ahead s.dir s.rowPos s.colPos).1 (ahead s.dir s.rowPos s.colPos).2 k).2 := by
  have hg := hw.isGrid
  obtain ⟨_, _, _, hvd, hr1, hr2, hc1, hc2⟩ := hw
  rcases hvd with hd | hd | hd | hd
  all_goals
    simp only [midCell, scanCell, ahead, shiftRow, shiftCol, hd]
    norm_num
    split_ifs <;>
      first
        | rfl
        | omega
        | (congr 1; omega)
        | (symm; apply cellAt_outside hg; omega)

theorem forward_newpos_bounds {s : State} (hw : WellFormed s) :
    1 ≤ (ahead s.dir s.rowPos s.colPos).1 + shiftRow s ∧
    (ahead s.dir s.rowPos s.colPos).1 + shiftRow s ≤ s.rows + growRows s - 2 ∧
    1 ≤ (ahead s.dir s.rowPos s.colPos).2 + shiftCol s ∧
    (ahead s.dir s.rowPos s.colPos).2 + shiftCol s ≤ s.cols + growCols s - 2 := by
  obtain ⟨_, _, _, hvd, hr1, hr2, hc1, hc2⟩ := hw
  rcases hvd with hd | hd | hd | hd
  all_goals
    simp only [ahead, shiftRow, shiftCol, growRows, growCols, hd]
    norm_num
    split_ifs <;> omega

/-- A forward move that expands the grid reveals into the fresh cells. -/
theorem revealOk_of_grow {s : State} (hw : WellFormed s) (sequence : List Char)
    (hgrow : ¬ (growRows s = 0 ∧ growCols s = 0)) :
    RevealOk s.map s.dir (ahead s.dir s.rowPos s.colPos).1 (ahead s.dir s.rowPos s.colPos).2
      sequence := by
  have hg := hw.isGrid
  obtain ⟨_, _, _, hvd, hr1, hr2, hc1, hc2⟩ := hw
  intro k hk
  left
  apply cellAt_outside hg
  rcases hvd with hd | hd | hd | hd
  all_goals
    simp only [ahead, growRows, growCols, hd] at hgrow
    norm_num at hgrow
    simp only [scanCell, ahead, hd]
    norm_num
    omega

/-- Assembling the result of `moveForward` from the run of its reveal loop. -/
theorem forward_assemble {s : State} (hw : WellFormed s) (sequence : List Char)
    (m2 : Grid) (H W r2 c2 : Int) (lst : Char) (pos : Nat → Int × Int)
    (heq : ∀ r, revealLoop pos sequence 3 0 m2 = some r →
      (r.1 = true → moveForward s sequence =
        display { rows := H, oldrows := s.rows, cols := W, map := r.2, savemap := s.map,
                  dir := s.dir, rowPos := r2, colPos := c2, last := lst }) ∧
      (¬ r.1 = true → growRows s = 0 → growCols s = 0 → moveForward s sequence =
        some (Outcome.inconsistent, { saved s with last := cellAt s.map s.rowPos s.colPos })))
    (hH : H = s.rows + growRows s) (hW : W = s.cols + growCols s)
    (hr2 : r2 = (ahead s.dir s.rowPos s.colPos).1 + shiftRow s)
    (hc2 : c2 = (ahead s.dir s.rowPos s.colPos).2 + shiftCol s)
    (hl : lst = cellAt s.map (ahead s.dir s.rowPos s.colPos).1 (ahead s.dir s.rowPos s.colPos).2)
    (hpos : ∀ i, pos i = scanCell s.dir r2 c2 i)
    (hG2 : IsGrid m2 H W (midCell s)) :
    ∃ r, moveForward s sequence = some r ∧ ForwardSpec s sequence r := by
  have hpos' : pos = scanCell s.dir r2 c2 := funext hpos
  obtain ⟨hb1, hb2, hb3, hb4⟩ := forward_newpos_bounds hw
  have hvd : validDir s.dir := hw.2.2.2.1
  subst hpos'
  obtain ⟨r, hr1, hiff, hres⟩ := reveal_display_spec
    (s := { rows := H, oldrows := s.rows, cols := W, map := m2, savemap := s.map,
            dir := s.dir, rowPos := r2, colPos := c2, last := lst })
    hG2 rfl hvd (by show 0 ≤ r2; omega) (by show r2 < H; omega) (by show 0 ≤ c2; omega)
    (by show c2 < W; omega) (scanCell s.dir r2 c2) sequence
    (fun k hk => scanCell_inBounds hvd (by omega) (by omega) (by omega) (by omega) k hk)
    (fun k l _ _ h => scanCell_inj hvd k l h)
    (fun k _ => scanCell_ne hvd k)
  have hok : r.1 = true ↔ RevealOk s.map s.dir (ahead s.dir s.rowPos s.colPos).1
      (ahead s.dir s.rowPos s.colPos).2 sequence := by
    rw [hiff]
    subst hr2 hc2
    constructor
    · intro hall k hk
      have := hall k hk
      rw [midCell_scan hw k hk] at this
      exact this
    · intro hall k hk
      rw [midCell_scan hw k hk]
      exact hall k hk
  obtain ⟨heq1, heq2⟩ := heq r hr1
  by_cases hb : r.1 = true
  · obtain ⟨m', text, F', hdisp, hF', h1, h2, h3⟩ := hres hb
    refine ⟨_, (heq1 hb).trans hdisp, ?_, ?_⟩
    · intro _
      subst hH hW hr2 hc2 hl
      exact ⟨m', text, F', rfl, hF', h1, h2, h3⟩
    · intro hno
      exact absurd (hok.mp hb) hno
  · have hgrow : growRows s = 0 ∧ growCols s = 0 := by
      by_contra hc
      exact hb (hok.mpr (revealOk_of_grow hw sequence hc))
    refine ⟨_, heq2 hb hgrow.1 hgrow.2, ?_, ?_⟩
    · intro hyes
      exact absurd (hok.mpr hyes) hb
    · intro _
      exact ⟨rfl, hgrow.1, hgrow.2⟩

theorem moveForward_north {s : State} (hw : WellFormed s) (hd : s.dir = NORTH)
    (sequence : List Char) :
    ∃ r, moveForward s sequence = some r ∧ ForwardSpec s sequence r := by
  have hg := hw.isGrid
  obtain ⟨_, _, _, hvd, hr1, hr2, hc1, hc2⟩ := id hw
  have hcopy := copyMap_self hg (by omega : 1 ≤ s.rows)
  obtain ⟨m1, hm1, hG1⟩ := hg.set (by omega : 0 ≤ s.rowPos) (by omega) (by omega : 0 ≤ s.colPos)
    (by omega) s.last
  have hactor := hg.get (by omega : 0 ≤ s.rowPos) (by omega) (by omega : 0 ≤ s.colPos) (by omega)
  have hget := hG1.get (i := s.rowPos - 1) (j := s.colPos) (by omega) (by omega) (by omega)
    (by omega)
  rw [if_neg (by omega)] at hget
  by_cases hexp : s.rowPos - 1 = 0
  · obtain ⟨m2, hm2, hG2⟩ := expandMap_spec hG1 (by omega) 1 0 1 0 (by omega) (by omega)
      (by intro _; omega) (by intro h; omega)
    refine forward_assemble hw sequence m2 (s.rows + 1) s.cols (s.rowPos - 1 + 1) s.colPos
      (cellAt s.map (s.rowPos - 1) s.colPos)
      (fun i : Nat => (s.rowPos - 1 + 1 - 1, s.colPos - 1 + (i : Int))) ?heq ?hH ?hW ?hr2 ?hc2 ?hl ?hpos ?hG2
    case heq =>
      intro r hr
      simp only [moveForward, hcopy, Option.bind_eq_bind, Option.some_bind, bind, hm1, hd,
        if_true, hget, if_pos hexp, hm2, pure]
      rw [hr]
      simp only [Option.some_bind]
      constructor
      · intro h1
        simp only [h1, if_true]
      · intro _ h2
        simp [growRows, hd, hexp] at h2
    case hH => simp [growRows, hd, hexp]
    case hW => simp [growCols, hd]
    case hr2 => simp [ahead, shiftRow, hd, hexp]
    case hc2 => simp [ahead, shiftCol, hd]
    case hl => simp [ahead, hd]
    case hpos => intro i; simp [scanCell, hd]
    case hG2 =>
      have h1 : s.cols + 0 = s.cols := by omega
      rw [h1] at hG2
      refine hG2.congr ?_
      intro a b _ _ _ _
      simp only [midCell, shiftRow, shiftCol, hd, hexp]
      norm_num
  · refine forward_assemble hw sequence m1 s.rows s.cols (s.rowPos - 1) s.colPos
      (cellAt s.map (s.rowPos - 1) s.colPos)
      (fun i : Nat => (s.rowPos - 1 - 1, s.colPos - 1 + (i : Int))) ?heq ?hH ?hW ?hr2 ?hc2 ?hl ?hpos ?hG2
    case heq =>
      intro r hr
      simp only [moveForward, hcopy, Option.bind_eq_bind, Option.some_bind, bind, hm1, hd,
        if_true, hget, if_neg hexp, pure]
      rw [hr]
      simp only [Option.some_bind]
      constructor
      · intro h1
        simp only [h1, if_true]
      · intro h1 _ _
        have h3 : s.rowPos - 1 + 1 = s.rowPos := by omega
        simp only [h1, if_false, ne_eq, not_true_eq_false, h3, hactor, Option.some_bind, saved,
          hd, Bool.false_eq_true]
    case hH => simp [growRows, hd, hexp]
    case hW => simp [growCols, hd]
    case hr2 => simp [ahead, shiftRow, hd, hexp]
    case hc2 => simp [ahead, shiftCol, hd]
    case hl => simp [ahead, hd]
    case hpos => intro i; simp [scanCell, hd]
    case hG2 =>
      refine hG1.congr ?_
      intro a b _ _ _ _
      simp only [midCell, shiftRow, shiftCol, hd, hexp]
      norm_num
      split_ifs <;> first | rfl | omega

theorem south_ne_north : ¬ (SOUTH = NORTH) := by decide
theorem east_ne_north : ¬ (EAST = NORTH) := by decide
theorem east_ne_south : ¬ (EAST = SOUTH) := by decide
theorem west_ne_north : ¬ (WEST = NORTH) := by decide
theorem west_ne_south : ¬ (WEST = SOUTH) := by decide
theorem west_ne_east : ¬ (WEST = EAST) := by decide

theorem moveForward_south {s : State} (hw : WellFormed s) (hd : s.dir = SOUTH)
    (sequence : List Char) :
    ∃ r, moveForward s sequence = some r ∧ ForwardSpec s sequence r := by
  have hg := hw.isGrid
  obtain ⟨_, _, _, hvd, hr1, hr2, hc1, hc2⟩ := id hw
  have hcopy := copyMap_self hg (by omega : 1 ≤ s.rows)
  obtain ⟨m1, hm1, hG1⟩ := hg.set (by omega : 0 ≤ s.rowPos) (by omega) (by omega : 0 ≤ s.colPos)
    (by omega) s.last
  have hactor := hg.get (by omega : 0 ≤ s.rowPos) (by omega) (by omega : 0 ≤ s.colPos) (by omega)
  have hget := hG1.get (i := s.rowPos + 1) (j := s.colPos) (by omega) (by omega) (by omega)
    (by omega)
  rw [if_neg (by omega)] at hget
  by_cases hexp : s.rowPos + 1 = s.rows - 1
  · obtain ⟨m2, hm2, hG2⟩ := expandMap_spec hG1 (by omega) 1 0 0 0 (by omega) (by omega)
      (by intro _; omega) (by intro h; omega)
    refine forward_assemble hw sequence m2 (s.rows + 1) (s.cols) (s.rowPos + 1) (s.colPos)
      (cellAt s.map (s.rowPos + 1) (s.colPos))
      (fun i : Nat => (s.rowPos + 1 + 1, s.colPos + 1 - (i : Int))) ?heq ?hH ?hW ?hr2 ?hc2 ?hl ?hpos ?hG2
    case heq =>
      intro r hr
      simp only [moveForward, hcopy, Option.bind_eq_bind, Option.some_bind, bind, hm1, hd,
        if_true, hget, if_pos hexp, hm2, pure, south_ne_north, if_false]
      rw [hr]
      simp only [Option.some_bind]
      constructor
      · intro h1
        simp only [h1, if_true]
      · intro _ h2 h3
        simp [growRows, growCols, hd, hexp] at h2 h3
    case hH => simp [growRows, hd, hexp]
    case hW => simp [growCols, hd, hexp]
    case hr2 => simp [ahead, shiftRow, hd, hexp]
    case hc2 => simp [ahead, shiftCol, hd, hexp]
    case hl => simp [ahead, hd]
    case hpos => intro i; simp [scanCell, hd]
    case hG2 =>
      have e0 : s.cols + 0 = s.cols := by omega
      rw [e0] at hG2
      refine hG2.congr ?_
      intro a b _ _ _ _
      simp only [midCell, shiftRow, shiftCol, hd, hexp]
      norm_num
  · refine forward_assemble hw sequence m1 s.rows s.cols (s.rowPos + 1) (s.colPos)
      (cellAt s.map (s.rowPos + 1) (s.colPos))
      (fun i : Nat => (s.rowPos + 1 + 1, s.colPos + 1 - (i : Int))) ?heq ?hH ?hW ?hr2 ?hc2 ?hl ?hpos ?hG2
    case heq =>
      intro r hr
      simp only [moveForward, hcopy, Option.bind_eq_bind, Option.some_bind, bind, hm1, hd,
        if_true, hget, if_neg hexp, pure, south_ne_north, if_false]
      rw [hr]
      simp only [Option.some_bind]
      constructor
      · intro h1
        simp only [h1, if_true]
      · intro h1 _ _
        have h3 : s.rowPos + 1 - 1 = s.rowPos := by omega
        simp only [h1, if_false, ne_eq, not_true_eq_false, h3, hactor, Option.some_bind, saved,
          hd, Bool.false_eq_true]
    case hH => simp [growRows, hd, hexp]
    case hW => simp [growCols, hd, hexp]
    case hr2 => simp [ahead, shiftRow, hd, hexp]
    case hc2 => simp [ahead, shiftCol, hd, hexp]
    case hl => simp [ahead, hd]
    case hpos => intro i; simp [scanCell, hd]
    case hG2 =>
      refine hG1.congr ?_
      intro a b _ _ _ _
      simp only [midCell, shiftRow, shiftCol, hd, hexp]
      norm_num
      split_ifs <;> first | rfl | omega

theorem moveForward_east {s : State} (hw : WellFormed s) (hd : s.dir = EAST)
    (sequence : List Char) :
    ∃ r, moveForward s sequence = some r ∧ ForwardSpec s sequence r := by
  have hg := hw.isGrid
  obtain ⟨_, _, _, hvd, hr1, hr2, hc1, hc2⟩ := id hw
  have hcopy := copyMap_self hg (by omega : 1 ≤ s.rows)
  obtain ⟨m1, hm1, hG1⟩ := hg.set (by omega : 0 ≤ s.rowPos) (by omega) (by omega : 0 ≤ s.colPos)
    (by omega) s.last
  have hactor := hg.get (by omega : 0 ≤ s.rowPos) (by omega) (by omega : 0 ≤ s.colPos) (by omega)
  have hget := hG1.get (i := s.rowPos) (j := s.colPos + 1) (by omega) (by omega) (by omega)
    (by omega)
  rw [if_neg (by omega)] at hget
  by_cases hexp : s.colPos + 1 = s.cols - 1
  · obtain ⟨m2, hm2, hG2⟩ := expandMap_spec hG1 (by omega) 0 1 0 0 (by omega) (by omega)
      (by intro _; omega) (by intro h; omega)
    refine forward_assemble hw sequence m2 (s.rows + 0) (s.cols + 1) (s.rowPos) (s.colPos + 1)
      (cellAt s.map (s.rowPos) (s.colPos + 1))
      (fun i : Nat => (s.rowPos - 1 + (i : Int), s.colPos + 1 + 1)) ?heq ?hH ?hW ?hr2 ?hc2 ?hl ?hpos ?hG2
    case heq =>
      intro r hr
      simp only [moveForward, hcopy, Option.bind_eq_bind, Option.some_bind, bind, hm1, hd,
        if_true, hget, if_pos hexp, hm2, pure, east_ne_north, east_ne_south, if_false]
      rw [hr]
      simp only [Option.some_bind]
      constructor
      · intro h1
        simp only [h1, if_true]
      · intro _ h2 h3
        simp [growRows, growCols, hd, hexp] at h2 h3
    case hH => simp [growRows, hd, hexp]
    case hW => simp [growCols, hd, hexp]
    case hr2 => simp [ahead, shiftRow, hd, hexp]
    case hc2 => simp [ahead, shiftCol, hd, hexp]
    case hl => simp [ahead, hd]
    case hpos => intro i; simp [scanCell, hd]
    case hG2 =>
      refine hG2.congr ?_
      intro a b _ _ _ _
      simp only [midCell, shiftRow, shiftCol, hd, hexp]
      norm_num
  · refine forward_assemble hw sequence m1 s.rows s.cols (s.rowPos) (s.colPos + 1)
      (cellAt s.map (s.rowPos) (s.colPos + 1))
      (fun i : Nat => (s.rowPos - 1 + (i : Int), s.colPos + 1 + 1)) ?heq ?hH ?hW ?hr2 ?hc2 ?hl ?hpos ?hG2
    case heq =>
      intro r hr
      simp only [moveForward, hcopy, Option.bind_eq_bind, Option.some_bind, bind, hm1, hd,
        if_true, hget, if_neg hexp, pure, east_ne_north, east_ne_south, if_false]
      rw [hr]
      simp only [Option.some_bind]
      constructor
      · intro h1
        simp only [h1, if_true]
      · intro h1 _ _
        have h3 : s.colPos + 1 - 1 = s.colPos := by omega
        simp only [h1, if_false, ne_eq, not_true_eq_false, h3, hactor, Option.some_bind, saved,
          hd, Bool.false_eq_true]
    case hH => simp [growRows, hd, hexp]
    case hW => simp [growCols, hd, hexp]
    case hr2 => simp [ahead, shiftRow, hd, hexp]
    case hc2 => simp [ahead, shiftCol, hd, hexp]
    case hl => simp [ahead, hd]
    case hpos => intro i; simp [scanCell, hd]
    case hG2 =>
      refine hG1.congr ?_
      intro a b _ _ _ _
      simp only [midCell, shiftRow, shiftCol, hd, hexp]
      norm_num
      split_ifs <;> first | rfl | omega

theorem moveForward_west {s : State} (hw : WellFormed s) (hd : s.dir = WEST)
    (sequence : List Char) :
    ∃ r, moveForward s sequence = some r ∧ ForwardSpec s sequence r := by
  have hg := hw.isGrid
  obtain ⟨_, _, _, hvd, hr1, hr2, hc1, hc2⟩ := id hw
  have hcopy := copyMap_self hg (by omega : 1 ≤ s.rows)
  obtain ⟨m1, hm1, hG1⟩ := hg.set (by omega : 0 ≤ s.rowPos) (by omega) (by omega : 0 ≤ s.colPos)
    (by omega) s.last
  have hactor := hg.get (by omega : 0 ≤ s.rowPos) (by omega) (by omega : 0 ≤ s.colPos) (by omega)
  have hget := hG1.get (i := s.rowPos) (j := s.colPos - 1) (by omega) (by omega) (by omega)
    (by omega)
  rw [if_neg (by omega)] at hget
  by_cases hexp : s.colPos - 1 = 0
  · obtain ⟨m2, hm2, hG2⟩ := expandMap_spec hG1 (by omega) 0 1 0 1 (by omega) (by omega)
      (by intro _; omega) (by intro h; omega)
    refine forward_assemble hw sequence m2 (s.rows + 0) (s.cols + 1) (s.rowPos) (s.colPos - 1 + 1)
      (cellAt s.map (s.rowPos) (s.colPos - 1))
      (fun i : Nat => (s.rowPos + 1 - (i : Int), s.colPos - 1 + 1 - 1)) ?heq ?hH ?hW ?hr2 ?hc2 ?hl ?hpos ?hG2
    case heq =>
      intro r hr
      simp only [moveForward, hcopy, Option.bind_eq_bind, Option.some_bind, bind, hm1, hd,
        if_true, hget, if_pos hexp, hm2, pure, west_ne_north, west_ne_south, west_ne_east, if_false]
      rw [hr]
      simp only [Option.some_bind]
      constructor
      · intro h1
        simp only [h1, if_true]
      · intro _ h2 h3
        simp [growRows, growCols, hd, hexp] at h2 h3
    case hH => simp [growRows, hd, hexp]
    case hW => simp [growCols, hd, hexp]
    case hr2 => simp [ahead, shiftRow, hd, hexp]
    case hc2 => simp [ahead, shiftCol, hd, hexp]
    case hl => simp [ahead, hd]
    case hpos => intro i; simp [scanCell, hd]
    case hG2 =>
      refine hG2.congr ?_
      intro a b _ _ _ _
      simp only [midCell, shiftRow, shiftCol, hd, hexp]
      norm_num
  · refine forward_assemble hw sequence m1 s.rows s.cols (s.rowPos) (s.colPos - 1)
      (cellAt s.map (s.rowPos) (s.colPos - 1))
      (fun i : Nat => (s.rowPos + 1 - (i : Int), s.colPos - 1 - 1)) ?heq ?hH ?hW ?hr2 ?hc2 ?hl ?hpos ?hG2
    case heq =>
      intro r hr
      simp only [moveForward, hcopy, Option.bind_eq_bind, Option.some_bind, bind, hm1, hd,
        if_true, hget, if_neg hexp, pure, west_ne_north, west_ne_south, west_ne_east, if_false]
      rw [hr]
      simp only [Option.some_bind]
      constructor
      · intro h1
        simp only [h1, if_true]
      · intro h1 _ _
        have h3 : s.colPos - 1 + 1 = s.colPos := by omega
        simp only [h1, if_false, ne_eq, not_true_eq_false, h3, hactor, Option.some_bind, saved,
          hd, Bool.false_eq_true]
    case hH => simp [growRows, hd, hexp]
    case hW => simp [growCols, hd, hexp]
    case hr2 => simp [ahead, shiftRow, hd, hexp]
    case hc2 => simp [ahead, shiftCol, hd, hexp]
    case hl => simp [ahead, hd]
    case hpos => intro i; simp [scanCell, hd]
    case hG2 =>
      refine hG1.congr ?_
      intro a b _ _ _ _
      simp only [midCell, shiftRow, shiftCol, hd, hexp]
      norm_num
      split_ifs <;> first | rfl | omega

/-! ## Claims C1 to C10 -/

/-- Start-up with `...` leaves the program in `startState`. -/
theorem start_dots : (start "...".toList).map Prod.snd = some startState := by
  decide

/-- What `moveForward` returns from a well-formed state, for every facing. -/
theorem moveForward_spec {s : State} (hw : WellFormed s) (sequence : List Char) :
    ∃ r, moveForward s sequence = some r ∧ ForwardSpec s sequence r := by
  rcases hw.2.2.2.1 with hd | hd | hd | hd
  · exact moveForward_north hw hd sequence
  · exact moveForward_south hw hd sequence
  · exact moveForward_east hw hd sequence
  · exact moveForward_west hw hd sequence

theorem IsGrid.rect {m : Grid} {h w : Int} {F : Int → Int → Char} (hm : IsGrid m h w F)
    (hh : 1 ≤ h) : Rectangular m ∧ height m = h ∧ width m = w := by
  have hwd := width_eq hm hh
  refine ⟨?_, hm.1, hwd⟩
  intro row hrow
  rw [hwd]; exact hm.2.1 row hrow

/-- C1: from a well-formed state `moveForward` returns, and when it rejects the
move as inconsistent the grid (every cell, so also the target cells written
before the conflict), its height and width, `rows`, `cols`, the actor's row
and column and the facing are what they were before the call. -/
theorem moveForward_inconsistent_restores (s : State) (sequence : List Char)
    (hw : WellFormed s) :
    ∃ r, moveForward s sequence = some r ∧
      (r.1 = Outcome.inconsistent →
        r.2.map = s.map ∧ height r.2.map = height s.map ∧ width r.2.map = width s.map ∧
        r.2.rows = s.rows ∧ r.2.cols = s.cols ∧
        r.2.rowPos = s.rowPos ∧ r.2.colPos = s.colPos ∧ r.2.dir = s.dir) := by
  obtain ⟨r, hr, hok, hbad⟩ := moveForward_spec hw sequence
  refine ⟨r, hr, ?_⟩
  intro hinc
  by_cases h : RevealOk s.map s.dir (ahead s.dir s.rowPos s.colPos).1
      (ahead s.dir s.rowPos s.colPos).2 sequence
  · obtain ⟨m', text, F', hreq, _⟩ := hok h
    rw [hreq] at hinc
    simp at hinc
  · obtain ⟨hreq, _, _⟩ := hbad h
    rw [hreq]
    simp [saved]

/-- Witness for C1: `westState` is well-formed, and there the forward move with
`..#` is rejected. -/
theorem moveForward_inconsistent_restores_witness :
    WellFormed westState ∧
    (moveForward westState "..#".toList).map Prod.fst = some Outcome.inconsistent ∧
    ∃ r, moveForward westState "..#".toList = some r ∧
      (r.1 = Outcome.inconsistent →
        r.2.map = westState.map ∧ height r.2.map = height westState.map ∧
        width r.2.map = width westState.map ∧
        r.2.rows = westState.rows ∧ r.2.cols = westState.cols ∧
        r.2.rowPos = westState.rowPos ∧ r.2.colPos = westState.colPos ∧
        r.2.dir = westState.dir) :=
  ⟨by decide, by decide,
    moveForward_inconsistent_restores westState "..#".toList (by decide)⟩

/-- What a turn returns from a well-formed state, `d` being the new facing. -/
theorem turn_cases {s : State} (hw : WellFormed s) (d : Int) (hd : validDir d)
    (sequence : List Char) {r : Outcome × State}
    (hr : turnTo (saved s) d (scanCell d s.rowPos s.colPos) sequence = some r) :
    (RevealOk s.map d s.rowPos s.colPos sequence ∧
      ∃ m' text F', r = (Outcome.shown text, { saved s with dir := d, map := m' }) ∧
        IsGrid m' s.rows s.cols F' ∧ F' s.rowPos s.colPos = glyph d ∧
        (∀ k, k < 3 → F' (scanCell d s.rowPos s.colPos k).1 (scanCell d s.rowPos s.colPos k).2
          = charAt sequence k) ∧
        (∀ a b, (a, b) ≠ (s.rowPos, s.colPos) →
          (∀ k, k < 3 → (a, b) ≠ scanCell d s.rowPos s.colPos k) →
          F' a b = cellAt s.map a b)) ∨
    (¬ RevealOk s.map d s.rowPos s.colPos sequence ∧ r = (Outcome.inconsistent, saved s)) := by
  obtain ⟨r', hr', hok, hbad⟩ := turnTo_saved_spec hw d hd sequence
  rw [hr] at hr'
  cases Option.some.inj hr'
  by_cases h : RevealOk s.map d s.rowPos s.colPos sequence
  · exact Or.inl ⟨h, hok h⟩
  · exact Or.inr ⟨h, hbad h⟩

theorem turnTo_saved_total {s : State} (hw : WellFormed s) (d : Int) (hd : validDir d)
    (sequence : List Char) :
    ∃ r, turnTo (saved s) d (scanCell d s.rowPos s.colPos) sequence = some r := by
  obtain ⟨r, hr, _⟩ := turnTo_saved_spec hw d hd sequence
  exact ⟨r, hr⟩

/-- C3: from a well-formed state, whatever the facing, `turnLeft` and
`turnRight` return, and when either rejects the turn as inconsistent the grid
cells, the grid dimensions, `rows`, `cols`, the actor's position, the facing
and `last` are what they were before the call. -/
theorem turn_inconsistent_restores (s : State) (sequence : List Char) (hw : WellFormed s) :
    (∃ r, turnLeft s sequence = some r ∧
      (r.1 = Outcome.inconsistent →
        r.2.map = s.map ∧ height r.2.map = height s.map ∧ width r.2.map = width s.map ∧
        r.2.rows = s.rows ∧ r.2.cols = s.cols ∧ r.2.rowPos = s.rowPos ∧
        r.2.colPos = s.colPos ∧ r.2.dir = s.dir ∧ r.2.last = s.last)) ∧
    (∃ r, turnRight s sequence = some r ∧
      (r.1 = Outcome.inconsistent →
        r.2.map = s.map ∧ height r.2.map = height s.map ∧ width r.2.map = width s.map ∧
        r.2.rows = s.rows ∧ r.2.cols = s.cols ∧ r.2.rowPos = s.rowPos ∧
        r.2.colPos = s.colPos ∧ r.2.dir = s.dir ∧ r.2.last = s.last)) := by
  have hvd : validDir s.dir := hw.2.2.2.1
  constructor
  · obtain ⟨r, hr⟩ := turnTo_saved_total hw _ (validDir_turnedLeft hvd) sequence
    refine ⟨r, (turnLeft_eq hw sequence).trans hr, ?_⟩
    intro hinc
    rcases turn_cases hw _ (validDir_turnedLeft hvd) sequence hr with
      ⟨_, m', text, F', hreq, _⟩ | ⟨_, hreq⟩
    · rw [hreq] at hinc; simp at hinc
    · rw [hreq]; simp [saved]
  · obtain ⟨r, hr⟩ := turnTo_saved_total hw _ (validDir_turnedRight hvd) sequence
    refine ⟨r, (turnRight_eq hw sequence).trans hr, ?_⟩
    intro hinc
    rcases turn_cases hw _ (validDir_turnedRight hvd) sequence hr with
      ⟨_, m', text, F', hreq, _⟩ | ⟨_, hreq⟩
    · rw [hreq] at hinc; simp at hinc
    · rw [hreq]; simp [saved]

/-- Witness for C3: `westState` is well-formed, and there both turns with `###`
are rejected. -/
theorem turn_inconsistent_restores_witness :
    WellFormed westState ∧
    (turnLeft westState "###".toList).map Prod.fst = some Outcome.inconsistent ∧
    (turnRight westState "###".toList).map Prod.fst = some Outcome.inconsistent ∧
    (∃ r, turnLeft westState "###".toList = some r ∧
      (r.1 = Outcome.inconsistent →
        r.2.map = westState.map ∧ height r.2.map = height westState.map ∧
        width r.2.map = width westState.map ∧
        r.2.rows = westState.rows ∧ r.2.cols = westState.cols ∧
        r.2.rowPos = westState.rowPos ∧ r.2.colPos = westState.colPos ∧
        r.2.dir = westState.dir ∧ r.2.last = westState.last)) ∧
    (∃ r, turnRight westState "###".toList = some r ∧
      (r.1 = Outcome.inconsistent →
        r.2.map = westState.map ∧ height r.2.map = height westState.map ∧
        width r.2.map = width westState.map ∧
        r.2.rows = westState.rows ∧ r.2.cols = westState.cols ∧
        r.2.rowPos = westState.rowPos ∧ r.2.colPos = westState.colPos ∧
        r.2.dir = westState.dir ∧ r.2.last = westState.last)) :=
  ⟨by decide, by decide, by decide,
    turn_inconsistent_restores westState "###".toList (by decide)⟩

/-- C2 (the code at the failing input): after start-up with `...` and the
commands `right ...`, `forward ...`, `left ...`, `left ...` the program is in
`westState`, whose `last` is `.`; the command `forward ..#` is then rejected
as inconsistent and leaves `last` holding the glyph `<`. -/
theorem moveForward_rejected_overwrites_last :
    (start "...".toList).bind (fun r => run r.2 westScript) = some westState ∧
    WellFormed westState ∧
    isValidSequence "..#".toList = 1 ∧
    westState.last = '.' ∧
    step westState "forward".toList "..#".toList =
      some (Outcome.inconsistent, { westState with savemap := westState.map, last := '<' }) := by
  decide

/-- The two ways `moveForward` ends from a well-formed state. -/
theorem forward_cases {s : State} (hw : WellFormed s) (sequence : List Char)
    {r : Outcome × State} (hr : moveForward s sequence = some r) :
    (RevealOk s.map s.dir (ahead s.dir s.rowPos s.colPos).1 (ahead s.dir s.rowPos s.colPos).2
        sequence ∧
      ∃ m' text F', r = (Outcome.shown text,
          { saved s with
            map := m', rows := s.rows + growRows s, cols := s.cols + growCols s,
            rowPos := (ahead s.dir s.rowPos s.colPos).1 + shiftRow s,
            colPos := (ahead s.dir s.rowPos s.colPos).2 + shiftCol s,
            last := cellAt s.map (ahead s.dir s.rowPos s.colPos).1
              (ahead s.dir s.rowPos s.colPos).2 }) ∧
        IsGrid m' (s.rows + growRows s) (s.cols + growCols s) F' ∧
        F' r.2.rowPos r.2.colPos = glyph s.dir ∧
        (∀ k, k < 3 → F' (scanCell s.dir r.2.rowPos r.2.colPos k).1
          (scanCell s.dir r.2.rowPos r.2.colPos k).2 = charAt sequence k) ∧
        (∀ a b, (a, b) ≠ (r.2.rowPos, r.2.colPos) →
          (∀ k, k < 3 → (a, b) ≠ scanCell s.dir r.2.rowPos r.2.colPos k) →
          F' a b = midCell s a b)) ∨
    (¬ RevealOk s.map s.dir (ahead s.dir s.rowPos s.colPos).1 (ahead s.dir s.rowPos s.colPos).2
        sequence ∧
      r = (Outcome.inconsistent, { saved s with last := cellAt s.map s.rowPos s.colPos }) ∧
      growRows s = 0 ∧ growCols s = 0) := by
  obtain ⟨r', hr', hok, hbad⟩ := moveForward_spec hw sequence
  rw [hr] at hr'
  cases Option.some.inj hr'
  by_cases h : RevealOk s.map s.dir (ahead s.dir s.rowPos s.colPos).1
      (ahead s.dir s.rowPos s.colPos).2 sequence
  · exact Or.inl ⟨h, hok h⟩
  · exact Or.inr ⟨h, hbad h⟩

theorem moveForward_total {s : State} (hw : WellFormed s) (sequence : List Char) :
    ∃ r, moveForward s sequence = some r := by
  obtain ⟨r, hr, _⟩ := moveForward_spec hw sequence
  exact ⟨r, hr⟩

/-- After a committed forward move the scan window holds the sequence. -/
theorem forward_window {s : State} (hw : WellFormed s) (sequence : List Char)
    {r : Outcome × State} (hr : moveForward s sequence = some r) (hs : r.1.isShown = true) :
    ∀ k, k < 3 →
      getCell r.2.map (scanCell r.2.dir r.2.rowPos r.2.colPos k).1
        (scanCell r.2.dir r.2.rowPos r.2.colPos k).2 = some (charAt sequence k) := by
  rcases forward_cases hw sequence hr with ⟨_, m', text, F', hreq, hF', _, hwin, _⟩ | ⟨_, hreq, _⟩
  · intro k hk
    have hvd : validDir s.dir := hw.2.2.2.1
    obtain ⟨hb1, hb2, hb3, hb4⟩ := forward_newpos_bounds hw
    have hwk := hwin k hk
    subst hreq
    obtain ⟨h1, h2, h3, h4⟩ := scanCell_inBounds hvd hb1 hb2 hb3 hb4 k hk
    have := hF'.get h1 h2 h3 h4
    simp only [saved] at hwk ⊢
    rw [this, hwk]
  · subst hreq; simp [Outcome.isShown] at hs

/-- After a committed turn the scan window holds the sequence. -/
theorem turn_window {s : State} (hw : WellFormed s) (d : Int) (hd : validDir d)
    (sequence : List Char) {r : Outcome × State}
    (hr : turnTo (saved s) d (scanCell d s.rowPos s.colPos) sequence = some r)
    (hs : r.1.isShown = true) :
    r.2.dir = d ∧ r.2.rowPos = s.rowPos ∧ r.2.colPos = s.colPos ∧ r.2.last = s.last ∧
    WellFormed r.2 ∧
    ∀ k, k < 3 →
      getCell r.2.map (scanCell r.2.dir r.2.rowPos r.2.colPos k).1
        (scanCell r.2.dir r.2.rowPos r.2.colPos k).2 = some (charAt sequence k) := by
  rcases turn_cases hw d hd sequence hr with ⟨_, m', text, F', hreq, hF', _, hwin, _⟩ | ⟨_, hreq⟩
  · obtain ⟨_, _, _, _, hr1, hr2, hc1, hc2⟩ := id hw
    obtain ⟨hrect, hht, hwd⟩ := hF'.rect (by omega)
    subst hreq
    refine ⟨rfl, rfl, rfl, rfl, ⟨hrect, hht.symm, hwd.symm, hd, hr1, hr2, hc1, hc2⟩, ?_⟩
    intro k hk
    obtain ⟨h1, h2, h3, h4⟩ := scanCell_inBounds hd hr1 hr2 hc1 hc2 k hk
    have := hF'.get h1 h2 h3 h4
    simp only [saved]
    rw [this, hwin k hk]
  · subst hreq; simp [Outcome.isShown] at hs

theorem revealOk_wall {map : Grid} {d r c : Int} {sequence : List Char}
    (hok : RevealOk map d r c sequence) (k : Nat) (hk : k < 3)
    (hwall : cellAt map (scanCell d r c k).1 (scanCell d r c k).2 = '#')
    (hdot : charAt sequence k = '.') : False := by
  rcases hok k hk with h | h
  · rw [hwall] at h; exact absurd h (by decide)
  · rw [hwall, hdot] at h; exact absurd h (by decide)

/-- The commit test of a turn to the facing `d`. -/
theorem turn_commit_iff {s : State} (hw : WellFormed s) (d : Int) (hd : validDir d)
    (sequence : List Char) :
    ∃ r, turnTo (saved s) d (scanCell d s.rowPos s.colPos) sequence = some r ∧
      (r.1.isShown = true ↔ RevealOk s.map d s.rowPos s.colPos sequence) ∧
      (r.1 = Outcome.inconsistent ↔ ¬ RevealOk s.map d s.rowPos s.colPos sequence) ∧
      (r.1.isShown = true → ∀ k, k < 3 →
        getCell r.2.map (scanCell r.2.dir r.2.rowPos r.2.colPos k).1
          (scanCell r.2.dir r.2.rowPos r.2.colPos k).2 = some (charAt sequence k)) ∧
      (∀ k, k < 3 →
        cellAt s.map (scanCell d s.rowPos s.colPos k).1 (scanCell d s.rowPos s.colPos k).2 = '#' →
        charAt sequence k = '.' → r.1 = Outcome.inconsistent) := by
  obtain ⟨r, hr⟩ := turnTo_saved_total hw d hd sequence
  refine ⟨r, hr, ?_, ?_, ?_, ?_⟩
  · rcases turn_cases hw d hd sequence hr with ⟨hok, m', text, F', hreq, _⟩ | ⟨hno, hreq⟩
    · subst hreq; simp [Outcome.isShown, hok]
    · subst hreq; simp [Outcome.isShown, hno]
  · rcases turn_cases hw d hd sequence hr with ⟨hok, m', text, F', hreq, _⟩ | ⟨hno, hreq⟩
    · subst hreq; simp [hok]
    · subst hreq; simp [hno]
  · intro hs
    exact (turn_window hw d hd sequence hr hs).2.2.2.2.2
  · intro k hk hwall hdot
    rcases turn_cases hw d hd sequence hr with ⟨hok, _⟩ | ⟨_, hreq⟩
    · exact absurd (revealOk_wall hok k hk hwall hdot) id
    · subst hreq; rfl

/-- C4: from a well-formed state and for every sequence, `moveForward`,
`turnLeft` and `turnRight` return, the command is committed (the map is
shown) exactly when each of its three target cells is unseen or already holds
the corresponding character of the sequence, and it is rejected as inconsistent
exactly when that fails.  The target cells are the scan window of the new
position (forward) or of the unchanged position (turn) for the new facing, read
in the grid before the call, where a cell outside the grid, which the expansion
adds, is unseen.  After a commit the three target cells hold the characters of
the sequence, and a target cell holding `#` with incoming `.` gives a
rejection. -/
theorem commit_iff_targets_consistent (s : State) (sequence : List Char) (hw : WellFormed s) :
    (∃ r, moveForward s sequence = some r ∧
      (r.1.isShown = true ↔ RevealOk s.map s.dir (ahead s.dir s.rowPos s.colPos).1
        (ahead s.dir s.rowPos s.colPos).2 sequence) ∧
      (r.1 = Outcome.inconsistent ↔ ¬ RevealOk s.map s.dir (ahead s.dir s.rowPos s.colPos).1
        (ahead s.dir s.rowPos s.colPos).2 sequence) ∧
      (r.1.isShown = true → ∀ k, k < 3 →
        getCell r.2.map (scanCell r.2.dir r.2.rowPos r.2.colPos k).1
          (scanCell r.2.dir r.2.rowPos r.2.colPos k).2 = some (charAt sequence k)) ∧
      (∀ k, k < 3 →
        cellAt s.map
          (scanCell s.dir (ahead s.dir s.rowPos s.colPos).1 (ahead s.dir s.rowPos s.colPos).2 k).1
          (scanCell s.dir (ahead s.dir s.rowPos s.colPos).1 (ahead s.dir s.rowPos s.colPos).2 k).2
          = '#' →
        charAt sequence k = '.' → r.1 = Outcome.inconsistent)) ∧
    (∃ r, turnLeft s sequence = some r ∧
      (r.1.isShown = true ↔ RevealOk s.map (turnedLeft s.dir) s.rowPos s.colPos sequence) ∧
      (r.1 = Outcome.inconsistent ↔
        ¬ RevealOk s.map (turnedLeft s.dir) s.rowPos s.colPos sequence) ∧
      (r.1.isShown = true → ∀ k, k < 3 →
        getCell r.2.map (scanCell r.2.dir r.2.rowPos r.2.colPos k).1
          (scanCell r.2.dir r.2.rowPos r.2.colPos k).2 = some (charAt sequence k)) ∧
      (∀ k, k < 3 →
        cellAt s.map (scanCell (turnedLeft s.dir) s.rowPos s.colPos k).1
          (scanCell (turnedLeft s.dir) s.rowPos s.colPos k).2 = '#' →
        charAt sequence k = '.' → r.1 = Outcome.inconsistent)) ∧
    (∃ r, turnRight s sequence = some r ∧
      (r.1.isShown = true ↔ RevealOk s.map (turnedRight s.dir) s.rowPos s.colPos sequence) ∧
      (r.1 = Outcome.inconsistent ↔
        ¬ RevealOk s.map (turnedRight s.dir) s.rowPos s.colPos sequence) ∧
      (r.1.isShown = true → ∀ k, k < 3 →
        getCell r.2.map (scanCell r.2.dir r.2.rowPos r.2.colPos k).1
          (scanCell r.2.dir r.2.rowPos r.2.colPos k).2 = some (charAt sequence k)) ∧
      (∀ k, k < 3 →
        cellAt s.map (scanCell (turnedRight s.dir) s.rowPos s.colPos k).1
          (scanCell (turnedRight s.dir) s.rowPos s.colPos k).2 = '#' →
        charAt sequence k = '.' → r.1 = Outcome.inconsistent)) := by
  have hvd : validDir s.dir := hw.2.2.2.1
  refine ⟨?_, ?_, ?_⟩
  · obtain ⟨r, hr⟩ := moveForward_total hw sequence
    refine ⟨r, hr, ?_, ?_, ?_, ?_⟩
    · rcases forward_cases hw sequence hr with ⟨hok, m', text, F', hreq, _⟩ | ⟨hno, hreq, _⟩
      · subst hreq; simp [Outcome.isShown, hok]
      · subst hreq; simp [Outcome.isShown, hno]
    · rcases forward_cases hw sequence hr with ⟨hok, m', text, F', hreq, _⟩ | ⟨hno, hreq, _⟩
      · subst hreq; simp [hok]
      · subst hreq; simp [hno]
    · intro hs
      exact forward_window hw sequence hr hs
    · intro k hk hwall hdot
      rcases forward_cases hw sequence hr with ⟨hok, _⟩ | ⟨_, hreq, _⟩
      · exact absurd (revealOk_wall hok k hk hwall hdot) id
      · subst hreq; rfl
  · rw [turnLeft_eq hw sequence]
    exact turn_commit_iff hw _ (validDir_turnedLeft hvd) sequence
  · rw [turnRight_eq hw sequence]
    exact turn_commit_iff hw _ (validDir_turnedRight hvd) sequence

/-- Witness for C4: `westState` is well-formed, and there the forward move with
`..#` is rejected. -/
theorem commit_iff_targets_consistent_witness :
    WellFormed westState ∧
    (moveForward westState "..#".toList).map Prod.fst = some Outcome.inconsistent ∧
    ((∃ r, moveForward westState "..#".toList = some r ∧
      (r.1.isShown = true ↔ RevealOk westState.map westState.dir (ahead westState.dir westState.rowPos westState.colPos).1
        (ahead westState.dir westState.rowPos westState.colPos).2 "..#".toList) ∧
      (r.1 = Outcome.inconsistent ↔ ¬ RevealOk westState.map westState.dir (ahead westState.dir westState.rowPos westState.colPos).1
        (ahead westState.dir westState.rowPos westState.colPos).2 "..#".toList) ∧
      (r.1.isShown = true → ∀ k, k < 3 →
        getCell r.2.map (scanCell r.2.dir r.2.rowPos r.2.colPos k).1
          (scanCell r.2.dir r.2.rowPos r.2.colPos k).2 = some (charAt "..#".toList k)) ∧
      (∀ k, k < 3 →
        cellAt westState.map
          (scanCell westState.dir (ahead westState.dir westState.rowPos westState.colPos).1 (ahead westState.dir westState.rowPos westState.colPos).2 k).1
          (scanCell westState.dir (ahead westState.dir westState.rowPos westState.colPos).1 (ahead westState.dir westState.rowPos westState.colPos).2 k).2
          = '#' →
        charAt "..#".toList k = '.' → r.1 = Outcome.inconsistent)) ∧
    (∃ r, turnLeft westState "..#".toList = some r ∧
      (r.1.isShown = true ↔ RevealOk westState.map (turnedLeft westState.dir) westState.rowPos westState.colPos "..#".toList) ∧
      (r.1 = Outcome.inconsistent ↔
        ¬ RevealOk westState.map (turnedLeft westState.dir) westState.rowPos westState.colPos "..#".toList) ∧
      (r.1.isShown = true → ∀ k, k < 3 →
        getCell r.2.map (scanCell r.2.dir r.2.rowPos r.2.colPos k).1
          (scanCell r.2.dir r.2.rowPos r.2.colPos k).2 = some (charAt "..#".toList k)) ∧
      (∀ k, k < 3 →
        cellAt westState.map (scanCell (turnedLeft westState.dir) westState.rowPos westState.colPos k).1
          (scanCell (turnedLeft westState.dir) westState.rowPos westState.colPos k).2 = '#' →
        charAt "..#".toList k = '.' → r.1 = Outcome.inconsistent)) ∧
    (∃ r, turnRight westState "..#".toList = some r ∧
      (r.1.isShown = true ↔ RevealOk westState.map (turnedRight westState.dir) westState.rowPos westState.colPos "..#".toList) ∧
      (r.1 = Outcome.inconsistent ↔
        ¬ RevealOk westState.map (turnedRight westState.dir) westState.rowPos westState.colPos "..#".toList) ∧
      (r.1.isShown = true → ∀ k, k < 3 →
        getCell r.2.map (scanCell r.2.dir r.2.rowPos r.2.colPos k).1
          (scanCell r.2.dir r.2.rowPos r.2.colPos k).2 = some (charAt "..#".toList k)) ∧
      (∀ k, k < 3 →
        cellAt westState.map (scanCell (turnedRight westState.dir) westState.rowPos westState.colPos k).1
          (scanCell (turnedRight westState.dir) westState.rowPos westState.colPos k).2 = '#' →
        charAt "..#".toList k = '.' → r.1 = Outcome.inconsistent))) :=
  ⟨by decide, by decide,
    commit_iff_targets_consistent westState "..#".toList (by decide)⟩

/-- C5: after a committed `moveForward`, `turnLeft` or `turnRight` from a
well-formed state, with `(r, c)` the actor's position and `d` the facing after
the command, the grid holds the three characters of the sequence at the scan
window of `(r, c)` for `d`, in scan order: North at (r-1,c-1), (r-1,c),
(r-1,c+1); South at (r+1,c+1), (r+1,c), (r+1,c-1); East at (r-1,c+1), (r,c+1),
(r+1,c+1); West at (r+1,c-1), (r,c-1), (r-1,c-1). -/
theorem committed_window_in_scan_order (s : State) (sequence : List Char) (hw : WellFormed s) :
    (∃ r, moveForward s sequence = some r ∧
      (r.1.isShown = true → ∀ k, k < 3 →
        getCell r.2.map (scanCell r.2.dir r.2.rowPos r.2.colPos k).1
          (scanCell r.2.dir r.2.rowPos r.2.colPos k).2 = some (charAt sequence k))) ∧
    (∃ r, turnLeft s sequence = some r ∧
      (r.1.isShown = true → ∀ k, k < 3 →
        getCell r.2.map (scanCell r.2.dir r.2.rowPos r.2.colPos k).1
          (scanCell r.2.dir r.2.rowPos r.2.colPos k).2 = some (charAt sequence k))) ∧
    (∃ r, turnRight s sequence = some r ∧
      (r.1.isShown = true → ∀ k, k < 3 →
        getCell r.2.map (scanCell r.2.dir r.2.rowPos r.2.colPos k).1
          (scanCell r.2.dir r.2.rowPos r.2.colPos k).2 = some (charAt sequence k))) ∧
    (∀ r c : Int,
      scanCell NORTH r c 0 = (r - 1, c - 1) ∧ scanCell NORTH r c 1 = (r - 1, c) ∧
      scanCell NORTH r c 2 = (r - 1, c + 1) ∧
      scanCell SOUTH r c 0 = (r + 1, c + 1) ∧ scanCell SOUTH r c 1 = (r + 1, c) ∧
      scanCell SOUTH r c 2 = (r + 1, c - 1) ∧
      scanCell EAST r c 0 = (r - 1, c + 1) ∧ scanCell EAST r c 1 = (r, c + 1) ∧
      scanCell EAST r c 2 = (r + 1, c + 1) ∧
      scanCell WEST r c 0 = (r + 1, c - 1) ∧ scanCell WEST r c 1 = (r, c - 1) ∧
      scanCell WEST r c 2 = (r - 1, c - 1)) := by
  have hvd : validDir s.dir := hw.2.2.2.1
  refine ⟨?_, ?_, ?_, ?_⟩
  · obtain ⟨r, hr⟩ := moveForward_total hw sequence
    exact ⟨r, hr, fun hs => forward_window hw sequence hr hs⟩
  · obtain ⟨r, hr⟩ := turnTo_saved_total hw _ (validDir_turnedLeft hvd) sequence
    exact ⟨r, (turnLeft_eq hw sequence).trans hr,
      fun hs => (turn_window hw _ (validDir_turnedLeft hvd) sequence hr hs).2.2.2.2.2⟩
  · obtain ⟨r, hr⟩ := turnTo_saved_total hw _ (validDir_turnedRight hvd) sequence
    exact ⟨r, (turnRight_eq hw sequence).trans hr,
      fun hs => (turn_window hw _ (validDir_turnedRight hvd) sequence hr hs).2.2.2.2.2⟩
  · intro r c
    simp only [scanCell]
    norm_num
    refine ⟨?_, ?_, ?_, ?_⟩ <;> ring

/-- What a committed `turnRight` does, in a form that can be chained. -/
theorem turnRight_committed {s : State} (hw : WellFormed s) {sequence : List Char}
    {r : Outcome × State} (hr : turnRight s sequence = some r) (hs : r.1.isShown = true) :
    r.2.dir = turnedRight s.dir ∧ r.2.rowPos = s.rowPos ∧ r.2.colPos = s.colPos ∧
    r.2.last = s.last ∧ WellFormed r.2 := by
  have hvd : validDir s.dir := hw.2.2.2.1
  rw [turnRight_eq hw sequence] at hr
  obtain ⟨h1, h2, h3, h4, h5, _⟩ := turn_window hw _ (validDir_turnedRight hvd) sequence hr hs
  exact ⟨h1, h2, h3, h4, h5⟩

/-- What a committed `turnLeft` does, in a form that can be chained. -/
theorem turnLeft_committed {s : State} (hw : WellFormed s) {sequence : List Char}
    {r : Outcome × State} (hr : turnLeft s sequence = some r) (hs : r.1.isShown = true) :
    r.2.dir = turnedLeft s.dir ∧ r.2.rowPos = s.rowPos ∧ r.2.colPos = s.colPos ∧
    r.2.last = s.last ∧ WellFormed r.2 := by
  have hvd : validDir s.dir := hw.2.2.2.1
  rw [turnLeft_eq hw sequence] at hr
  obtain ⟨h1, h2, h3, h4, h5, _⟩ := turn_window hw _ (validDir_turnedLeft hvd) sequence hr hs
  exact ⟨h1, h2, h3, h4, h5⟩

theorem turnedLeft_turnedRight {d : Int} (hd : validDir d) : turnedLeft (turnedRight d) = d := by
  rcases hd with hd | hd | hd | hd <;> subst hd <;> decide

theorem turnedRight_turnedLeft {d : Int} (hd : validDir d) : turnedRight (turnedLeft d) = d := by
  rcases hd with hd | hd | hd | hd <;> subst hd <;> decide

theorem turnedRight_four {d : Int} (hd : validDir d) :
    turnedRight (turnedRight (turnedRight (turnedRight d))) = d := by
  rcases hd with hd | hd | hd | hd <;> subst hd <;> decide

/-- C6: from a well-formed state `turnRight` and `turnLeft` return; a committed
`turnRight` maps the facing North to East, East to South, South to West and
West to North, a committed `turnLeft` maps it by the inverse of that cycle, and
neither changes the actor's row, column or `last`.  Hence a committed
`turnLeft` after a committed `turnRight`, or the reverse, restores the facing,
and so do four committed `turnRight` calls. -/
theorem turn_facing_cycle (s : State) (sequence : List Char) (hw : WellFormed s) :
    (∃ r, turnRight s sequence = some r ∧
      (r.1.isShown = true →
        r.2.dir = turnedRight s.dir ∧ r.2.rowPos = s.rowPos ∧ r.2.colPos = s.colPos ∧
        r.2.last = s.last)) ∧
    (∃ r, turnLeft s sequence = some r ∧
      (r.1.isShown = true →
        r.2.dir = turnedLeft s.dir ∧ r.2.rowPos = s.rowPos ∧ r.2.colPos = s.colPos ∧
        r.2.last = s.last)) ∧
    (turnedRight NORTH = EAST ∧ turnedRight EAST = SOUTH ∧ turnedRight SOUTH = WEST ∧
      turnedRight WEST = NORTH) ∧
    (turnedLeft EAST = NORTH ∧ turnedLeft SOUTH = EAST ∧ turnedLeft WEST = SOUTH ∧
      turnedLeft NORTH = WEST) ∧
    (∀ b r1 r2, turnRight s sequence = some r1 → r1.1.isShown = true →
      turnLeft r1.2 b = some r2 → r2.1.isShown = true → r2.2.dir = s.dir) ∧
    (∀ b r1 r2, turnLeft s sequence = some r1 → r1.1.isShown = true →
      turnRight r1.2 b = some r2 → r2.1.isShown = true → r2.2.dir = s.dir) ∧
    (∀ b c d r1 r2 r3 r4, turnRight s sequence = some r1 → r1.1.isShown = true →
      turnRight r1.2 b = some r2 → r2.1.isShown = true →
      turnRight r2.2 c = some r3 → r3.1.isShown = true →
      turnRight r3.2 d = some r4 → r4.1.isShown = true → r4.2.dir = s.dir) := by
  have hvd : validDir s.dir := hw.2.2.2.1
  refine ⟨?_, ?_, by decide, by decide, ?_, ?_, ?_⟩
  · obtain ⟨r, hr⟩ := turnTo_saved_total hw _ (validDir_turnedRight hvd) sequence
    have hr' := (turnRight_eq hw sequence).trans hr
    refine ⟨r, hr', fun hs => ?_⟩
    obtain ⟨h1, h2, h3, h4, _⟩ := turnRight_committed hw hr' hs
    exact ⟨h1, h2, h3, h4⟩
  · obtain ⟨r, hr⟩ := turnTo_saved_total hw _ (validDir_turnedLeft hvd) sequence
    have hr' := (turnLeft_eq hw sequence).trans hr
    refine ⟨r, hr', fun hs => ?_⟩
    obtain ⟨h1, h2, h3, h4, _⟩ := turnLeft_committed hw hr' hs
    exact ⟨h1, h2, h3, h4⟩
  · intro b r1 r2 h1 s1 h2 s2
    obtain ⟨d1, _, _, _, w1⟩ := turnRight_committed hw h1 s1
    obtain ⟨d2, _⟩ := turnLeft_committed w1 h2 s2
    rw [d2, d1, turnedLeft_turnedRight hvd]
  · intro b r1 r2 h1 s1 h2 s2
    obtain ⟨d1, _, _, _, w1⟩ := turnLeft_committed hw h1 s1
    obtain ⟨d2, _⟩ := turnRight_committed w1 h2 s2
    rw [d2, d1, turnedRight_turnedLeft hvd]
  · intro b c d r1 r2 r3 r4 h1 s1 h2 s2 h3 s3 h4 s4
    obtain ⟨d1, _, _, _, w1⟩ := turnRight_committed hw h1 s1
    obtain ⟨d2, _, _, _, w2⟩ := turnRight_committed w1 h2 s2
    obtain ⟨d3, _, _, _, w3⟩ := turnRight_committed w2 h3 s3
    obtain ⟨d4, _⟩ := turnRight_committed w3 h4 s4
    rw [d4, d3, d2, d1, turnedRight_four hvd]

/-- Witness for C5: `westState` is well-formed, and there the forward move with
`...` is committed. -/
theorem committed_window_in_scan_order_witness :
    WellFormed westState ∧
    (moveForward westState "...".toList).map (fun r => r.1.isShown) = some true ∧
    ((∃ r, moveForward westState "...".toList = some r ∧
      (r.1.isShown = true → ∀ k, k < 3 →
        getCell r.2.map (scanCell r.2.dir r.2.rowPos r.2.colPos k).1
          (scanCell r.2.dir r.2.rowPos r.2.colPos k).2 = some (charAt "...".toList k))) ∧
    (∃ r, turnLeft westState "...".toList = some r ∧
      (r.1.isShown = true → ∀ k, k < 3 →
        getCell r.2.map (scanCell r.2.dir r.2.rowPos r.2.colPos k).1
          (scanCell r.2.dir r.2.rowPos r.2.colPos k).2 = some (charAt "...".toList k))) ∧
    (∃ r, turnRight westState "...".toList = some r ∧
      (r.1.isShown = true → ∀ k, k < 3 →
        getCell r.2.map (scanCell r.2.dir r.2.rowPos r.2.colPos k).1
          (scanCell r.2.dir r.2.rowPos r.2.colPos k).2 = some (charAt "...".toList k))) ∧
    (∀ r c : Int,
      scanCell NORTH r c 0 = (r - 1, c - 1) ∧ scanCell NORTH r c 1 = (r - 1, c) ∧
      scanCell NORTH r c 2 = (r - 1, c + 1) ∧
      scanCell SOUTH r c 0 = (r + 1, c + 1) ∧ scanCell SOUTH r c 1 = (r + 1, c) ∧
      scanCell SOUTH r c 2 = (r + 1, c - 1) ∧
      scanCell EAST r c 0 = (r - 1, c + 1) ∧ scanCell EAST r c 1 = (r, c + 1) ∧
      scanCell EAST r c 2 = (r + 1, c + 1) ∧
      scanCell WEST r c 0 = (r + 1, c - 1) ∧ scanCell WEST r c 1 = (r, c - 1) ∧
      scanCell WEST r c 2 = (r - 1, c - 1))) :=
  ⟨by decide, by decide,
    committed_window_in_scan_order westState "...".toList (by decide)⟩

/-- Witness for C6: `westState` is well-formed, and there both turns with `...`
are committed. -/
theorem turn_facing_cycle_witness :
    WellFormed westState ∧
    (turnRight westState "...".toList).map (fun r => r.1.isShown) = some true ∧
    (turnLeft westState "...".toList).map (fun r => r.1.isShown) = some true ∧
    ((∃ r, turnRight westState "...".toList = some r ∧
      (r.1.isShown = true →
        r.2.dir = turnedRight westState.dir ∧ r.2.rowPos = westState.rowPos ∧ r.2.colPos = westState.colPos ∧
        r.2.last = westState.last)) ∧
    (∃ r, turnLeft westState "...".toList = some r ∧
      (r.1.isShown = true →
        r.2.dir = turnedLeft westState.dir ∧ r.2.rowPos = westState.rowPos ∧ r.2.colPos = westState.colPos ∧
        r.2.last = westState.last)) ∧
    (turnedRight NORTH = EAST ∧ turnedRight EAST = SOUTH ∧ turnedRight SOUTH = WEST ∧
      turnedRight WEST = NORTH) ∧
    (turnedLeft EAST = NORTH ∧ turnedLeft SOUTH = EAST ∧ turnedLeft WEST = SOUTH ∧
      turnedLeft NORTH = WEST) ∧
    (∀ b r1 r2, turnRight westState "...".toList = some r1 → r1.1.isShown = true →
      turnLeft r1.2 b = some r2 → r2.1.isShown = true → r2.2.dir = westState.dir) ∧
    (∀ b r1 r2, turnLeft westState "...".toList = some r1 → r1.1.isShown = true →
      turnRight r1.2 b = some r2 → r2.1.isShown = true → r2.2.dir = westState.dir) ∧
    (∀ b c d r1 r2 r3 r4, turnRight westState "...".toList = some r1 → r1.1.isShown = true →
      turnRight r1.2 b = some r2 → r2.1.isShown = true →
      turnRight r2.2 c = some r3 → r3.1.isShown = true →
      turnRight r3.2 d = some r4 → r4.1.isShown = true → r4.2.dir = westState.dir)) :=
  ⟨by decide, by decide, by decide,
    turn_facing_cycle westState "...".toList (by decide)⟩

/-- The cell ahead of the actor of a well-formed state is inside the grid. -/
theorem getCell_ahead {s : State} (hw : WellFormed s) :
    getCell s.map (ahead s.dir s.rowPos s.colPos).1 (ahead s.dir s.rowPos s.colPos).2 =
      some (cellAt s.map (ahead s.dir s.rowPos s.colPos).1 (ahead s.dir s.rowPos s.colPos).2) := by
  have hg := hw.isGrid
  obtain ⟨_, _, _, hvd, hr1, hr2, hc1, hc2⟩ := hw
  rcases hvd with hd | hd | hd | hd <;>
    · simp only [ahead, hd]
      norm_num
      exact hg.get (by omega) (by omega) (by omega) (by omega)

/-- `validForward` on a well-formed state. -/
theorem validForward_spec {s : State} (hw : WellFormed s) :
    validForward s = some
      (if cellAt s.map (ahead s.dir s.rowPos s.colPos).1 (ahead s.dir s.rowPos s.colPos).2 = '#'
        then 0 else 1) := by
  have hget := getCell_ahead hw
  obtain ⟨_, _, _, hvd, hr1, hr2, hc1, hc2⟩ := hw
  rcases hvd with hd | hd | hd | hd <;>
    · simp only [ahead, hd] at hget ⊢
      norm_num at hget ⊢
      simp only [validForward, hd, hget, Option.bind_eq_bind, Option.some_bind, bind, pure,
        Option.map_some', south_ne_north, east_ne_north, east_ne_south, west_ne_north,
        west_ne_south, west_ne_east, Ne.symm south_ne_north, Ne.symm east_ne_north,
        Ne.symm east_ne_south, Ne.symm west_ne_north, Ne.symm west_ne_south,
        Ne.symm west_ne_east, if_true, if_false]

/-- The outcome of `moveForward` is never the blocked diagnostic. -/
theorem moveForward_not_blocked {s : State} (hw : WellFormed s) (sequence : List Char)
    {r : Outcome × State} (hr : moveForward s sequence = some r) : r.1 ≠ Outcome.blocked := by
  rcases forward_cases hw sequence hr with ⟨_, m', text, F', hreq, _⟩ | ⟨_, hreq, _⟩ <;>
    · subst hreq; simp

/-- C7: from a well-formed state `validForward` returns 0 exactly when the cell
one step ahead of the actor (North (-1,0), South (+1,0), East (0,+1), West
(0,-1)) holds `#`, and 1 otherwise; the `forward` command, given a sequence
that passed `isValidSequence`, is reported as blocked exactly in that case,
and a blocked command leaves the whole state, so the grid, the position, the
facing and `last`, unchanged. -/
theorem forward_blocked_iff_wall_ahead (s : State) (sequence : List Char) (hw : WellFormed s)
    (hv : isValidSequence sequence ≠ 0) :
    (∃ v, validForward s = some v ∧ (v = 0 ∨ v = 1) ∧
      (v = 0 ↔ getCell s.map (ahead s.dir s.rowPos s.colPos).1
        (ahead s.dir s.rowPos s.colPos).2 = some '#')) ∧
    (∃ r, step s "forward".toList sequence = some r ∧
      (r.1 = Outcome.blocked ↔ getCell s.map (ahead s.dir s.rowPos s.colPos).1
        (ahead s.dir s.rowPos s.colPos).2 = some '#') ∧
      (r.1 = Outcome.blocked → r.2 = s)) ∧
    (∀ r c : Int, ahead NORTH r c = (r - 1, c) ∧ ahead SOUTH r c = (r + 1, c) ∧
      ahead EAST r c = (r, c + 1) ∧ ahead WEST r c = (r, c - 1)) := by
  have hvf := validForward_spec hw
  have hget := getCell_ahead hw
  have hstep : step s "forward".toList sequence = forward s sequence := by
    have h7 : ("forward".toList).take 7 = "forward".toList := by decide
    simp only [step, h7, if_true, hv, ne_eq, not_false_eq_true]
  refine ⟨?_, ?_, ?_⟩
  · refine ⟨_, hvf, ?_, ?_⟩
    · split_ifs <;> simp
    · rw [hget]
      split_ifs with h <;> simp [h]
  · rw [hstep, hget]
    by_cases hwall : cellAt s.map (ahead s.dir s.rowPos s.colPos).1
        (ahead s.dir s.rowPos s.colPos).2 = '#'
    · refine ⟨(Outcome.blocked, s), ?_, ?_, ?_⟩
      · simp [forward, hvf, hwall]
      · simp [hwall]
      · intro _; rfl
    · obtain ⟨r, hr⟩ := moveForward_total hw sequence
      refine ⟨r, ?_, ?_, ?_⟩
      · simp [forward, hvf, hwall, hr]
      · have := moveForward_not_blocked hw sequence hr
        simp [hwall, this]
      · intro hb
        exact absurd hb (moveForward_not_blocked hw sequence hr)
  · intro r c
    simp only [ahead]
    norm_num

/-- Witness for C7: `westState` is well-formed and `...` passes
`isValidSequence`; the cell ahead holds `.` and the command is not blocked. -/
theorem forward_blocked_iff_wall_ahead_witness :
    WellFormed westState ∧
    isValidSequence "...".toList ≠ 0 ∧
    (step westState "forward".toList "...".toList).map (fun r => r.1.isShown) = some true ∧
    ((∃ v, validForward westState = some v ∧ (v = 0 ∨ v = 1) ∧
      (v = 0 ↔ getCell westState.map (ahead westState.dir westState.rowPos westState.colPos).1
        (ahead westState.dir westState.rowPos westState.colPos).2 = some '#')) ∧
    (∃ r, step westState "forward".toList "...".toList = some r ∧
      (r.1 = Outcome.blocked ↔ getCell westState.map (ahead westState.dir westState.rowPos westState.colPos).1
        (ahead westState.dir westState.rowPos westState.colPos).2 = some '#') ∧
      (r.1 = Outcome.blocked → r.2 = westState)) ∧
    (∀ r c : Int, ahead NORTH r c = (r - 1, c) ∧ ahead SOUTH r c = (r + 1, c) ∧
      ahead EAST r c = (r, c + 1) ∧ ahead WEST r c = (r, c - 1))) :=
  ⟨by decide, by decide, by decide,
    forward_blocked_iff_wall_ahead westState "...".toList (by decide) (by decide)⟩

theorem getCell_outside {m : Grid} {h w : Int} {F : Int → Int → Char} (hm : IsGrid m h w F)
    {i j : Int} (hout : i < 0 ∨ h ≤ i ∨ j < 0 ∨ w ≤ j) : getCell m i j = none := by
  unfold getCell
  by_cases h0 : 0 ≤ i ∧ 0 ≤ j
  · rw [if_pos h0]
    by_cases hi : i < h
    · have hin : i.toNat < m.length := by have := hm.1; omega
      have hr : m[i.toNat]? = some m[i.toNat] := List.getElem?_eq_getElem hin
      have hrl : ((m[i.toNat]).length : Int) = w := hm.2.1 _ (List.getElem_mem _)
      have hj : (m[i.toNat]).length ≤ j.toNat := by omega
      simp only [hr]
      exact List.getElem?_eq_none hj
    · have hin : m.length ≤ i.toNat := by have := hm.1; omega
      rw [List.getElem?_eq_none hin]
  · rw [if_neg h0]

/-- A successful read is inside the grid. -/
theorem getCell_some_bounds {m : Grid} {h w : Int} {F : Int → Int → Char} (hm : IsGrid m h w F)
    {i j : Int} {ch : Char} (hget : getCell m i j = some ch) :
    0 ≤ i ∧ i < h ∧ 0 ≤ j ∧ j < w := by
  by_contra hc
  have hout : i < 0 ∨ h ≤ i ∨ j < 0 ∨ w ≤ j := by omega
  rw [getCell_outside hm hout] at hget
  exact absurd hget (by simp)

/-- C9: on a rectangular grid of height `h` (at least 1, row 0 being read) and
width `w`, with `extraRows, extraCols ≥ 0` and shift flags in {0, 1} not above
them, `expandMap` returns a rectangular grid of height `h + extraRows` and
width `w + extraCols` and sets `*rows` to `h + extraRows`; the cell
`(i + shiftRows, j + shiftCols)` of the result is the old cell `(i, j)`, and
every other cell of the result is a space. -/
theorem expandMap_shifts_and_blanks (map : Grid) (h w extraRows extraCols shiftRows shiftCols : Int)
    (hrect : Rectangular map) (hh : height map = h) (hwd : width map = w) (h1 : 1 ≤ h)
    (her : 0 ≤ extraRows) (hec : 0 ≤ extraCols)
    (hsr : shiftRows = 0 ∨ shiftRows = 1) (hsc : shiftCols = 0 ∨ shiftCols = 1)
    (hsr' : shiftRows ≤ extraRows) (hsc' : shiftCols ≤ extraCols) :
    ∃ m', expandMap map h extraRows extraCols shiftRows shiftCols = some (m', h + extraRows) ∧
      Rectangular m' ∧ height m' = h + extraRows ∧ width m' = w + extraCols ∧
      (∀ i j, 0 ≤ i → i < h → 0 ≤ j → j < w →
        getCell m' (i + shiftRows) (j + shiftCols) = getCell map i j) ∧
      (∀ a b, 0 ≤ a → a < h + extraRows → 0 ≤ b → b < w + extraCols →
        ¬ (shiftRows ≤ a ∧ a - shiftRows < h ∧ shiftCols ≤ b ∧ b - shiftCols < w) →
        getCell m' a b = some ' ') := by
  have hg : IsGrid map h w (cellAt map) :=
    isGrid_cellAt hh (fun row hrow => (hrect row hrow).trans hwd)
  obtain ⟨m', hm', hG⟩ := expandMap_spec hg h1 extraRows extraCols shiftRows shiftCols her hec
    (by intro _; omega) (by intro _; omega)
  obtain ⟨hrect', hh', hw'⟩ := hG.rect (by omega)
  have e1 : (if shiftRows = 1 then (1 : Int) else 0) = shiftRows := by
    rcases hsr with h | h <;> simp [h]
  have e2 : (if shiftCols = 1 then (1 : Int) else 0) = shiftCols := by
    rcases hsc with h | h <;> simp [h]
  simp only [e1, e2] at hG
  refine ⟨m', hm', hrect', hh', hw', ?_, ?_⟩
  · intro i j hi0 hi hj0 hj
    rw [hG.get (by omega) (by omega) (by omega) (by omega), hg.get hi0 hi hj0 hj]
    have hc : shiftRows ≤ i + shiftRows ∧ i + shiftRows - shiftRows < h ∧
        shiftCols ≤ j + shiftCols ∧ j + shiftCols - shiftCols < w := by omega
    rw [if_pos hc]
    simp only [add_sub_cancel_right]
  · intro a b ha0 ha hb0 hb hnot
    rw [hG.get ha0 ha hb0 hb]
    simp only [hnot, if_false]

/-- Witness for C9: the 2 by 2 grid `ab`, `cd` grown by one row and one column
with both shifts. -/
theorem expandMap_shifts_and_blanks_witness :
    expandMap ["ab".toList, "cd".toList] 2 1 1 1 1 =
      some (["   ".toList, " ab".toList, " cd".toList], 3) ∧
    ∃ m', expandMap ["ab".toList, "cd".toList] 2 1 1 1 1 = some (m', 2 + 1) ∧
      Rectangular m' ∧ height m' = 2 + 1 ∧ width m' = 2 + 1 ∧
      (∀ i j, 0 ≤ i → i < 2 → 0 ≤ j → j < 2 →
        getCell m' (i + 1) (j + 1) = getCell ["ab".toList, "cd".toList] i j) ∧
      (∀ a b, 0 ≤ a → a < 2 + 1 → 0 ≤ b → b < 2 + 1 →
        ¬ (1 ≤ a ∧ a - 1 < 2 ∧ 1 ≤ b ∧ b - 1 < 2) →
        getCell m' a b = some ' ') :=
  ⟨by decide,
    expandMap_shifts_and_blanks ["ab".toList, "cd".toList] 2 2 1 1 1 1 (by decide) (by decide)
      (by decide) (by decide) (by decide) (by decide) (by decide) (by decide) (by decide)
      (by decide)⟩

theorem scanCell_shift (d r c x y : Int) (k : Nat) :
    scanCell d (r + x) (c + y) k = ((scanCell d r c k).1 + x, (scanCell d r c k).2 + y) := by
  simp only [scanCell]
  split_ifs <;> simp only [Prod.mk.injEq] <;> constructor <;> ring

theorem vacated_not_in_window {d : Int} (hd : validDir d) (r c x y : Int) (k : Nat) :
    (r + x, c + y) ≠ scanCell d ((ahead d r c).1 + x) ((ahead d r c).2 + y) k := by
  rcases hd with hd | hd | hd | hd <;> subst hd <;> simp [scanCell, ahead] <;> omega

theorem vacated_ne_newpos {d : Int} (hd : validDir d) (r c x y : Int) :
    (r + x, c + y) ≠ ((ahead d r c).1 + x, (ahead d r c).2 + y) := by
  rcases hd with hd | hd | hd | hd <;> subst hd <;> simp [ahead] <;> omega

theorem shift_bounds (s : State) :
    0 ≤ shiftRow s ∧ shiftRow s ≤ growRows s ∧ growRows s ≤ 1 ∧
    0 ≤ shiftCol s ∧ shiftCol s ≤ growCols s ∧ growCols s ≤ 1 := by
  simp only [shiftRow, shiftCol, growRows, growCols]
  split_ifs <;> simp_all

/-- The vacated cell of a committed forward move holds the old `last`. -/
theorem forward_vacated {s : State} (hw : WellFormed s) {m' : Grid} {F' : Int → Int → Char}
    (hF' : IsGrid m' (s.rows + growRows s) (s.cols + growCols s) F')
    (hframe : ∀ a b, (a, b) ≠ ((ahead s.dir s.rowPos s.colPos).1 + shiftRow s,
        (ahead s.dir s.rowPos s.colPos).2 + shiftCol s) →
      (∀ k, k < 3 → (a, b) ≠ scanCell s.dir ((ahead s.dir s.rowPos s.colPos).1 + shiftRow s)
        ((ahead s.dir s.rowPos s.colPos).2 + shiftCol s) k) →
      F' a b = midCell s a b) :
    getCell m' (s.rowPos + shiftRow s) (s.colPos + shiftCol s) = some s.last := by
  have hvd : validDir s.dir := hw.2.2.2.1
  obtain ⟨_, _, _, _, hr1, hr2, hc1, hc2⟩ := hw
  obtain ⟨b1, b2, b3, b4, b5, b6⟩ := shift_bounds s
  rw [hF'.get (by omega) (by omega) (by omega) (by omega),
    hframe _ _ (vacated_ne_newpos hvd _ _ _ _) (fun k _ => vacated_not_in_window hvd _ _ _ _ k)]
  have hc : shiftRow s ≤ s.rowPos + shiftRow s ∧ s.rowPos + shiftRow s - shiftRow s < s.rows ∧
      shiftCol s ≤ s.colPos + shiftCol s ∧ s.colPos + shiftCol s - shiftCol s < s.cols := by omega
  simp only [midCell]
  rw [if_pos hc, if_pos ⟨by omega, by omega⟩]

/-- C10: from a well-formed state `moveForward` returns, and when the move is
committed the actor is one step ahead of its old cell in the facing direction,
moved by the shift of the expansion (one row down after a North expansion, one
column right after a West expansion), the facing is unchanged, the vacated cell
holds the value `last` had before the move, and the new `last` is the content
the destination cell held before the move. -/
theorem forward_moves_one_step (s : State) (sequence : List Char) (hw : WellFormed s) :
    ∃ r, moveForward s sequence = some r ∧
      (r.1.isShown = true →
        r.2.rowPos = (ahead s.dir s.rowPos s.colPos).1 + shiftRow s ∧
        r.2.colPos = (ahead s.dir s.rowPos s.colPos).2 + shiftCol s ∧
        r.2.dir = s.dir ∧
        getCell r.2.map (s.rowPos + shiftRow s) (s.colPos + shiftCol s) = some s.last ∧
        getCell s.map (ahead s.dir s.rowPos s.colPos).1 (ahead s.dir s.rowPos s.colPos).2 =
          some r.2.last) := by
  obtain ⟨r, hr⟩ := moveForward_total hw sequence
  refine ⟨r, hr, ?_⟩
  intro hs
  rcases forward_cases hw sequence hr with ⟨_, m', text, F', hreq, hF', _, _, hframe⟩ | ⟨_, hreq, _⟩
  · subst hreq
    refine ⟨rfl, rfl, rfl, ?_, ?_⟩
    · exact forward_vacated hw hF' hframe
    · exact getCell_ahead hw
  · subst hreq; simp [Outcome.isShown] at hs

/-- C8: from a well-formed state `moveForward` returns, and when the move is
committed: the height grows by `growRows` and the width by `growCols`, that is
the height by exactly 1 when a North move lands on row 0 or a South move on the
last row, the width by exactly 1 when an East move lands on the last column or
a West move on column 0, and nothing else changes (never both at once); `rows`
and `cols` follow, and the grid stays rectangular.  Every cell whose content
before the move was revealed (not a space) holds the same content afterwards at
its coordinates moved by the shift (one row down after a North expansion, one
column right after a West expansion), the actor's own cell being read through
`last` before and after. -/
theorem forward_growth_preserves_content (s : State) (sequence : List Char)
    (hw : WellFormed s) :
    ∃ r, moveForward s sequence = some r ∧
      (r.1.isShown = true →
        height r.2.map = height s.map + growRows s ∧
        width r.2.map = width s.map + growCols s ∧
        r.2.rows = s.rows + growRows s ∧ r.2.cols = s.cols + growCols s ∧
        Rectangular r.2.map ∧
        (growRows s = 0 ∨ growRows s = 1) ∧ (growCols s = 0 ∨ growCols s = 1) ∧
        (growRows s = 0 ∨ growCols s = 0) ∧
        (∀ i j ch, content s i j = some ch → ch ≠ ' ' →
          content r.2 (i + shiftRow s) (j + shiftCol s) = some ch)) := by
  obtain ⟨r, hr⟩ := moveForward_total hw sequence
  refine ⟨r, hr, ?_⟩
  intro hs
  have hg := hw.isGrid
  have hvd : validDir s.dir := hw.2.2.2.1
  obtain ⟨_, hrows, hcols, _, hr1, hr2, hc1, hc2⟩ := id hw
  obtain ⟨b1, b2, b3, b4, b5, b6⟩ := shift_bounds s
  obtain ⟨n1, n2, n3, n4⟩ := forward_newpos_bounds hw
  rcases forward_cases hw sequence hr with
    ⟨hok, m', text, F', hreq, hF', _, hwin, hframe⟩ | ⟨_, hreq, _⟩
  swap
  · subst hreq; simp [Outcome.isShown] at hs
  subst hreq
  obtain ⟨hrect', hh', hw'⟩ := hF'.rect (by omega)
  refine ⟨by rw [← hrows]; exact hh', by rw [← hcols]; exact hw', rfl, rfl, hrect', ?_, ?_, ?_, ?_⟩
  · simp only [growRows]; split_ifs <;> simp
  · simp only [growCols]; split_ifs <;> simp
  · rcases hvd with hd | hd | hd | hd <;> simp [growRows, growCols, hd]
  intro i j ch hcont hne
  simp only [content, saved] at hcont ⊢
  by_cases hact : i = s.rowPos ∧ j = s.colPos
  · -- the actor's old cell
    obtain ⟨rfl, rfl⟩ := hact
    simp only [and_self, if_true, Option.some.injEq] at hcont
    have hnp := vacated_ne_newpos hvd s.rowPos s.colPos (shiftRow s) (shiftCol s)
    have hnp' : ¬ (s.rowPos + shiftRow s = (ahead s.dir s.rowPos s.colPos).1 + shiftRow s ∧
        s.colPos + shiftCol s = (ahead s.dir s.rowPos s.colPos).2 + shiftCol s) := by
      intro hc; exact hnp (Prod.ext hc.1 hc.2)
    rw [if_neg hnp', forward_vacated hw hF' hframe, hcont]
  · rw [if_neg hact] at hcont
    obtain ⟨i0, i1, j0, j1⟩ := getCell_some_bounds hg hcont
    have hch : ch = cellAt s.map i j := by
      have := hg.get i0 i1 j0 j1
      rw [hcont] at this
      exact Option.some.inj this
    by_cases hnew : i + shiftRow s = (ahead s.dir s.rowPos s.colPos).1 + shiftRow s ∧
        j + shiftCol s = (ahead s.dir s.rowPos s.colPos).2 + shiftCol s
    · -- the destination cell, read through the new last
      rw [if_pos hnew]
      have hi : i = (ahead s.dir s.rowPos s.colPos).1 := by omega
      have hj : j = (ahead s.dir s.rowPos s.colPos).2 := by omega
      rw [hch, hi, hj]
    · rw [if_neg hnew]
      rw [hF'.get (by omega) (by omega) (by omega) (by omega)]
      by_cases hk : ∃ k, k < 3 ∧ (i + shiftRow s, j + shiftCol s) =
          scanCell s.dir ((ahead s.dir s.rowPos s.colPos).1 + shiftRow s)
            ((ahead s.dir s.rowPos s.colPos).2 + shiftCol s) k
      · -- a target cell: the reveal confirmed its content
        obtain ⟨k, hk3, hkeq⟩ := hk
        have h1 := hwin k hk3
        simp only [saved] at h1
        rw [← hkeq] at h1
        simp only at h1
        rw [h1]
        rw [scanCell_shift] at hkeq
        have hi : i = (scanCell s.dir (ahead s.dir s.rowPos s.colPos).1
            (ahead s.dir s.rowPos s.colPos).2 k).1 := by
          have := congrArg Prod.fst hkeq; simp only at this; omega
        have hj : j = (scanCell s.dir (ahead s.dir s.rowPos s.colPos).1
            (ahead s.dir s.rowPos s.colPos).2 k).2 := by
          have := congrArg Prod.snd hkeq; simp only at this; omega
        rcases hok k hk3 with hblank | hsame
        · rw [← hi, ← hj, ← hch] at hblank
          exact absurd hblank hne
        · rw [← hi, ← hj, ← hch] at hsame
          rw [hsame]
      · -- any other cell: untouched
        have hk' : ∀ k, k < 3 → (i + shiftRow s, j + shiftCol s) ≠
            scanCell s.dir ((ahead s.dir s.rowPos s.colPos).1 + shiftRow s)
              ((ahead s.dir s.rowPos s.colPos).2 + shiftCol s) k := by
          intro k hk3 heq
          exact hk ⟨k, hk3, heq⟩
        have hnew' : (i + shiftRow s, j + shiftCol s) ≠
            ((ahead s.dir s.rowPos s.colPos).1 + shiftRow s,
              (ahead s.dir s.rowPos s.colPos).2 + shiftCol s) := by
          intro heq
          exact hnew ⟨congrArg Prod.fst heq, congrArg Prod.snd heq⟩
        rw [hframe _ _ hnew' hk']
        have hc : shiftRow s ≤ i + shiftRow s ∧ i + shiftRow s - shiftRow s < s.rows ∧
            shiftCol s ≤ j + shiftCol s ∧ j + shiftCol s - shiftCol s < s.cols := by omega
        simp only [midCell]
        rw [if_pos hc]
        simp only [add_sub_cancel_right]
        rw [if_neg hact, hch]

/-- Witness for C10: `startState` is well-formed, and there the forward move with
`abc` is committed and expands the grid to the North. -/
theorem forward_moves_one_step_witness :
    WellFormed startState ∧
    (moveForward startState "abc".toList).map (fun r => r.1.isShown) = some true ∧
    (∃ r, moveForward startState "abc".toList = some r ∧
      (r.1.isShown = true →
        r.2.rowPos = (ahead startState.dir startState.rowPos startState.colPos).1 + shiftRow startState ∧
        r.2.colPos = (ahead startState.dir startState.rowPos startState.colPos).2 + shiftCol startState ∧
        r.2.dir = startState.dir ∧
        getCell r.2.map (startState.rowPos + shiftRow startState) (startState.colPos + shiftCol startState) = some startState.last ∧
        getCell startState.map (ahead startState.dir startState.rowPos startState.colPos).1 (ahead startState.dir startState.rowPos startState.colPos).2 =
          some r.2.last)) :=
  ⟨by decide, by decide,
    forward_moves_one_step startState "abc".toList (by decide)⟩

/-- Witness for C8: `startState` is well-formed, and there the forward move with
`abc` is committed and expands the grid to the North. -/
theorem forward_growth_preserves_content_witness :
    WellFormed startState ∧
    (moveForward startState "abc".toList).map (fun r => r.1.isShown) = some true ∧
    (∃ r, moveForward startState "abc".toList = some r ∧
      (r.1.isShown = true →
        height r.2.map = height startState.map + growRows startState ∧
        width r.2.map = width startState.map + growCols startState ∧
        r.2.rows = startState.rows + growRows startState ∧ r.2.cols = startState.cols + growCols startState ∧
        Rectangular r.2.map ∧
        (growRows startState = 0 ∨ growRows startState = 1) ∧ (growCols startState = 0 ∨ growCols startState = 1) ∧
        (growRows startState = 0 ∨ growCols startState = 0) ∧
        (∀ i j ch, content startState i j = some ch → ch ≠ ' ' →
          content r.2 (i + shiftRow startState) (j + shiftCol startState) = some ch))) :=
  ⟨by decide, by decide,
    forward_growth_preserves_content startState "abc".toList (by decide)⟩

/-! ## Claims C11 to C20 -/

/-- A sequence the specification admits passes `isValidSequence`. -/
theorem isValidSequence_of_valid {t : List Char} (hv : ValidSequence t) :
    isValidSequence t = 1 := by
  obtain ⟨hlen, hall⟩ := hv
  match t, hlen, hall with
  | [a, b, c], _, hall =>
    have ha := hall a (by simp)
    have hb := hall b (by simp)
    have hc := hall c (by simp)
    simp only [isValidSequence, loopUp, charAt, List.getD_cons_zero, List.getD_cons_succ,
      Option.some_bind, ge_iff_le]
    rcases ha with rfl | rfl | ha <;> rcases hb with rfl | rfl | hb <;>
      rcases hc with rfl | rfl | hc <;> simp [*]

/-- The characters of a sequence the specification admits. -/
theorem ValidSequence.chars {t : List Char} (hv : ValidSequence t) :
    t = [charAt t 0, charAt t 1, charAt t 2] := by
  obtain ⟨hlen, _⟩ := hv
  match t, hlen with
  | [a, b, c], _ => simp [charAt]

/-- C11 (the code at the failing input): the sequence `!!a` has three
characters, two of which are none of `.`, `#` or a lowercase letter, yet
`isValidSequence` returns 1 for it, and start-up then writes it into row 0 of
the grid. -/
theorem isValidSequence_accepts_invalid :
    ("!!a".toList).length = 3 ∧ ¬ ValidSequence "!!a".toList ∧
    isValidSequence "!!a".toList = 1 ∧
    (start "!!a".toList).map (fun r => r.2.map) =
      some ["!!a".toList, " ^ ".toList, "   ".toList] := by
  decide

/-- Storing the element a list already holds at an index leaves the list as it
is. -/
theorem list_set_self {α : Type} : ∀ (l : List α) (i : Nat) (a : α),
    l[i]? = some a → l.set i a = l
  | [], _, _, h => by simp at h
  | x :: xs, 0, a, h => by
    simp only [List.getElem?_cons_zero, Option.some.injEq] at h
    simp [h]
  | x :: xs, i + 1, a, h => by
    simp only [List.getElem?_cons_succ] at h
    simp [list_set_self xs i a h]

/-- Writing the character a cell already holds leaves the grid as it is. -/
theorem setCell_same {m : Grid} {i j : Int} {c : Char} (h : getCell m i j = some c) :
    setCell m i j c = some m := by
  unfold getCell at h
  unfold setCell
  by_cases h0 : 0 ≤ i ∧ 0 ≤ j
  · rw [if_pos h0] at h ⊢
    cases hrow : m[i.toNat]? with
    | none => rw [hrow] at h; simp at h
    | some row =>
      rw [hrow] at h
      simp only at h ⊢
      have hj : j.toNat < row.length := (List.getElem?_eq_some.mp h).1
      rw [if_pos hj, list_set_self row j.toNat c h, list_set_self m i.toNat row hrow]
  · rw [if_neg h0] at h; simp at h

/-- The reveal loop on cells that already hold the sequence runs to its end and
leaves the grid as it is. -/
theorem revealLoop_same (pos : Nat → Int × Int) (sequence : List Char) :
    ∀ (n i : Nat) (m : Grid),
      (∀ k, i ≤ k → k < i + n → getCell m (pos k).1 (pos k).2 = some (charAt sequence k)) →
      revealLoop pos sequence n i m = some (true, m) := by
  intro n
  induction n with
  | zero => intro i m _; rfl
  | succ n ih =>
    intro i m hall
    have h0 := hall i (le_refl _) (by omega)
    simp only [revealLoop, h0, or_true, if_true, setCell_same h0, Option.some_bind]
    exact ih (i + 1) m (fun k h1 h2 => hall k (by omega) (by omega))

/-- C12: on a rectangular grid, for an actor position at least one cell inside
every edge, a facing and any sequence, the three-cell reveal of the sequence
for that position and facing returns, and when it succeeds (runs to its end),
the same reveal applied again to the resulting grid from the same position and
facing succeeds too and returns that grid unchanged. -/
theorem reveal_idempotent (map : Grid) (r c d : Int) (sequence : List Char)
    (hrect : Rectangular map) (hd : validDir d)
    (hr1 : 1 ≤ r) (hr2 : r ≤ height map - 2) (hc1 : 1 ≤ c) (hc2 : c ≤ width map - 2) :
    ∃ res, revealLoop (scanCell d r c) sequence 3 0 map = some res ∧
      (res.1 = true →
        revealLoop (scanCell d r c) sequence 3 0 res.2 = some (true, res.2)) := by
  have hg : IsGrid map (height map) (width map) (cellAt map) := isGrid_cellAt rfl hrect
  obtain ⟨res, hres, _, hgrid⟩ := revealLoop_spec (scanCell d r c) sequence 3 0 map _ hg
    (fun k _ hk => scanCell_inBounds hd hr1 hr2 hc1 hc2 k (by omega))
    (fun k l _ _ _ _ h => scanCell_inj hd k l h)
  refine ⟨res, hres, ?_⟩
  intro htrue
  obtain ⟨F', hF', hset, _⟩ := hgrid htrue
  apply revealLoop_same
  intro k _ hk
  obtain ⟨h1, h2, h3, h4⟩ := scanCell_inBounds hd hr1 hr2 hc1 hc2 k (by omega : k < 3)
  rw [hF'.get h1 h2 h3 h4, hset k (Nat.zero_le _) hk]

/-- Witness for C12: on the grid of `westState` the reveal of `ab.` to the West
of the cell (1, 1) succeeds. -/
theorem reveal_idempotent_witness :
    (revealLoop (scanCell WEST 1 1) "ab.".toList 3 0 westState.map).map Prod.fst = some true ∧
    ∃ res, revealLoop (scanCell WEST 1 1) "ab.".toList 3 0 westState.map = some res ∧
      (res.1 = true →
        revealLoop (scanCell WEST 1 1) "ab.".toList 3 0 res.2 = some (true, res.2)) :=
  ⟨by decide,
    reveal_idempotent westState.map 1 1 WEST "ab.".toList (by decide) (by decide) (by decide)
      (by decide) (by decide) (by decide)⟩

/-- Start-up with a sequence the specification admits shows the map and leaves
the program in `startStateOf` of that sequence. -/
theorem start_valid {t : List Char} (hv : ValidSequence t) :
    ∃ text, start t = some (Outcome.shown text, startStateOf t) := by
  have hval := isValidSequence_of_valid hv
  obtain ⟨hlen, _⟩ := hv
  match t, hlen with
  | [a, b, c], _ =>
    have h3 : INITIAL_MAP_SIZE.toNat = 3 := rfl
    have h3' : INITIAL_MAP_SIZE = 3 := rfl
    simp [start, hval, h3, h3', List.replicate, initialState, initMap, loopUp, setCell, charAt, copyMap, copyRows,
      display, showMap, showMapGlyph, borderLine, printRow, startStateOf]

theorem wellFormed_startStateOf {t : List Char} (hv : ValidSequence t) :
    WellFormed (startStateOf t) := by
  obtain ⟨hlen, _⟩ := hv
  match t, hlen with
  | [a, b, c], _ =>
    simp [WellFormed, startStateOf, Rectangular, height, width, validDir]

/-- The start-up state as the value of `start`. -/
theorem start_snd {t : List Char} (hv : ValidSequence t) :
    (start t).map Prod.snd = some (startStateOf t) := by
  obtain ⟨text, h⟩ := start_valid hv
  rw [h]; rfl

/-- C13 (counterexample): after start-up with `...` the two outer cells of row
1, the actor's row, hold the unseen character and not a dot; the dots are in
row 0. -/
theorem start_row_one_unseen :
    (start "...".toList).map (fun r => (getCell r.2.map 1 0, getCell r.2.map 1 2)) =
      some (some ' ', some ' ') ∧
    (start "...".toList).map (fun r => r.2.map[0]?) = some (some "...".toList) ∧
    ¬ ((start "...".toList).map (fun r => r.2.map[1]?) = some (some ".^.".toList)) := by
  decide

/-- C13 (amended): start-up with `...` prints the framed map and yields a grid
of 3 rows and 3 columns with the actor at (1, 1) facing North and shown as `^`;
row 0 holds the three dots, and row 1 holds the glyph between two unseen cells,
row 2 three unseen cells. -/
theorem start_dots_layout :
    (start "...".toList).map Prod.fst =
      some (Outcome.shown "+---+\n|...|\n| ^ |\n|   |\n+---+\n".toList) ∧
    (start "...".toList).map (fun r => r.2.map) =
      some ["...".toList, " ^ ".toList, "   ".toList] ∧
    (start "...".toList).map (fun r => (height r.2.map, width r.2.map)) = some (3, 3) ∧
    (start "...".toList).map (fun r => (r.2.rows, r.2.cols)) = some (3, 3) ∧
    (start "...".toList).map (fun r => (r.2.rowPos, r.2.colPos)) = some (1, 1) ∧
    (start "...".toList).map (fun r => r.2.dir) = some NORTH ∧
    (start "...".toList).map (fun r => getCell r.2.map 1 1) = some (some '^') := by
  decide

/-- The `forward` command on a sequence that passes `isValidSequence`. -/
theorem step_forward_eq (s : State) {sequence : List Char} (hv : isValidSequence sequence ≠ 0) :
    step s "forward".toList sequence = forward s sequence := by
  have h7 : ("forward".toList).take 7 = "forward".toList := by decide
  simp only [step, h7, if_true, hv, ne_eq, not_false_eq_true]

/-- C14: after start-up with a valid sequence `t` whose middle character is not
`#`, the command `forward` with a valid sequence is committed; the grid then
has 4 rows and 3 columns, the actor is at (1, 1) facing North, row 0 holds the
three characters of the new sequence, and the characters of `t`, which were in
row 0, are in row 1: its outer cells hold the first and third, and the middle
one, under the glyph, is in `last`. -/
theorem forward_after_start (t sequence : List Char) (ht : ValidSequence t)
    (hs : ValidSequence sequence) (hmid : charAt t 1 ≠ '#') :
    ∃ s0 r, (start t).map Prod.snd = some s0 ∧
      (∀ k : Nat, k < 3 → getCell s0.map 0 k = some (charAt t k)) ∧
      step s0 "forward".toList sequence = some r ∧ r.1.isShown = true ∧
      height r.2.map = 4 ∧ width r.2.map = 3 ∧ r.2.rows = 4 ∧ r.2.cols = 3 ∧
      r.2.rowPos = 1 ∧ r.2.colPos = 1 ∧ r.2.dir = NORTH ∧
      (∀ k : Nat, k < 3 → getCell r.2.map 0 k = some (charAt sequence k)) ∧
      getCell r.2.map 1 0 = some (charAt t 0) ∧ getCell r.2.map 1 1 = some '^' ∧
      r.2.last = charAt t 1 ∧ getCell r.2.map 1 2 = some (charAt t 2) ∧
      (∀ k : Nat, k < 3 → content r.2 1 k = some (charAt t k)) := by
  have hw := wellFormed_startStateOf ht
  have hvs : isValidSequence sequence ≠ 0 := by rw [isValidSequence_of_valid hs]; decide
  have htl := ht.chars
  have hrow0 : ∀ k : Nat, k < 3 → getCell (startStateOf t).map 0 k = some (charAt t k) := by
    intro k hk
    rw [htl]
    interval_cases k <;> simp [startStateOf, getCell, charAt]
  have hahead : cellAt (startStateOf t).map
      (ahead (startStateOf t).dir (startStateOf t).rowPos (startStateOf t).colPos).1
      (ahead (startStateOf t).dir (startStateOf t).rowPos (startStateOf t).colPos).2 =
      charAt t 1 := by
    have := hrow0 1 (by omega)
    simp only [cellAt, ahead, startStateOf, if_true] at this ⊢
    norm_num at this ⊢
    rw [this]; rfl
  have hvf := validForward_spec hw
  rw [hahead, if_neg hmid] at hvf
  obtain ⟨r, hr⟩ := moveForward_total hw sequence
  have hstep : step (startStateOf t) "forward".toList sequence = some r := by
    rw [step_forward_eq _ hvs]
    simp [forward, hvf, hr]
  have hgr : growRows (startStateOf t) = 1 := by simp [growRows, startStateOf]
  have hgc : growCols (startStateOf t) = 0 := by simp [growCols, startStateOf]
  have hsr : shiftRow (startStateOf t) = 1 := by simp [shiftRow, startStateOf]
  have hsc : shiftCol (startStateOf t) = 0 := by simp [shiftCol, startStateOf]
  have hah : ahead (startStateOf t).dir (startStateOf t).rowPos (startStateOf t).colPos
      = (0, 1) := by simp [ahead, startStateOf]
  refine ⟨startStateOf t, r, start_snd ht, hrow0, hstep, ?_⟩
  rcases forward_cases hw sequence hr with
    ⟨_, m', text, F', hreq, hF', hgl, hwin, hframe⟩ | ⟨hno, _⟩
  swap
  · exact absurd (revealOk_of_grow hw sequence (by rw [hgr]; simp)) hno
  subst hreq
  simp only [hgr, hgc, hsr, hsc, hah, saved] at hF' hgl hwin hframe ⊢
  have hrows : (startStateOf t).rows = 3 := rfl
  have hcols : (startStateOf t).cols = 3 := rfl
  have hdir : (startStateOf t).dir = NORTH := rfl
  rw [hrows, hcols] at hF'
  norm_num at hF' hgl hwin hframe
  rw [hdir] at hgl hwin hframe
  obtain ⟨hrect', hh', hw'⟩ := hF'.rect (by omega)
  have hcell : ∀ k : Nat, k < 3 → cellAt (startStateOf t).map 0 k = charAt t k := by
    intro k hk
    simp only [cellAt, hrow0 k hk, Option.getD_some]
  have hrp : (startStateOf t).rowPos = 1 := rfl
  have hcp : (startStateOf t).colPos = 1 := rfl
  have hc10 : getCell m' 1 0 = some (charAt t 0) := by
    rw [hF'.get (by omega) (by omega) (by omega) (by omega), hframe 1 0 (by simp) (by
      intro k hk; simp [scanCell])]
    simp only [midCell, hsr, hsc, hrows, hcols, hrp, hcp]
    norm_num
    simpa using hcell 0 (by omega)
  have hc12 : getCell m' 1 2 = some (charAt t 2) := by
    rw [hF'.get (by omega) (by omega) (by omega) (by omega), hframe 1 2 (by simp) (by
      intro k hk; simp [scanCell])]
    simp only [midCell, hsr, hsc, hrows, hcols, hrp, hcp]
    norm_num
    simpa using hcell 2 (by omega)
  have hc11 : getCell m' 1 1 = some '^' := by
    rw [hF'.get (by omega) (by omega) (by omega) (by omega), hgl]; rfl
  refine ⟨rfl, hh', hw', ?_, ?_, ?_, ?_, rfl, ?_, hc10, hc11, ?_, hc12, ?_⟩
  · rw [hrows]; norm_num
  · rw [hcols]; norm_num
  · norm_num
  · norm_num
  · intro k hk
    have h1 := hwin k hk
    simp only [scanCell, if_true] at h1
    norm_num at h1
    rw [hF'.get (by omega) (by omega) (by omega) (by omega), h1]
  · exact hahead
  · intro k hk
    simp only [content]
    interval_cases k
    · simpa using hc10
    · simpa using hahead
    · simpa using hc12

/-- Witness for C14: start-up with `.a.` and then `forward x#y`. -/
theorem forward_after_start_witness :
    ValidSequence ".a.".toList ∧ ValidSequence "x#y".toList ∧ charAt ".a.".toList 1 ≠ '#' ∧
    (start ".a.".toList).bind (fun r0 =>
        (step r0.2 "forward".toList "x#y".toList).map fun r => r.2.map) =
      some ["x#y".toList, ".^.".toList, "   ".toList, "   ".toList] ∧
    ∃ s0 r, (start ".a.".toList).map Prod.snd = some s0 ∧
      (∀ k : Nat, k < 3 → getCell s0.map 0 k = some (charAt ".a.".toList k)) ∧
      step s0 "forward".toList "x#y".toList = some r ∧ r.1.isShown = true ∧
      height r.2.map = 4 ∧ width r.2.map = 3 ∧ r.2.rows = 4 ∧ r.2.cols = 3 ∧
      r.2.rowPos = 1 ∧ r.2.colPos = 1 ∧ r.2.dir = NORTH ∧
      (∀ k : Nat, k < 3 → getCell r.2.map 0 k = some (charAt "x#y".toList k)) ∧
      getCell r.2.map 1 0 = some (charAt ".a.".toList 0) ∧ getCell r.2.map 1 1 = some '^' ∧
      r.2.last = charAt ".a.".toList 1 ∧ getCell r.2.map 1 2 = some (charAt ".a.".toList 2) ∧
      (∀ k : Nat, k < 3 → content r.2 1 k = some (charAt ".a.".toList k)) :=
  ⟨by decide, by decide, by decide, by decide,
    forward_after_start ".a.".toList "x#y".toList (by decide) (by decide) (by decide)⟩

/-! ### Reachable states are well-formed -/

/-- Being well-formed depends on the grid, `rows`, `cols`, the facing and the
position only. -/
theorem WellFormed.of_fields {s s' : State} (hw : WellFormed s) (hm : s'.map = s.map)
    (hr : s'.rows = s.rows) (hc : s'.cols = s.cols) (hd : s'.dir = s.dir)
    (hrp : s'.rowPos = s.rowPos) (hcp : s'.colPos = s.colPos) : WellFormed s' := by
  unfold WellFormed at hw ⊢
  rw [hm, hr, hc, hd, hrp, hcp]
  exact hw

/-- `moveForward` keeps the state well-formed, however it ends. -/
theorem moveForward_wellFormed {s : State} (hw : WellFormed s) {sequence : List Char}
    {r : Outcome × State} (hr : moveForward s sequence = some r) : WellFormed r.2 := by
  rcases forward_cases hw sequence hr with ⟨_, m', text, F', hreq, hF', _⟩ | ⟨_, hreq, _⟩
  · obtain ⟨n1, n2, n3, n4⟩ := forward_newpos_bounds hw
    obtain ⟨_, _, _, hvd, hr1, hr2, hc1, hc2⟩ := id hw
    obtain ⟨b1, b2, b3, b4, b5, b6⟩ := shift_bounds s
    obtain ⟨hrect', hh', hw'⟩ := hF'.rect (by omega)
    subst hreq
    exact ⟨hrect', hh'.symm, hw'.symm, hvd, n1, n2, n3, n4⟩
  · subst hreq
    exact hw.of_fields rfl rfl rfl rfl rfl rfl

/-- A turn keeps the state well-formed, however it ends. -/
theorem turnTo_wellFormed {s : State} (hw : WellFormed s) (d : Int) (hd : validDir d)
    {sequence : List Char} {r : Outcome × State}
    (hr : turnTo (saved s) d (scanCell d s.rowPos s.colPos) sequence = some r) :
    WellFormed r.2 := by
  rcases turn_cases hw d hd sequence hr with ⟨_, m', text, F', hreq, hF', _⟩ | ⟨_, hreq⟩
  · obtain ⟨_, _, _, _, hr1, hr2, hc1, hc2⟩ := id hw
    obtain ⟨hrect', hh', hw'⟩ := hF'.rect (by omega)
    subst hreq
    exact ⟨hrect', hh'.symm, hw'.symm, hd, hr1, hr2, hc1, hc2⟩
  · subst hreq
    exact hw.of_fields rfl rfl rfl rfl rfl rfl

/-- The `forward` branch of the command loop returns and keeps the state
well-formed. -/
theorem forward_wellFormed {s : State} (hw : WellFormed s) (sequence : List Char) :
    ∃ r, forward s sequence = some r ∧ WellFormed r.2 := by
  have hvf := validForward_spec hw
  by_cases hwall : cellAt s.map (ahead s.dir s.rowPos s.colPos).1
      (ahead s.dir s.rowPos s.colPos).2 = '#'
  · exact ⟨(Outcome.blocked, s), by simp [forward, hvf, hwall], hw⟩
  · obtain ⟨r, hr⟩ := moveForward_total hw sequence
    exact ⟨r, by simp [forward, hvf, hwall, hr], moveForward_wellFormed hw hr⟩

/-- One round of the command loop returns and keeps the state well-formed. -/
theorem step_wellFormed {s : State} (hw : WellFormed s) (command sequence : List Char) :
    ∃ r, step s command sequence = some r ∧ WellFormed r.2 := by
  have hvd : validDir s.dir := hw.2.2.2.1
  unfold step
  split_ifs
  · exact forward_wellFormed hw sequence
  · exact ⟨_, rfl, hw⟩
  · obtain ⟨r, hr⟩ := turnTo_saved_total hw _ (validDir_turnedRight hvd) sequence
    exact ⟨r, (turnRight_eq hw sequence).trans hr,
      turnTo_wellFormed hw _ (validDir_turnedRight hvd) hr⟩
  · exact ⟨_, rfl, hw⟩
  · obtain ⟨r, hr⟩ := turnTo_saved_total hw _ (validDir_turnedLeft hvd) sequence
    exact ⟨r, (turnLeft_eq hw sequence).trans hr,
      turnTo_wellFormed hw _ (validDir_turnedLeft hvd) hr⟩
  · exact ⟨_, rfl, hw⟩
  · exact ⟨_, rfl, hw⟩

/-- Every reachable state is well-formed. -/
theorem Reachable.wellFormed {s : State} (hr : Reachable s) : WellFormed s := by
  induction hr with
  | init sequence hv h =>
    rw [start_snd hv] at h
    cases Option.some.inj h
    exact wellFormed_startStateOf hv
  | next _ _ h ih =>
    obtain ⟨r, hr, hwf⟩ := step_wellFormed ih _ _
    rw [hr] at h
    cases Option.some.inj h
    exact hwf

/-- The state after start-up with `...` is reachable. -/
theorem reachable_startState : Reachable startState :=
  Reachable.init "...".toList (by decide) (by decide)

/-- Running valid commands from a reachable state gives a reachable state. -/
theorem reachable_run : ∀ (cmds : List (List Char × List Char)) (s s' : State),
    Reachable s → (∀ p ∈ cmds, ValidSequence p.2) → run s cmds = some s' → Reachable s'
  | [], s, s', hr, _, h => by
    simp only [run, Option.some.injEq] at h
    exact h ▸ hr
  | (command, sequence) :: rest, s, s', hr, hv, h => by
    simp only [run] at h
    split_ifs at h
    · simp only [Option.some.injEq] at h
      exact h ▸ hr
    · cases hstep : step s command sequence with
      | none => rw [hstep] at h; simp at h
      | some r =>
        rw [hstep] at h
        simp only [Option.some_bind] at h
        have h1 : Reachable r.2 :=
          Reachable.next hr (hv (command, sequence) (by simp)) (by rw [hstep]; rfl)
        exact reachable_run rest r.2 s' h1 (fun p hp => hv p (by simp [hp])) h

/-- The row loop of `showMap` prints the first rows of the grid, one line each. -/
theorem printRows_take (m : Grid) :
    ∀ n, n ≤ m.length → loopUp n (printRow m) [] = some (linesText ((m.take n).map rowLine)) := by
  intro n
  induction n with
  | zero => intro _; simp [loopUp, linesText]
  | succ k ih =>
    intro hk
    have hk' : k < m.length := by omega
    have hr : m[k]? = some m[k] := List.getElem?_eq_getElem hk'
    rw [loopUp, ih (by omega), List.take_succ]
    simp only [Option.some_bind, printRow, hr, Option.toList, linesText, rowLine, List.map_append,
      List.map_cons, List.map_nil, List.flatten_append, List.flatten_cons, List.flatten_nil,
      List.append_nil, List.append_assoc, List.cons_append, List.nil_append, List.singleton_append]

/-- C16: for a rectangular grid of height `h` and width `w`, an actor position
inside the grid and one of the four facings, `showMap` overlays the actor's
cell with the glyph of the facing (`^` North, `V` South, `>` East, `<` West),
leaves every other cell as stored, and prints exactly `h + 2` lines: the frame
line `+`, `w` times `-`, `+`, then for each row in order `|`, the row's
`w` characters, `|`, then the frame line again. -/
theorem showMap_prints_framed_rows (map : Grid) (h w r c d : Int)
    (hrect : Rectangular map) (hh : height map = h) (hwd : width map = w) (hd : validDir d)
    (hr0 : 0 ≤ r) (hr : r < h) (hc0 : 0 ≤ c) (hc : c < w) :
    ∃ m', showMap map h r c d =
        some (m', linesText ([frameLine w.toNat] ++ m'.map rowLine ++ [frameLine w.toNat])) ∧
      (([frameLine w.toNat] ++ m'.map rowLine ++ [frameLine w.toNat]).length : Int) = h + 2 ∧
      height m' = h ∧ (∀ row ∈ m', (row.length : Int) = w) ∧
      getCell m' r c = some (glyph d) ∧
      (∀ i j, (i, j) ≠ (r, c) → getCell m' i j = getCell map i j) ∧
      glyph NORTH = '^' ∧ glyph SOUTH = 'V' ∧ glyph EAST = '>' ∧ glyph WEST = '<' := by
  have hg : IsGrid map h w (cellAt map) :=
    isGrid_cellAt hh (fun row hrow => (hrect row hrow).trans hwd)
  obtain ⟨m', hm', hG⟩ := showMapGlyph_spec hg hd hr0 hr hc0 hc
  obtain ⟨row0, hrow0, hlen0⟩ := hG.row0 (by omega)
  have hlen : (m'.length : Int) = h := hG.1
  have hbody := printRows_take m' h.toNat (by omega)
  rw [List.take_of_length_le (by omega)] at hbody
  have hw0 : row0.length = w.toNat := by omega
  refine ⟨m', ?_, ?_, hlen, hG.2.1, ?_, ?_, by decide, by decide, by decide, by decide⟩
  · simp only [showMap, hm', borderLine, hrow0, hbody, Option.bind_eq_bind, Option.some_bind,
      bind, pure, hw0]
    simp only [linesText, frameLine, List.map_append, List.map_cons, List.map_nil,
      List.flatten_append, List.flatten_cons, List.flatten_nil, List.append_nil,
      List.append_assoc, List.cons_append, List.nil_append, List.singleton_append]
  · simp only [List.length_append, List.length_cons, List.length_nil, List.length_map]
    push_cast
    omega
  · rw [hG.get hr0 hr hc0 hc]; simp
  · intro i j hij
    by_cases hin : 0 ≤ i ∧ i < h ∧ 0 ≤ j ∧ j < w
    · obtain ⟨i0, i1, j0, j1⟩ := hin
      rw [hG.get i0 i1 j0 j1, hg.get i0 i1 j0 j1]
      have : ¬ (i = r ∧ j = c) := fun hc' => hij (Prod.ext hc'.1 hc'.2)
      simp only [this, if_false]
    · rw [getCell_outside hG (by omega), getCell_outside hg (by omega)]

/-- Witness for C16: the grid `ab`, `cd` with the actor at (1, 0) facing South. -/
theorem showMap_prints_framed_rows_witness :
    (showMap ["ab".toList, "cd".toList] 2 1 0 SOUTH).map Prod.snd =
      some "+--+\n|ab|\n|Vd|\n+--+\n".toList ∧
    ∃ m', showMap ["ab".toList, "cd".toList] 2 1 0 SOUTH =
        some (m', linesText ([frameLine (2 : Int).toNat] ++ m'.map rowLine ++
          [frameLine (2 : Int).toNat])) ∧
      (([frameLine (2 : Int).toNat] ++ m'.map rowLine ++ [frameLine (2 : Int).toNat]).length
        : Int) = 2 + 2 ∧
      height m' = 2 ∧ (∀ row ∈ m', (row.length : Int) = 2) ∧
      getCell m' 1 0 = some (glyph SOUTH) ∧
      (∀ i j, (i, j) ≠ ((1 : Int), (0 : Int)) →
        getCell m' i j = getCell ["ab".toList, "cd".toList] i j) ∧
      glyph NORTH = '^' ∧ glyph SOUTH = 'V' ∧ glyph EAST = '>' ∧ glyph WEST = '<' :=
  ⟨by decide,
    showMap_prints_framed_rows ["ab".toList, "cd".toList] 2 2 1 0 SOUTH (by decide) (by decide)
      (by decide) (by decide) (by decide) (by decide) (by decide) (by decide)⟩

/-- C17 (counterexample): `expandMap` on the grid `ab`, `cd` with two extra
rows, two extra columns and both shift parameters 2 returns the old content
unshifted: the old cell (0, 0), which holds `a`, is still at (0, 0), and the
cell (2, 2) holds a space. -/
theorem expandMap_shift_two_not_shifted :
    expandMap ["ab".toList, "cd".toList] 2 2 2 2 2 =
      some (["ab  ".toList, "cd  ".toList, "    ".toList, "    ".toList], 4) ∧
    getCell ["ab".toList, "cd".toList] 0 0 = some 'a' ∧
    (expandMap ["ab".toList, "cd".toList] 2 2 2 2 2).map (fun r => getCell r.1 (0 + 2) (0 + 2)) =
      some (some ' ') := by
  decide

/-- C17 (amended): on a rectangular grid of height `h` (at least 1, row 0
being read) and width `w`, with `extraRows, extraCols ≥ 0` and any values of
the shift parameters (a parameter equal to 1 needing one extra row or column),
`expandMap` returns a rectangular grid of height `h + extraRows` and width
`w + extraCols` in which the old cell `(i, j)` is at `(i + sr, j + sc)`, where
`sr` is 1 when `shiftRows` is 1 and 0 for every other value, and `sc` likewise
for `shiftCols`; every other cell is a space. The shift parameters are flags:
a value other than 1, such as 2, shifts nothing. -/
theorem expandMap_shift_is_flag (map : Grid) (h w extraRows extraCols shiftRows shiftCols : Int)
    (hrect : Rectangular map) (hh : height map = h) (hwd : width map = w) (h1 : 1 ≤ h)
    (her : 0 ≤ extraRows) (hec : 0 ≤ extraCols)
    (hsr : shiftRows = 1 → 1 ≤ extraRows) (hsc : shiftCols = 1 → 1 ≤ extraCols) :
    ∃ m', expandMap map h extraRows extraCols shiftRows shiftCols = some (m', h + extraRows) ∧
      Rectangular m' ∧ height m' = h + extraRows ∧ width m' = w + extraCols ∧
      (∀ i j, 0 ≤ i → i < h → 0 ≤ j → j < w →
        getCell m' (i + (if shiftRows = 1 then 1 else 0)) (j + (if shiftCols = 1 then 1 else 0))
          = getCell map i j) ∧
      (∀ a b, 0 ≤ a → a < h + extraRows → 0 ≤ b → b < w + extraCols →
        ¬ ((if shiftRows = 1 then 1 else 0) ≤ a ∧ a - (if shiftRows = 1 then 1 else 0) < h ∧
          (if shiftCols = 1 then 1 else 0) ≤ b ∧ b - (if shiftCols = 1 then 1 else 0) < w) →
        getCell m' a b = some ' ') ∧
      (shiftRows ≠ 1 → shiftCols ≠ 1 →
        ∀ i j, 0 ≤ i → i < h → 0 ≤ j → j < w → getCell m' i j = getCell map i j) := by
  have hg : IsGrid map h w (cellAt map) :=
    isGrid_cellAt hh (fun row hrow => (hrect row hrow).trans hwd)
  obtain ⟨m', hm', hG⟩ := expandMap_spec hg h1 extraRows extraCols shiftRows shiftCols her hec
    hsr hsc
  obtain ⟨hrect', hh', hw'⟩ := hG.rect (by omega)
  have hsr01 : (if shiftRows = 1 then (1 : Int) else 0) = 0 ∨
      ((if shiftRows = 1 then (1 : Int) else 0) = 1 ∧ 1 ≤ extraRows) := by
    by_cases hs : shiftRows = 1
    · exact Or.inr ⟨by simp [hs], hsr hs⟩
    · exact Or.inl (by simp [hs])
  have hsc01 : (if shiftCols = 1 then (1 : Int) else 0) = 0 ∨
      ((if shiftCols = 1 then (1 : Int) else 0) = 1 ∧ 1 ≤ extraCols) := by
    by_cases hs : shiftCols = 1
    · exact Or.inr ⟨by simp [hs], hsc hs⟩
    · exact Or.inl (by simp [hs])
  have hsr0 : shiftRows ≠ 1 → (if shiftRows = 1 then (1 : Int) else 0) = 0 := by
    intro hs; simp [hs]
  have hsc0 : shiftCols ≠ 1 → (if shiftCols = 1 then (1 : Int) else 0) = 0 := by
    intro hs; simp [hs]
  generalize (if shiftRows = 1 then (1 : Int) else 0) = sr at hG hsr01 hsr0 ⊢
  generalize (if shiftCols = 1 then (1 : Int) else 0) = sc at hG hsc01 hsc0 ⊢
  have key : ∀ i j, 0 ≤ i → i < h → 0 ≤ j → j < w →
      getCell m' (i + sr) (j + sc) = getCell map i j := by
    intro i j hi0 hi hj0 hj
    rw [hG.get (by omega) (by omega) (by omega) (by omega), hg.get hi0 hi hj0 hj]
    have hc : sr ≤ i + sr ∧ i + sr - sr < h ∧ sc ≤ j + sc ∧ j + sc - sc < w := by omega
    rw [if_pos hc]
    simp only [add_sub_cancel_right]
  refine ⟨m', hm', hrect', hh', hw', key, ?_, ?_⟩
  · intro a b ha0 ha hb0 hb hnot
    rw [hG.get ha0 ha hb0 hb]
    simp only [hnot, if_false]
  · intro hr hc i j hi0 hi hj0 hj
    have := key i j hi0 hi hj0 hj
    rw [hsr0 hr, hsc0 hc, add_zero, add_zero] at this
    exact this

/-- Witness for C17: the 2 by 2 grid `ab`, `cd` grown by two rows and two
columns with `shiftRows` 2 and `shiftCols` 1: the rows are not shifted and the
columns are shifted by one. -/
theorem expandMap_shift_is_flag_witness :
    expandMap ["ab".toList, "cd".toList] 2 2 2 2 1 =
      some ([" ab ".toList, " cd ".toList, "    ".toList, "    ".toList], 4) ∧
    ∃ m', expandMap ["ab".toList, "cd".toList] 2 2 2 2 1 = some (m', 2 + 2) ∧
      Rectangular m' ∧ height m' = 2 + 2 ∧ width m' = 2 + 2 ∧
      (∀ i j, 0 ≤ i → i < 2 → 0 ≤ j → j < 2 →
        getCell m' (i + (if (2 : Int) = 1 then 1 else 0)) (j + (if (1 : Int) = 1 then 1 else 0))
          = getCell ["ab".toList, "cd".toList] i j) ∧
      (∀ a b, 0 ≤ a → a < 2 + 2 → 0 ≤ b → b < 2 + 2 →
        ¬ ((if (2 : Int) = 1 then 1 else 0) ≤ a ∧ a - (if (2 : Int) = 1 then 1 else 0) < 2 ∧
          (if (1 : Int) = 1 then 1 else 0) ≤ b ∧ b - (if (1 : Int) = 1 then 1 else 0) < 2) →
        getCell m' a b = some ' ') ∧
      ((2 : Int) ≠ 1 → (1 : Int) ≠ 1 →
        ∀ i j, 0 ≤ i → i < 2 → 0 ≤ j → j < 2 →
          getCell m' i j = getCell ["ab".toList, "cd".toList] i j) :=
  ⟨by decide,
    expandMap_shift_is_flag ["ab".toList, "cd".toList] 2 2 2 2 2 1 (by decide) (by decide)
      (by decide) (by decide) (by decide) (by decide) (by decide) (by decide)⟩

theorem turnedRight_ne {d : Int} (hd : validDir d) : turnedRight d ≠ d := by
  rcases hd with hd | hd | hd | hd <;> subst hd <;> decide

theorem turnedLeft_two_rights {d : Int} (hd : validDir d) :
    turnedLeft (turnedRight (turnedRight d)) = turnedRight d := by
  rcases hd with hd | hd | hd | hd <;> subst hd <;> decide

/-- C15 (counterexample): from the reachable state after start-up with `...`,
the commands right, right, left with `...` are all committed, and the facing
after them is East while the facing before them was North. -/
theorem right_right_left_faces_east :
    Reachable startState ∧ startState.dir = NORTH ∧
    (turnRight startState "...".toList).bind (fun r1 =>
      (turnRight r1.2 "...".toList).bind fun r2 =>
        (turnLeft r2.2 "...".toList).map fun r3 =>
          (r1.1.isShown, r2.1.isShown, r3.1.isShown, r3.2.dir)) =
      some (true, true, true, EAST) ∧
    EAST ≠ NORTH :=
  ⟨Reachable.init "...".toList (by decide) (by decide), by decide, by decide,
    by decide⟩

/-- C15 (amended): from a reachable state the turns return, and if two
consecutive `turnRight` commands followed by one `turnLeft` command are all
committed, the facing after the three commands is the facing one right turn
after the facing before them (so it differs from it), and the actor's row and
column are unchanged throughout. -/
theorem right_right_left_is_one_right (s : State) (a b c : List Char) (hr : Reachable s) :
    ∃ r1, turnRight s a = some r1 ∧
      (r1.1.isShown = true →
        r1.2.rowPos = s.rowPos ∧ r1.2.colPos = s.colPos ∧
        ∃ r2, turnRight r1.2 b = some r2 ∧
          (r2.1.isShown = true →
            r2.2.rowPos = s.rowPos ∧ r2.2.colPos = s.colPos ∧
            ∃ r3, turnLeft r2.2 c = some r3 ∧
              (r3.1.isShown = true →
                r3.2.rowPos = s.rowPos ∧ r3.2.colPos = s.colPos ∧
                r3.2.dir = turnedRight s.dir ∧ r3.2.dir ≠ s.dir))) := by
  have hw := hr.wellFormed
  have hvd : validDir s.dir := hw.2.2.2.1
  obtain ⟨r1, h1⟩ := turnTo_saved_total hw _ (validDir_turnedRight hvd) a
  have h1' := (turnRight_eq hw a).trans h1
  refine ⟨r1, h1', fun s1 => ?_⟩
  obtain ⟨d1, p1, q1, _, w1⟩ := turnRight_committed hw h1' s1
  have hvd1 : validDir r1.2.dir := w1.2.2.2.1
  obtain ⟨r2, h2⟩ := turnTo_saved_total w1 _ (validDir_turnedRight hvd1) b
  have h2' := (turnRight_eq w1 b).trans h2
  refine ⟨p1, q1, r2, h2', fun s2 => ?_⟩
  obtain ⟨d2, p2, q2, _, w2⟩ := turnRight_committed w1 h2' s2
  have hvd2 : validDir r2.2.dir := w2.2.2.2.1
  obtain ⟨r3, h3⟩ := turnTo_saved_total w2 _ (validDir_turnedLeft hvd2) c
  have h3' := (turnLeft_eq w2 c).trans h3
  refine ⟨p2.trans p1, q2.trans q1, r3, h3', fun s3 => ?_⟩
  obtain ⟨d3, p3, q3, _, _⟩ := turnLeft_committed w2 h3' s3
  have hdir : r3.2.dir = turnedRight s.dir := by
    rw [d3, d2, d1, turnedLeft_two_rights hvd]
  exact ⟨p3.trans (p2.trans p1), q3.trans (q2.trans q1), hdir, by rw [hdir]; exact turnedRight_ne hvd⟩

/-- Witness for C15: the state after start-up with `...` is reachable, and
there right, right, left with `...` are all committed. -/
theorem right_right_left_is_one_right_witness :
    Reachable startState ∧
    ∃ r1, turnRight startState "...".toList = some r1 ∧
      (r1.1.isShown = true →
        r1.2.rowPos = startState.rowPos ∧ r1.2.colPos = startState.colPos ∧
        ∃ r2, turnRight r1.2 "...".toList = some r2 ∧
          (r2.1.isShown = true →
            r2.2.rowPos = startState.rowPos ∧ r2.2.colPos = startState.colPos ∧
            ∃ r3, turnLeft r2.2 "...".toList = some r3 ∧
              (r3.1.isShown = true →
                r3.2.rowPos = startState.rowPos ∧ r3.2.colPos = startState.colPos ∧
                r3.2.dir = turnedRight startState.dir ∧ r3.2.dir ≠ startState.dir))) :=
  ⟨Reachable.init "...".toList (by decide) (by decide),
    right_right_left_is_one_right startState "...".toList "...".toList "...".toList
      (Reachable.init "...".toList (by decide) (by decide))⟩

/-- C18: in every reachable state the actor is at least one cell inside every
edge of the grid, and the commands stay inside the grid: `validForward`,
`moveForward`, `turnLeft`, `turnRight` (for every sequence) and `showMap`
return a result, which they do only when every read and write was in bounds. -/
theorem reachable_actor_inside (s : State) (hr : Reachable s) :
    1 ≤ s.rowPos ∧ s.rowPos ≤ height s.map - 2 ∧ 1 ≤ s.colPos ∧ s.colPos ≤ width s.map - 2 ∧
    (∃ v, validForward s = some v) ∧
    (∀ sequence, (∃ r, moveForward s sequence = some r) ∧ (∃ r, turnLeft s sequence = some r) ∧
      (∃ r, turnRight s sequence = some r)) ∧
    (∃ r, showMap s.map s.rows s.rowPos s.colPos s.dir = some r) := by
  have hw := hr.wellFormed
  have hg := hw.isGrid
  obtain ⟨_, hrows, hcols, hvd, hr1, hr2, hc1, hc2⟩ := id hw
  refine ⟨hr1, by rw [← hrows]; exact hr2, hc1, by rw [← hcols]; exact hc2,
    ⟨_, validForward_spec hw⟩, ?_, ?_⟩
  · intro sequence
    refine ⟨moveForward_total hw sequence, ?_, ?_⟩
    · obtain ⟨r, h⟩ := turnTo_saved_total hw _ (validDir_turnedLeft hvd) sequence
      exact ⟨r, (turnLeft_eq hw sequence).trans h⟩
    · obtain ⟨r, h⟩ := turnTo_saved_total hw _ (validDir_turnedRight hvd) sequence
      exact ⟨r, (turnRight_eq hw sequence).trans h⟩
  · obtain ⟨m', text, h, _⟩ := showMap_spec hg hvd (by omega : 0 ≤ s.rowPos) (by omega)
      (by omega : 0 ≤ s.colPos) (by omega)
    exact ⟨_, h⟩

/-- Witness for C18: `westState` is reachable, by start-up with `...` and the
commands of `westScript`. -/
theorem reachable_actor_inside_witness :
    Reachable westState ∧
    1 ≤ westState.rowPos ∧ westState.rowPos ≤ height westState.map - 2 ∧
    1 ≤ westState.colPos ∧ westState.colPos ≤ width westState.map - 2 ∧
    (∃ v, validForward westState = some v) ∧
    (∀ sequence, (∃ r, moveForward westState sequence = some r) ∧
      (∃ r, turnLeft westState sequence = some r) ∧
      (∃ r, turnRight westState sequence = some r)) ∧
    (∃ r, showMap westState.map westState.rows westState.rowPos westState.colPos westState.dir
      = some r) :=
  ⟨reachable_run westScript startState westState
      (Reachable.init "...".toList (by decide) (by decide)) (by decide) (by decide),
    reachable_actor_inside westState
      (reachable_run westScript startState westState
        (Reachable.init "...".toList (by decide) (by decide)) (by decide)
        (by decide))⟩

/-- C19 (the code at the failing input): after start-up with `...`, the
commands of `westScript` and the rejected command `forward ..#`, the program is
in the reachable state `rejectedState`, whose `last` is the glyph `<`; after
the further command `forward ...`, which is committed, it is in the reachable
state `glyphState`, where the actor is at (1, 1) and the cell (1, 2), which is
not the actor's, holds the glyph `<`. -/
theorem glyph_persisted_after_rejection :
    Reachable rejectedState ∧ Reachable glyphState ∧
    run startState (westScript ++ [("forward".toList, "..#".toList)]) = some rejectedState ∧
    run startState glyphScript = some glyphState ∧
    step westState "forward".toList "..#".toList = some (Outcome.inconsistent, rejectedState) ∧
    (step rejectedState "forward".toList "...".toList).map (fun r => (r.1.isShown, r.2)) =
      some (true, glyphState) ∧
    rejectedState.last = '<' ∧ isGlyph rejectedState.last ∧
    (glyphState.rowPos, glyphState.colPos) = (1, 1) ∧
    getCell glyphState.map 1 2 = some '<' ∧ isGlyph '<' :=
  ⟨reachable_run (westScript ++ [("forward".toList, "..#".toList)]) startState rejectedState
      (Reachable.init "...".toList (by decide) (by decide)) (by decide) (by decide),
    reachable_run glyphScript startState glyphState
      (Reachable.init "...".toList (by decide) (by decide)) (by decide) (by decide),
    by decide, by decide, by decide, by decide, by decide, by decide, by decide, by decide,
    by decide⟩

/-- C20: in every reachable state all rows of the grid have the same length,
that length is `cols`, and the number of rows is `rows`; so the column
`cols - 1` of the east-edge test and the row `rows - 1` of the south-edge test
are the last column and the last row of the grid. -/
theorem reachable_dimensions_tracked (s : State) (hr : Reachable s) :
    Rectangular s.map ∧ (∀ row ∈ s.map, (row.length : Int) = s.cols) ∧
    width s.map = s.cols ∧ height s.map = s.rows ∧
    (s.colPos = s.cols - 1 ↔ s.colPos = width s.map - 1) ∧
    (s.rowPos = s.rows - 1 ↔ s.rowPos = height s.map - 1) := by
  have hw := hr.wellFormed
  obtain ⟨hrect, hrows, hcols, _⟩ := hw
  refine ⟨hrect, fun row hrow => (hrect row hrow).trans hcols.symm, hcols.symm, hrows.symm, ?_, ?_⟩
  · rw [hcols]
  · rw [hrows]

/-- Witness for C20: `westState` is reachable, by start-up with `...` and the
commands of `westScript`. -/
theorem reachable_dimensions_tracked_witness :
    Reachable westState ∧
    Rectangular westState.map ∧ (∀ row ∈ westState.map, (row.length : Int) = westState.cols) ∧
    width westState.map = westState.cols ∧ height westState.map = westState.rows ∧
    (westState.colPos = westState.cols - 1 ↔ westState.colPos = width westState.map - 1) ∧
    (westState.rowPos = westState.rows - 1 ↔ westState.rowPos = height westState.map - 1) :=
  ⟨reachable_run westScript startState westState
      (Reachable.init "...".toList (by decide) (by decide)) (by decide) (by decide),
    reachable_dimensions_tracked westState
      (reachable_run westScript startState westState
        (Reachable.init "...".toList (by decide) (by decide)) (by decide)
        (by decide))⟩

/-! ## Claims C21 and C22 -/

/-- In the grid before an expanding forward move the three target cells are
outside the grid. -/
theorem targets_outside_of_grow {s : State} (hw : WellFormed s)
    (hgrow : ¬ (growRows s = 0 ∧ growCols s = 0)) (k : Nat) :
    getCell s.map
      (scanCell s.dir (ahead s.dir s.rowPos s.colPos).1 (ahead s.dir s.rowPos s.colPos).2 k).1
      (scanCell s.dir (ahead s.dir s.rowPos s.colPos).1 (ahead s.dir s.rowPos s.colPos).2 k).2
      = none := by
  have hg := hw.isGrid
  obtain ⟨_, _, _, hvd, hr1, hr2, hc1, hc2⟩ := hw
  apply getCell_outside hg
  rcases hvd with hd | hd | hd | hd
  all_goals
    simp only [ahead, growRows, growCols, hd] at hgrow
    norm_num at hgrow
    simp only [scanCell, ahead, hd]
    norm_num
    omega

/-- C21: from a well-formed state and for every sequence `moveForward` returns,
and when the new position lands on the boundary in the direction of travel (a
North move on row 0, a South move on the last row, an East move on the last
column, a West move on column 0), so that the grid is expanded, the move is
committed and not rejected as inconsistent: the three target cells are outside
the grid as it was before the call, and in the expanded grid they are in the
added row or column (row 0, the new last row, the new last column, column 0). -/
theorem expanding_forward_never_rejected (s : State) (sequence : List Char)
    (hw : WellFormed s) :
    ∃ r, moveForward s sequence = some r ∧
      ((s.dir = NORTH ∧ s.rowPos - 1 = 0) ∨ (s.dir = SOUTH ∧ s.rowPos + 1 = s.rows - 1) ∨
        (s.dir = EAST ∧ s.colPos + 1 = s.cols - 1) ∨ (s.dir = WEST ∧ s.colPos - 1 = 0) →
        r.1.isShown = true ∧ r.1 ≠ Outcome.inconsistent ∧
        (∀ k, k < 3 →
          getCell s.map
            (scanCell s.dir (ahead s.dir s.rowPos s.colPos).1
              (ahead s.dir s.rowPos s.colPos).2 k).1
            (scanCell s.dir (ahead s.dir s.rowPos s.colPos).1
              (ahead s.dir s.rowPos s.colPos).2 k).2 = none) ∧
        (∀ k, k < 3 →
          (s.dir = NORTH → (scanCell r.2.dir r.2.rowPos r.2.colPos k).1 = 0) ∧
          (s.dir = SOUTH → (scanCell r.2.dir r.2.rowPos r.2.colPos k).1 = height r.2.map - 1) ∧
          (s.dir = EAST → (scanCell r.2.dir r.2.rowPos r.2.colPos k).2 = width r.2.map - 1) ∧
          (s.dir = WEST → (scanCell r.2.dir r.2.rowPos r.2.colPos k).2 = 0))) := by
  obtain ⟨r, hr⟩ := moveForward_total hw sequence
  refine ⟨r, hr, ?_⟩
  intro hexp
  have hgrow : ¬ (growRows s = 0 ∧ growCols s = 0) := by
    simp only [growRows, growCols]
    rcases hexp with h | h | h | h
    · simp [h]
    · simp [h]
    · intro hc; simp [h] at hc
    · intro hc; simp [h] at hc
  obtain ⟨_, hrows, hcols, _, hr1, hr2, hc1, hc2⟩ := id hw
  rcases forward_cases hw sequence hr with ⟨_, m', text, F', hreq, hF', _⟩ | ⟨_, _, h0, h1⟩
  swap
  · exact absurd ⟨h0, h1⟩ hgrow
  obtain ⟨b1, b2, b3, b4, b5, b6⟩ := shift_bounds s
  obtain ⟨hrect', hh', hw'⟩ := hF'.rect (by omega)
  subst hreq
  refine ⟨rfl, by simp, fun k _ => targets_outside_of_grow hw hgrow k, ?_⟩
  intro k hk
  simp only [saved, hh', hw']
  refine ⟨?_, ?_, ?_, ?_⟩
  · intro hd
    have hc : s.rowPos - 1 = 0 := by
      rcases hexp with h | h | h | h
      · exact h.2
      all_goals (rw [hd] at h; exact absurd h.1 (by decide))
    simp [scanCell, ahead, shiftRow, hd, hc]
  · intro hd
    have hc : s.rowPos + 1 = s.rows - 1 := by
      rcases hexp with h | h | h | h
      · rw [hd] at h; exact absurd h.1 (by decide)
      · exact h.2
      all_goals (rw [hd] at h; exact absurd h.1 (by decide))
    simp [scanCell, ahead, shiftRow, growRows, hd, hc, south_ne_north]
  · intro hd
    have hc : s.colPos + 1 = s.cols - 1 := by
      rcases hexp with h | h | h | h
      · rw [hd] at h; exact absurd h.1 (by decide)
      · rw [hd] at h; exact absurd h.1 (by decide)
      · exact h.2
      · rw [hd] at h; exact absurd h.1 (by decide)
    simp [scanCell, ahead, shiftCol, growCols, hd, hc, east_ne_north, east_ne_south]
  · intro hd
    have hc : s.colPos - 1 = 0 := by
      rcases hexp with h | h | h | h
      · rw [hd] at h; exact absurd h.1 (by decide)
      · rw [hd] at h; exact absurd h.1 (by decide)
      · rw [hd] at h; exact absurd h.1 (by decide)
      · exact h.2
    simp [scanCell, ahead, shiftCol, hd, hc, west_ne_north, west_ne_south, west_ne_east]

/-- Witness for C21: `startState` is well-formed, and there the forward move
with `abc` lands on row 0 and is committed. -/
theorem expanding_forward_never_rejected_witness :
    WellFormed startState ∧
    (startState.dir = NORTH ∧ startState.rowPos - 1 = 0) ∧
    (moveForward startState "abc".toList).map (fun r => r.1.isShown) = some true ∧
    ∃ r, moveForward startState "abc".toList = some r ∧
      ((startState.dir = NORTH ∧ startState.rowPos - 1 = 0) ∨
        (startState.dir = SOUTH ∧ startState.rowPos + 1 = startState.rows - 1) ∨
        (startState.dir = EAST ∧ startState.colPos + 1 = startState.cols - 1) ∨
        (startState.dir = WEST ∧ startState.colPos - 1 = 0) →
        r.1.isShown = true ∧ r.1 ≠ Outcome.inconsistent ∧
        (∀ k, k < 3 →
          getCell startState.map
            (scanCell startState.dir (ahead startState.dir startState.rowPos startState.colPos).1
              (ahead startState.dir startState.rowPos startState.colPos).2 k).1
            (scanCell startState.dir (ahead startState.dir startState.rowPos startState.colPos).1
              (ahead startState.dir startState.rowPos startState.colPos).2 k).2 = none) ∧
        (∀ k, k < 3 →
          (startState.dir = NORTH → (scanCell r.2.dir r.2.rowPos r.2.colPos k).1 = 0) ∧
          (startState.dir = SOUTH →
            (scanCell r.2.dir r.2.rowPos r.2.colPos k).1 = height r.2.map - 1) ∧
          (startState.dir = EAST →
            (scanCell r.2.dir r.2.rowPos r.2.colPos k).2 = width r.2.map - 1) ∧
          (startState.dir = WEST → (scanCell r.2.dir r.2.rowPos r.2.colPos k).2 = 0))) :=
  ⟨by decide, by decide, by decide,
    expanding_forward_never_rejected startState "abc".toList (by decide)⟩

theorem glyph_ne_space (d : Int) : glyph d ≠ ' ' := by
  unfold glyph
  split_ifs <;> decide

/-- No character of a sequence the specification admits is the unseen one. -/
theorem ValidSequence.charAt_ne_space {t : List Char} (hv : ValidSequence t) (k : Nat)
    (hk : k < 3) : charAt t k ≠ ' ' := by
  obtain ⟨hlen, hall⟩ := hv
  match t, hlen, hall with
  | [a, b, c], _, hall =>
    have ha := hall a (by simp)
    have hb := hall b (by simp)
    have hc := hall c (by simp)
    have key : ∀ x : Char, (x = '.' ∨ x = '#' ∨ (97 ≤ x.toNat ∧ x.toNat ≤ 122)) → x ≠ ' ' := by
      intro x hx hsp
      subst hsp
      rcases hx with h | h | h
      · exact absurd h (by decide)
      · exact absurd h (by decide)
      · exact absurd h.1 (by decide)
    match k, hk with
    | 0, _ => simpa [charAt] using key a ha
    | 1, _ => simpa [charAt] using key b hb
    | 2, _ => simpa [charAt] using key c hc

/-- The middle cell of the scan window is the cell ahead. -/
theorem scanCell_one {d : Int} (hd : validDir d) (r c : Int) :
    scanCell d r c 1 = ahead d r c := by
  rcases hd with hd | hd | hd | hd <;> subst hd <;> simp [scanCell, ahead]

/-- The window and the actor's cell depend on the grid, the facing and the
position only. -/
theorem windowSeen_transfer {s s' : State} (h : WindowSeen s) (hm : s'.map = s.map)
    (hd : s'.dir = s.dir) (hrp : s'.rowPos = s.rowPos) (hcp : s'.colPos = s.colPos) :
    WindowSeen s' := by
  unfold WindowSeen at h ⊢
  rw [hm, hd, hrp, hcp]
  exact h

theorem actorShown_transfer {s s' : State} (h : ActorShown s) (hm : s'.map = s.map)
    (hd : s'.dir = s.dir) (hrp : s'.rowPos = s.rowPos) (hcp : s'.colPos = s.colPos) :
    ActorShown s' := by
  unfold ActorShown at h ⊢
  rw [hm, hd, hrp, hcp]
  exact h

/-- A window that holds a valid sequence is seen. -/
theorem windowSeen_of_window {s : State} {sequence : List Char} (hv : ValidSequence sequence)
    (h : ∀ k, k < 3 →
      getCell s.map (scanCell s.dir s.rowPos s.colPos k).1
        (scanCell s.dir s.rowPos s.colPos k).2 = some (charAt sequence k)) : WindowSeen s := by
  intro k hk
  rw [cellAt, h k hk]
  exact hv.charAt_ne_space k hk

/-- A turn with a valid sequence keeps the window of the current facing seen,
the glyph on the actor's cell, and `last`. -/
theorem turnTo_seen {s : State} (hw : WellFormed s) (hs : WindowSeen s) (ha : ActorShown s)
    (d : Int) (hd : validDir d) {sequence : List Char} (hv : ValidSequence sequence)
    {r : Outcome × State}
    (hr : turnTo (saved s) d (scanCell d s.rowPos s.colPos) sequence = some r) :
    WindowSeen r.2 ∧ ActorShown r.2 ∧ r.2.last = s.last := by
  rcases turn_cases hw d hd sequence hr with ⟨_, m', text, F', hreq, hF', hgl, _⟩ | ⟨_, hreq⟩
  · have hshown : r.1.isShown = true := by subst hreq; rfl
    obtain ⟨_, _, _, hlast, _, hwin⟩ := turn_window hw d hd sequence hr hshown
    refine ⟨windowSeen_of_window hv hwin, ?_, hlast⟩
    obtain ⟨_, _, _, _, hr1, hr2, hc1, hc2⟩ := id hw
    subst hreq
    have := hF'.get (i := s.rowPos) (j := s.colPos) (by omega) (by omega) (by omega) (by omega)
    simp only [ActorShown, saved]
    rw [this, hgl]
  · subst hreq
    exact ⟨windowSeen_transfer hs rfl rfl rfl rfl, actorShown_transfer ha rfl rfl rfl rfl, rfl⟩

/-- A forward move with a valid sequence keeps the window of the current facing
seen and the glyph on the actor's cell, and leaves a `last` that is not the
unseen character; when committed, `last` is the content of the cell ahead. -/
theorem moveForward_seen {s : State} (hw : WellFormed s) (hs : WindowSeen s)
    (ha : ActorShown s) {sequence : List Char} (hv : ValidSequence sequence)
    {r : Outcome × State} (hr : moveForward s sequence = some r) :
    WindowSeen r.2 ∧ ActorShown r.2 ∧ r.2.last ≠ ' ' ∧
    (r.1.isShown = true →
      getCell s.map (ahead s.dir s.rowPos s.colPos).1 (ahead s.dir s.rowPos s.colPos).2
        = some r.2.last) := by
  have hvd : validDir s.dir := hw.2.2.2.1
  rcases forward_cases hw sequence hr with ⟨_, m', text, F', hreq, hF', hgl, _⟩ | ⟨_, hreq, _⟩
  · have hshown : r.1.isShown = true := by subst hreq; rfl
    have hwin := forward_window hw sequence hr hshown
    obtain ⟨n1, n2, n3, n4⟩ := forward_newpos_bounds hw
    have hah := getCell_ahead hw
    have h1 := hs 1 (by decide)
    rw [scanCell_one hvd] at h1
    subst hreq
    refine ⟨windowSeen_of_window hv hwin, ?_, h1, fun _ => hah⟩
    have := hF'.get (i := (ahead s.dir s.rowPos s.colPos).1 + shiftRow s)
      (j := (ahead s.dir s.rowPos s.colPos).2 + shiftCol s)
      (by omega) (by omega) (by omega) (by omega)
    simp only [saved] at hgl
    simp only [ActorShown, saved]
    rw [this, hgl]
  · subst hreq
    refine ⟨windowSeen_transfer hs rfl rfl rfl rfl, actorShown_transfer ha rfl rfl rfl rfl, ?_, ?_⟩
    · have h : cellAt s.map s.rowPos s.colPos = glyph s.dir := by
        rw [cellAt, ha]; rfl
      simp only [saved]
      rw [h]
      exact glyph_ne_space _
    · intro h; simp [Outcome.isShown] at h

/-- One round of the command loop with a valid sequence returns, and keeps the
state well-formed, the window of the current facing seen and the glyph on the
actor's cell; `last` is kept or becomes a character other than the unseen
one. -/
theorem step_seen {s : State} (hw : WellFormed s) (hs : WindowSeen s) (ha : ActorShown s)
    (command : List Char) {sequence : List Char} (hv : ValidSequence sequence) :
    ∃ r, step s command sequence = some r ∧ WellFormed r.2 ∧ WindowSeen r.2 ∧
      ActorShown r.2 ∧ (r.2.last = s.last ∨ r.2.last ≠ ' ') := by
  have hvd : validDir s.dir := hw.2.2.2.1
  have hval : isValidSequence sequence ≠ 0 := by
    rw [isValidSequence_of_valid hv]; decide
  unfold step
  simp only [hval, ne_eq, not_false_eq_true, if_true]
  split_ifs
  · have hvf := validForward_spec hw
    by_cases hwall : cellAt s.map (ahead s.dir s.rowPos s.colPos).1
        (ahead s.dir s.rowPos s.colPos).2 = '#'
    · exact ⟨(Outcome.blocked, s), by simp [forward, hvf, hwall], hw, hs, ha, Or.inl rfl⟩
    · obtain ⟨r, hr⟩ := moveForward_total hw sequence
      obtain ⟨h1, h2, h3, _⟩ := moveForward_seen hw hs ha hv hr
      exact ⟨r, by simp [forward, hvf, hwall, hr], moveForward_wellFormed hw hr, h1, h2,
        Or.inr h3⟩
  · obtain ⟨r, hr⟩ := turnTo_saved_total hw _ (validDir_turnedRight hvd) sequence
    obtain ⟨h1, h2, h3⟩ := turnTo_seen hw hs ha _ (validDir_turnedRight hvd) hv hr
    exact ⟨r, (turnRight_eq hw sequence).trans hr,
      turnTo_wellFormed hw _ (validDir_turnedRight hvd) hr, h1, h2, Or.inl h3⟩
  · obtain ⟨r, hr⟩ := turnTo_saved_total hw _ (validDir_turnedLeft hvd) sequence
    obtain ⟨h1, h2, h3⟩ := turnTo_seen hw hs ha _ (validDir_turnedLeft hvd) hv hr
    exact ⟨r, (turnLeft_eq hw sequence).trans hr,
      turnTo_wellFormed hw _ (validDir_turnedLeft hvd) hr, h1, h2, Or.inl h3⟩
  · exact ⟨_, rfl, hw, hs, ha, Or.inl rfl⟩

/-- After start-up with a valid sequence the window is seen and the glyph is on
the actor's cell. -/
theorem startStateOf_seen {t : List Char} (hv : ValidSequence t) :
    WindowSeen (startStateOf t) ∧ ActorShown (startStateOf t) := by
  have h0 := hv.charAt_ne_space 0 (by decide)
  have h1 := hv.charAt_ne_space 1 (by decide)
  have h2 := hv.charAt_ne_space 2 (by decide)
  obtain ⟨hlen, _⟩ := id hv
  match t, hlen with
  | [a, b, c], _ =>
    constructor
    · intro k hk
      match k, hk with
      | 0, _ => simpa [startStateOf, scanCell, cellAt, getCell, charAt] using h0
      | 1, _ => simpa [startStateOf, scanCell, cellAt, getCell, charAt] using h1
      | 2, _ => simpa [startStateOf, scanCell, cellAt, getCell, charAt] using h2
    · simp [ActorShown, startStateOf, getCell, glyph]

/-- In every reachable state the window of the current facing is seen and the
glyph is on the actor's cell. -/
theorem Reachable.seen {s : State} (hr : Reachable s) : WindowSeen s ∧ ActorShown s := by
  induction hr with
  | init sequence hv h =>
    rw [start_snd hv] at h
    cases Option.some.inj h
    exact startStateOf_seen hv
  | next hprev hv h ih =>
    obtain ⟨r, hr, _, h1, h2, _⟩ := step_seen hprev.wellFormed ih.1 ih.2 _ hv
    rw [hr] at h
    cases Option.some.inj h
    exact ⟨h1, h2⟩

/-- Once `last` is not the unseen character it stays so through every run of
commands with valid sequences, and the run returns. -/
theorem run_last_seen : ∀ (cmds : List (List Char × List Char)) (s : State),
    WellFormed s → WindowSeen s → ActorShown s → s.last ≠ ' ' →
    (∀ p ∈ cmds, ValidSequence p.2) → ∃ s', run s cmds = some s' ∧ s'.last ≠ ' '
  | [], s, _, _, _, hl, _ => ⟨s, rfl, hl⟩
  | (command, sequence) :: rest, s, hw, hs, ha, hl, hv => by
    simp only [run]
    split_ifs
    · exact ⟨s, rfl, hl⟩
    · obtain ⟨r, hr, h1, h2, h3, h4⟩ :=
        step_seen hw hs ha command (hv (command, sequence) (by simp))
      have hl' : r.2.last ≠ ' ' := by
        rcases h4 with h | h
        · rw [h]; exact hl
        · exact h
      obtain ⟨s', hs', hls⟩ :=
        run_last_seen rest r.2 h1 h2 h3 hl' (fun p hp => hv p (by simp [hp]))
      exact ⟨s', by rw [hr]; simpa using hs', hls⟩

/-- C22: in every state reachable from start-up by commands with valid
sequences, the three cells of the actor's scan window for its current facing
are cells of the grid and none holds the unseen character, in particular the
cell directly ahead; hence a `forward` command with a valid sequence returns,
and when it is committed the actor steps onto a cell that is not unseen: the
new `last` is the content of the cell ahead and is not the unseen character,
and it stays different from the unseen character through every later run of
commands with valid sequences, which returns. -/
theorem reachable_window_seen (s : State) (hr : Reachable s) :
    (∀ k, k < 3 → ∃ ch,
      getCell s.map (scanCell s.dir s.rowPos s.colPos k).1
        (scanCell s.dir s.rowPos s.colPos k).2 = some ch ∧ ch ≠ ' ') ∧
    (∃ ch, getCell s.map (ahead s.dir s.rowPos s.colPos).1 (ahead s.dir s.rowPos s.colPos).2
      = some ch ∧ ch ≠ ' ') ∧
    (∀ sequence, ValidSequence sequence →
      ∃ r, step s "forward".toList sequence = some r ∧
        (r.1.isShown = true →
          getCell s.map (ahead s.dir s.rowPos s.colPos).1 (ahead s.dir s.rowPos s.colPos).2
            = some r.2.last ∧
          r.2.last ≠ ' ' ∧
          ∀ cmds : List (List Char × List Char), (∀ p ∈ cmds, ValidSequence p.2) →
            ∃ s', run r.2 cmds = some s' ∧ s'.last ≠ ' ')) := by
  have hw := hr.wellFormed
  obtain ⟨hs, ha⟩ := hr.seen
  have hg := hw.isGrid
  have hvd : validDir s.dir := hw.2.2.2.1
  have hwin : ∀ k, k < 3 → ∃ ch,
      getCell s.map (scanCell s.dir s.rowPos s.colPos k).1
        (scanCell s.dir s.rowPos s.colPos k).2 = some ch ∧ ch ≠ ' ' := by
    intro k hk
    obtain ⟨_, _, _, _, hr1, hr2, hc1, hc2⟩ := id hw
    obtain ⟨h1, h2, h3, h4⟩ := scanCell_inBounds hvd hr1 hr2 hc1 hc2 k hk
    exact ⟨_, hg.get h1 h2 h3 h4, hs k hk⟩
  refine ⟨hwin, ?_, ?_⟩
  · have h := hwin 1 (by decide)
    rw [scanCell_one hvd] at h
    exact h
  · intro sequence hv
    have hval : isValidSequence sequence ≠ 0 := by
      rw [isValidSequence_of_valid hv]; decide
    rw [step_forward_eq s hval]
    have hvf := validForward_spec hw
    by_cases hwall : cellAt s.map (ahead s.dir s.rowPos s.colPos).1
        (ahead s.dir s.rowPos s.colPos).2 = '#'
    · exact ⟨(Outcome.blocked, s), by simp [forward, hvf, hwall],
        fun h => by simp [Outcome.isShown] at h⟩
    · obtain ⟨r, hmv⟩ := moveForward_total hw sequence
      obtain ⟨h1, h2, h3, h4⟩ := moveForward_seen hw hs ha hv hmv
      refine ⟨r, by simp [forward, hvf, hwall, hmv], fun hshown => ⟨h4 hshown, h3, ?_⟩⟩
      intro cmds hcmds
      exact run_last_seen cmds r.2 (moveForward_wellFormed hw hmv) h1 h2 h3 hcmds

/-- Witness for C22: `startState` is reachable; there `last` is still the
unseen character, and the forward move with `abc` is committed and leaves the
dot that was ahead in `last`. -/
theorem reachable_window_seen_witness :
    Reachable startState ∧ startState.last = ' ' ∧
    (step startState "forward".toList "abc".toList).map (fun r => (r.1.isShown, r.2.last))
      = some (true, '.') ∧
    ((∀ k, k < 3 → ∃ ch,
      getCell startState.map (scanCell startState.dir startState.rowPos startState.colPos k).1
        (scanCell startState.dir startState.rowPos startState.colPos k).2 = some ch ∧
        ch ≠ ' ') ∧
    (∃ ch, getCell startState.map (ahead startState.dir startState.rowPos startState.colPos).1
      (ahead startState.dir startState.rowPos startState.colPos).2 = some ch ∧ ch ≠ ' ') ∧
    (∀ sequence, ValidSequence sequence →
      ∃ r, step startState "forward".toList sequence = some r ∧
        (r.1.isShown = true →
          getCell startState.map (ahead startState.dir startState.rowPos startState.colPos).1
            (ahead startState.dir startState.rowPos startState.colPos).2 = some r.2.last ∧
          r.2.last ≠ ' ' ∧
          ∀ cmds : List (List Char × List Char), (∀ p ∈ cmds, ValidSequence p.2) →
            ∃ s', run r.2 cmds = some s' ∧ s'.last ≠ ' '))) :=
  ⟨Reachable.init "...".toList (by decide) (by decide), by decide, by decide,
    reachable_window_seen startState (Reachable.init "...".toList (by decide) (by decide))⟩

end RPGMap
